import Mathlib

/-!
# Detection decode of the Hailo-8 YOLOv7 detection node

A shallow embedding of the anchor decoder (`yolo_output.cpp`, `yolo_output.hpp`),
of the detection assembler (`yolo_postprocess.cpp`, `yolo_postprocess.hpp`), of
`HailoDetection` (`hailo_objects.hpp`) and of the emission gate of
`DetectionNodeHailo8::ProcessDetections` (`detection_node_hailo8.cpp`).

Conventions of the embedding.

* `float` values are rational numbers: every formula is read in exact arithmetic.
  The call `expf` of the C library is a parameter `expf : ℚ → ℚ`.
* `uint` (32 bit) values are natural numbers; where the source computes with
  them the result is reduced by `u32`. `size_t` is taken as 64 bit.
* Code that throws returns `Except Failure`; reading a `std::vector` past its
  end (undefined behaviour in the source) is the failure `out_of_range`.
-/

namespace Hailo

/-- Wrap-around of `uint` arithmetic. -/
def u32 (n : Nat) : Nat := n % 2 ^ 32

/-- Wrap-around of `size_t` arithmetic. -/
def u64 (n : Nat) : Nat := n % 2 ^ 64

/-- Conversion of an `int` to `uint`. -/
def uint_of_int (i : Int) : Nat := (i % 2 ^ 32).toNat

/-- Conversion of a `uint` to `int`. -/
def int_of_uint (n : Nat) : Int :=
  if u32 n < 2 ^ 31 then (u32 n : Int) else (u32 n : Int) - 2 ^ 32

/-- The ways in which the decode can fail. -/
inductive Failure where
  | invalid_argument
  | runtime_error
  | out_of_range
deriving DecidableEq, Repr

/-- Modelled from the spec: `HailoTensor` (`hailo_tensors.hpp` is not among the
sources). A 3-D grid (rows × cols × channels) of quantized integers, read as 8 bit
by `get` and as 16 bit by `get_uint16`, plus the dequantization zero-point and
scale; `format_uint16` says that the format type of the stream is
`HAILO_FORMAT_TYPE_UINT16`. -/
structure HailoTensor where
  width : Nat
  height : Nat
  features : Nat
  get : Nat → Nat → Nat → Nat
  get_uint16 : Nat → Nat → Nat → Nat
  qp_zp : ℚ
  qp_scale : ℚ
  format_uint16 : Bool

namespace HailoTensor

/-- Modelled from the spec: dequantization, "converting a stored integer tensor
value to floating point via scale/zero-point". -/
def fix_scale (t : HailoTensor) (num : Nat) : ℚ := ((num : ℚ) - t.qp_zp) * t.qp_scale

/-- Modelled from the spec: the dequantized value stored at `(row, col, channel)`. -/
def get_full_percision (t : HailoTensor) (row col channel : Nat) (is_uint16 : Bool) : ℚ :=
  if is_uint16 then t.fix_scale (t.get_uint16 row col channel)
  else t.fix_scale (t.get row col channel)

/-- Modelled from the spec: the total element count of the tensor. -/
def size (t : HailoTensor) : Nat := t.width * t.height * t.features

end HailoTensor

/-! ## `yolo_output.hpp`, `yolo_output.cpp` -/

def NUM_ANCHORS : Nat := 3
def NUM_CENTERS : Nat := 2
def NUM_SCALES : Nat := 2
def NUM_CONF : Nat := 1
def CONF_CHANNEL_OFFSET : Nat := NUM_CENTERS + NUM_SCALES
def CLASS_CHANNEL_OFFSET : Nat := CONF_CHANNEL_OFFSET + NUM_CONF

/-- The members of `YoloOutputLayer`. -/
structure YoloOutputLayer where
  m_width : Nat
  m_height : Nat
  m_num_classes : Nat
  m_anchors : List Int
  m_label_offset : Int
  m_perform_sigmoid : Bool
  m_is_uint16 : Bool
  m_pTensor : HailoTensor

/-- `YoloOutputLayer::sigmoid`: `1.0f / (1.0f + expf(-x))`. -/
def sigmoid (expf : ℚ → ℚ) (x : ℚ) : ℚ := 1 / (1 + expf (-x))

/-- `YoloOutputLayer::num_classes`: `(channels / NUM_ANCHORS) - CLASS_CHANNEL_OFFSET`
in `uint` arithmetic. -/
def num_classes (channels : Nat) : Nat :=
  u32 (2 ^ 32 + channels / NUM_ANCHORS - CLASS_CHANNEL_OFFSET)

/-- The constructor `Yolov7OL::Yolov7OL`: it hands `false` to the base class in the
place of `perform_sigmoid`. -/
def Yolov7OL (tensor : HailoTensor) (anchors : List Int) (_perform_sigmoid : Bool)
    (label_offset : Int) (is_uint16 : Bool) : YoloOutputLayer :=
  { m_width := tensor.width
    m_height := tensor.height
    m_num_classes := num_classes tensor.features
    m_anchors := anchors
    m_label_offset := label_offset
    m_perform_sigmoid := false
    m_is_uint16 := is_uint16
    m_pTensor := tensor }

namespace YoloOutputLayer

/-- `YoloOutputLayer::get_confidence`. -/
def get_confidence (expf : ℚ → ℚ) (L : YoloOutputLayer) (row col anchor : Nat) : ℚ :=
  let channel := u32 (u32 (L.m_pTensor.features / NUM_ANCHORS * anchor) + CONF_CHANNEL_OFFSET)
  let confidence := L.m_pTensor.get_full_percision row col channel L.m_is_uint16
  if L.m_perform_sigmoid then sigmoid expf confidence else confidence

/-- `YoloOutputLayer::get_class_prob`. -/
def get_class_prob (L : YoloOutputLayer) (row col anchor class_id : Nat) : Nat :=
  let channel :=
    u32 (2 ^ 32 + u32 (u32 (u32 (L.m_pTensor.features / NUM_ANCHORS * anchor)
      + CLASS_CHANNEL_OFFSET) + class_id) - 1)
  if L.m_is_uint16 then L.m_pTensor.get_uint16 row col channel
  else L.m_pTensor.get row col channel

/-- `Yolov7OL::get_class_conf`. -/
def get_class_conf (expf : ℚ → ℚ) (L : YoloOutputLayer) (prob_max : Nat) : ℚ :=
  let conf := L.m_pTensor.fix_scale prob_max
  if L.m_perform_sigmoid then sigmoid expf conf else conf

/-- One turn of the loop of `get_class`; the state is `(selected_class_id, prob_max)`. -/
def get_class_step (L : YoloOutputLayer) (row col anchor : Nat) (st : Nat × Nat)
    (class_id : Nat) : Nat × Nat :=
  let cls_prob := L.get_class_prob row col anchor class_id
  if cls_prob > st.2 then (class_id, cls_prob) else st

/-- The loop of `get_class`, `class_id` running from `m_label_offset` up to and
including `m_num_classes` (for `m_num_classes < 2^32 - 1`, where the counter does
not wrap). -/
def get_class_loop (L : YoloOutputLayer) (row col anchor : Nat) : Nat × Nat :=
  (List.range' (uint_of_int L.m_label_offset)
      (L.m_num_classes + 1 - uint_of_int L.m_label_offset)).foldl
    (L.get_class_step row col anchor) (1, 0)

/-- `YoloOutputLayer::get_class`. -/
def get_class (expf : ℚ → ℚ) (L : YoloOutputLayer) (row col anchor : Nat) : Nat × ℚ :=
  let r := L.get_class_loop row col anchor
  (r.1, L.get_class_conf expf r.2)

/-- `Yolov7OL::get_center`. -/
def get_center (L : YoloOutputLayer) (row col anchor : Nat) : ℚ × ℚ :=
  let channel := u32 (L.m_pTensor.features / NUM_ANCHORS * anchor)
  let x := (L.m_pTensor.get_full_percision row col channel L.m_is_uint16 * 2 - 1 / 2 + col)
    / L.m_width
  let y := (L.m_pTensor.get_full_percision row col (u32 (channel + 1)) L.m_is_uint16 * 2
    - 1 / 2 + row) / L.m_height
  (x, y)

/-- `Yolov7OL::get_shape`; `none` when `m_anchors` is read past its end. -/
def get_shape (L : YoloOutputLayer) (row col anchor image_width image_height : Nat) :
    Option (ℚ × ℚ) :=
  let channel := u32 (u32 (L.m_pTensor.features / NUM_ANCHORS * anchor) + NUM_CENTERS)
  match L.m_anchors[u32 (anchor * 2)]?, L.m_anchors[u32 (u32 (anchor * 2) + 1)]? with
  | some aw, some ah =>
    let w := (2 * L.m_pTensor.get_full_percision row col channel L.m_is_uint16) ^ 2
      * (aw : ℚ) / image_width
    let h := (2 * L.m_pTensor.get_full_percision row col (u32 (channel + 1)) L.m_is_uint16) ^ 2
      * (ah : ℚ) / image_height
    some (w, h)
  | _, _ => none

end YoloOutputLayer

/-! ## `hailo_objects.hpp` -/

/-- `assure_normal`: throws `std::invalid_argument` outside `[0, 1]`. -/
def assure_normal (num : ℚ) : Except Failure ℚ :=
  if num > 1 ∨ num < 0 then .error .invalid_argument else .ok num

/-- `HailoBBox`. -/
structure HailoBBox where
  m_xmin : ℚ
  m_ymin : ℚ
  m_width : ℚ
  m_height : ℚ
deriving DecidableEq, Repr

namespace HailoBBox

def xmin (b : HailoBBox) : ℚ := b.m_xmin
def ymin (b : HailoBBox) : ℚ := b.m_ymin
def width (b : HailoBBox) : ℚ := b.m_width
def height (b : HailoBBox) : ℚ := b.m_height
def xmax (b : HailoBBox) : ℚ := b.m_xmin + b.m_width
def ymax (b : HailoBBox) : ℚ := b.m_ymin + b.m_height

end HailoBBox

/-- The data members of `HailoDetection` (those of `HailoROI` included). -/
structure HailoDetection where
  m_bbox : HailoBBox
  m_scaling_bbox : HailoBBox
  m_confidence : ℚ
  m_label : String
  m_class_id : Int
deriving DecidableEq, Repr

/-- The constructor `HailoDetection(bbox, class_id, label, confidence)`. -/
def HailoDetection.create (bbox : HailoBBox) (class_id : Int) (label : String)
    (confidence : ℚ) : Except Failure HailoDetection :=
  match assure_normal confidence with
  | .error e => .error e
  | .ok c =>
    .ok { m_bbox := bbox
          m_scaling_bbox := ⟨0, 0, 1, 1⟩
          m_confidence := c
          m_label := label
          m_class_id := class_id }

/-! ## `yolo_postprocess.hpp`, `yolo_postprocess.cpp` -/

/-- A `std::map<uint8_t, std::string>`, as the list of its entries (keys distinct). -/
abbrev LabelMap := List (Nat × String)

/-- The method `operator[]` of the label map, called with a `uint`: the key is
converted to `uint8_t`, and a key that is absent yields the empty string. -/
def LabelMap.index (m : LabelMap) (key : Nat) : String := (m.lookup (key % 256)).getD ""

/-- The members of `YoloParams`. -/
structure YoloParams where
  m_iou_threshold : ℚ
  m_detection_threshold : ℚ
  m_labels : LabelMap
  m_max_boxes : Nat
  m_anchors_vec : List (List Int)
  m_output_activation : String
  m_label_offset : Int

/-- `YoloParams::check_params_logic`: `m_labels.size() - 1 != num_classes_tensors`,
the left side in `size_t` arithmetic. -/
def YoloParams.check_params_logic (p : YoloParams) (num_classes_tensors : Nat) :
    Except Failure Unit :=
  if u64 (2 ^ 64 + p.m_labels.length - 1) ≠ num_classes_tensors then .error .runtime_error
  else .ok ()

/-- The members of `YoloPost`. -/
structure YoloPost where
  m_layers : List YoloOutputLayer
  m_max_boxes : Nat
  m_detection_thr : ℚ
  m_iou_thr : ℚ
  m_image_width : Nat
  m_image_height : Nat
  m_dataset : LabelMap

namespace YoloPost

/-- The body of the innermost loop of `YoloPost::extract_boxes` at one cell: the
detection that is pushed, if any. -/
def extract_cell (expf : ℚ → ℚ) (P : YoloPost) (layer : YoloOutputLayer)
    (row col anchor : Nat) : Except Failure (Option HailoDetection) :=
  let confidence := layer.get_confidence expf row col anchor
  if confidence < P.m_detection_thr then .ok none
  else
    let cls := layer.get_class expf row col anchor
    let confidence := confidence * cls.2
    if confidence > P.m_detection_thr then
      let c := layer.get_center row col anchor
      match layer.get_shape row col anchor P.m_image_width P.m_image_height with
      | none => .error .out_of_range
      | some s =>
        let xmin := c.1 - s.1 / 2
        let ymin := c.2 - s.2 / 2
        match HailoDetection.create ⟨xmin, ymin, s.1, s.2⟩ (int_of_uint cls.1)
            (P.m_dataset.index cls.1) confidence with
        | .error e => .error e
        | .ok d => .ok (some d)
    else .ok none

/-- One turn of the innermost loop of `extract_boxes`. -/
def extract_anchor (expf : ℚ → ℚ) (P : YoloPost) (layer : YoloOutputLayer) (row col : Nat)
    (objects : List HailoDetection) (anchor : Nat) : Except Failure (List HailoDetection) :=
  match P.extract_cell expf layer row col anchor with
  | .error e => .error e
  | .ok none => .ok objects
  | .ok (some d) => .ok (objects ++ [d])

/-- `YoloPost::extract_boxes`: the three nested loops over rows, columns and anchors. -/
def extract_boxes (expf : ℚ → ℚ) (P : YoloPost) (layer : YoloOutputLayer)
    (objects : List HailoDetection) : Except Failure (List HailoDetection) :=
  (List.range layer.m_height).foldlM (fun objs row =>
    (List.range layer.m_width).foldlM (fun objs col =>
      (List.range NUM_ANCHORS).foldlM (fun objs anchor =>
        P.extract_anchor expf layer row col objs anchor) objs) objs) objects

end YoloPost

/-- The loop of the constructor `Yolov7::Yolov7` that pushes one `Yolov7OL` for each
tensor, from index `i` on. -/
def Yolov7.push_layers (p : YoloParams) (sigmoid : Bool) :
    Nat → List HailoTensor → Except Failure (List YoloOutputLayer)
  | _, [] => .ok []
  | i, t :: ts =>
    match p.m_anchors_vec[i]? with
    | none => .error .out_of_range
    | some anchors =>
      match Yolov7.push_layers p sigmoid (i + 1) ts with
      | .error e => .error e
      | .ok ls => .ok (Yolov7OL t anchors sigmoid p.m_label_offset t.format_uint16 :: ls)

/-- The vector `m_layers` after the block `if (m_tensors.size() > 0) ...` of the
constructor `Yolov7::Yolov7`. The call of `std::sort` is the parameter `sort`. -/
def Yolov7.layers (sort : List HailoTensor → List HailoTensor) (tensors : List HailoTensor)
    (p : YoloParams) : Except Failure (List YoloOutputLayer) :=
  if tensors.length > 0 then
    Yolov7.push_layers p (p.m_output_activation == "sigmoid") 0 (sort tensors)
  else .ok []

/-- The members `m_image_width` and `m_image_height` after that block; they are
assigned only when there is a tensor. -/
def Yolov7.image_size (sort : List HailoTensor → List HailoTensor)
    (tensors : List HailoTensor) : Option (Nat × Nat) :=
  if tensors.length > 0 then
    (sort tensors)[0]?.map (fun t0 => (u32 (t0.width * 32), u32 (t0.height * 32)))
  else none

/-- `YoloPost::get_num_classes`: `m_layers[0]->getNumClasses()`. -/
def get_num_classes (m_layers : List YoloOutputLayer) : Except Failure Nat :=
  match m_layers[0]? with
  | none => .error .out_of_range
  | some l0 => .ok l0.m_num_classes

/-- The constructor `Yolov7::Yolov7`: the block that sorts the tensors and builds
the layers, then `check_params_logic(get_num_classes())`. With no tensor the
read of `m_layers[0]` is past the end; the image size is read last here, and is
assigned whenever `m_layers` is not empty. -/
def Yolov7 (sort : List HailoTensor → List HailoTensor) (tensors : List HailoTensor)
    (p : YoloParams) : Except Failure YoloPost :=
  match Yolov7.layers sort tensors p with
  | .error e => .error e
  | .ok ls =>
    match get_num_classes ls with
    | .error e => .error e
    | .ok n =>
      match p.check_params_logic n with
      | .error e => .error e
      | .ok _ =>
        match Yolov7.image_size sort tensors with
        | none => .error .out_of_range
        | some wh =>
          .ok { m_layers := ls
                m_max_boxes := p.m_max_boxes
                m_detection_thr := p.m_detection_threshold
                m_iou_thr := p.m_iou_threshold
                m_image_width := wh.1
                m_image_height := wh.2
                m_dataset := p.m_labels }

/-- What `std::sort` with the comparison `a->size() < b->size()` guarantees: a
rearrangement of the input in which no element is larger than a later one. -/
def IsSizeSort (sort : List HailoTensor → List HailoTensor) : Prop :=
  ∀ l, (sort l).Perm l ∧ (sort l).Pairwise (fun a b => a.size ≤ b.size)

/-- Insertion of a tensor into a list sorted by size. -/
def insertBySize (t : HailoTensor) : List HailoTensor → List HailoTensor
  | [] => [t]
  | a :: l => if t.size < a.size then t :: a :: l else a :: insertBySize t l

/-- A sort by size, for evaluating the constructor on concrete tensors. -/
def sortBySize : List HailoTensor → List HailoTensor
  | [] => []
  | a :: l => insertBySize a (sortBySize l)


/-- The loop of `YoloPost::decode` that calls `extract_boxes` for each layer,
starting from the empty vector. -/
def YoloPost.extract_all (expf : ℚ → ℚ) (P : YoloPost) : Except Failure (List HailoDetection) :=
  P.m_layers.foldlM (fun objs layer => P.extract_boxes expf layer objs) []

/-! ## Notions used in the statements -/

/-- The cells `(row, col, anchor)` of a layer in the order in which `extract_boxes`
visits them. -/
def cells (layer : YoloOutputLayer) : List (Nat × Nat × Nat) :=
  (List.range layer.m_height).flatMap (fun row =>
    (List.range layer.m_width).flatMap (fun col =>
      (List.range NUM_ANCHORS).map (fun anchor => (row, col, anchor))))

/-- The detections pushed while visiting a list of cells in order; the first
failure ends the visit. -/
def emit_cells (expf : ℚ → ℚ) (P : YoloPost) (layer : YoloOutputLayer) :
    List (Nat × Nat × Nat) → Except Failure (List HailoDetection)
  | [] => .ok []
  | c :: cs =>
    match P.extract_cell expf layer c.1 c.2.1 c.2.2 with
    | .error e => .error e
    | .ok r =>
      match emit_cells expf P layer cs with
      | .error e => .error e
      | .ok ds => .ok (r.toList ++ ds)

/-- Appending the detections of a visit to the vector `objects`. -/
def append_to (objects : List HailoDetection) :
    Except Failure (List HailoDetection) → Except Failure (List HailoDetection)
  | .error e => .error e
  | .ok ds => .ok (objects ++ ds)

/-- The detection that `extract_boxes` builds at a cell whose shape is `s`. -/
def cell_detection (expf : ℚ → ℚ) (P : YoloPost) (layer : YoloOutputLayer)
    (row col anchor : Nat) (s : ℚ × ℚ) : HailoDetection :=
  { m_bbox := ⟨(layer.get_center row col anchor).1 - s.1 / 2,
      (layer.get_center row col anchor).2 - s.2 / 2, s.1, s.2⟩
    m_scaling_bbox := ⟨0, 0, 1, 1⟩
    m_confidence :=
      layer.get_confidence expf row col anchor * (layer.get_class expf row col anchor).2
    m_label := P.m_dataset.index (layer.get_class expf row col anchor).1
    m_class_id := int_of_uint (layer.get_class expf row col anchor).1 }

/-- The index `c` is the lowest one in `[lo, hi]` at which `f` is maximal over
`[lo, hi]`. -/
def IsFirstMax (f : Nat → Nat) (lo hi c : Nat) : Prop :=
  lo ≤ c ∧ c ≤ hi ∧ (∀ k, lo ≤ k → k ≤ hi → f k ≤ f c) ∧ (∀ k, lo ≤ k → k < c → f k < f c)

/-- The box confidences at cell `(0, 0, 0)` of the layers of a post-processor. -/
def confidences_at_origin (expf : ℚ → ℚ) : Except Failure YoloPost → Option (List ℚ)
  | .ok P => some (P.m_layers.map (fun L => L.get_confidence expf 0 0 0))
  | .error _ => none

/-- The image width and height held by a post-processor. -/
def image_size_of : Except Failure YoloPost → Option (Nat × Nat)
  | .ok P => some (P.m_image_width, P.m_image_height)
  | .error _ => none

/-! ## Concrete inputs -/

/-- A stand-in for `expf`, for evaluating layers that apply no sigmoid. -/
def expf_const : ℚ → ℚ := fun _ => 1

/-- The first anchor list of `YOLO_V7_ANCHORS_VEC`. -/
def anchorsFirst : List Int := [142, 110, 192, 243, 459, 401]

/-- `YOLO_V7_ANCHORS_VEC`. -/
def YOLO_V7_ANCHORS_VEC : List (List Int) :=
  [[142, 110, 192, 243, 459, 401], [36, 75, 76, 55, 72, 146], [12, 16, 19, 36, 40, 28]]

/-- A label map with the single class "person". -/
def labelsPerson : LabelMap := [(0, "unlabeled"), (1, "person")]

/-- Parameters with threshold 0.3 and the given output activation. -/
def paramsWith (activation : String) : YoloParams :=
  { m_iou_threshold := 45 / 100, m_detection_threshold := 3 / 10
    m_labels := labelsPerson, m_max_boxes := 200
    m_anchors_vec := YOLO_V7_ANCHORS_VEC
    m_output_activation := activation, m_label_offset := 1 }

/-- A tensor of one cell and 18 channels (one class), scale 1/100, zero-point 0,
whose anchor 0 holds `conf` in the box-confidence channel and `cls` in the channel
of class 1; every other entry is 0. -/
def tensorOneCell (conf cls : Nat) : HailoTensor :=
  { width := 1, height := 1, features := 18
    get := fun _ _ ch => if ch = 4 then conf else if ch = 5 then cls else 0
    get_uint16 := fun _ _ _ => 0
    qp_zp := 0, qp_scale := 1 / 100, format_uint16 := false }

/-- The post-processor state around one layer, threshold 0.3, image 32 × 32. -/
def postOneLayer (layer : YoloOutputLayer) : YoloPost :=
  { m_layers := [layer], m_max_boxes := 200, m_detection_thr := 3 / 10, m_iou_thr := 45 / 100
    m_image_width := 32, m_image_height := 32
    m_dataset := labelsPerson }

/-- Scenario B: box confidence 0.9, class confidence 0.95. -/
def layerB : YoloOutputLayer := Yolov7OL (tensorOneCell 90 95) anchorsFirst false 1 false

/-- The detection of Scenario B. -/
def detectionB : HailoDetection :=
  { m_bbox := ⟨-1 / 2, -1 / 2, 0, 0⟩, m_scaling_bbox := ⟨0, 0, 1, 1⟩
    m_confidence := 855 / 1000, m_label := "person", m_class_id := 1 }

/-- A layer with `label_offset = 2` and two classes; the channel of class 1 holds 7,
the channel of class 2 holds 0. -/
def layerOffsetTwo : YoloOutputLayer :=
  { m_width := 1, m_height := 1, m_num_classes := 2
    m_anchors := anchorsFirst
    m_label_offset := 2, m_perform_sigmoid := false, m_is_uint16 := false
    m_pTensor :=
      { width := 1, height := 1, features := 21
        get := fun _ _ ch => if ch = 5 then 7 else 0
        get_uint16 := fun _ _ _ => 0
        qp_zp := 0, qp_scale := 1, format_uint16 := false } }

/-- A tensor with a 2 × 2 grid and 18 channels, all entries 0. -/
def tensorFine : HailoTensor :=
  { width := 2, height := 2, features := 18
    get := fun _ _ _ => 0
    get_uint16 := fun _ _ _ => 0
    qp_zp := 0, qp_scale := 1 / 100, format_uint16 := false }

/-! ## `YoloPost::decode`, `yolov7` and the suppression -/

/-- The constructor `HailoDetection(bbox, label, confidence)`; the class id is set
to `NULL_CLASS_ID`. -/
def HailoDetection.create_unclassified (bbox : HailoBBox) (label : String) (confidence : ℚ) :
    Except Failure HailoDetection :=
  match assure_normal confidence with
  | .error e => .error e
  | .ok c =>
    .ok { m_bbox := bbox
          m_scaling_bbox := ⟨0, 0, 1, 1⟩
          m_confidence := c
          m_label := label
          m_class_id := -1 }

/-- The method `resize(count, value)` of `std::vector`: the first `count` elements,
filled up with copies of `value` when there are fewer. -/
def vector_resize {α : Type} (v : List α) (count : Nat) (value : α) : List α :=
  v.take count ++ List.replicate (count - v.length) value

/-- `YoloPost::decode`. The call `common::nms(objects, m_iou_thr)` is the parameter
`nms`. -/
def YoloPost.decode (expf : ℚ → ℚ) (nms : List HailoDetection → ℚ → List HailoDetection)
    (P : YoloPost) : Except Failure (List HailoDetection) :=
  match P.extract_all expf with
  | .error e => .error e
  | .ok objects =>
    let objects := nms objects P.m_iou_thr
    if objects.length > P.m_max_boxes then
      match HailoDetection.create_unclassified ⟨0, 0, 1, 1⟩ "None" 0 with
      | .error e => .error e
      | .ok empty_detection => .ok (vector_resize objects P.m_max_boxes empty_detection)
    else .ok objects

/-- The function `yolov7`: the constructor, `decode`, and the detections that
`add_detections` adds to the frame, in order. -/
def yolov7 (expf : ℚ → ℚ) (nms : List HailoDetection → ℚ → List HailoDetection)
    (sort : List HailoTensor → List HailoTensor) (tensors : List HailoTensor)
    (p : YoloParams) : Except Failure (List HailoDetection) :=
  match Yolov7 sort tensors p with
  | .error e => .error e
  | .ok post => post.decode expf nms

/-- Modelled from the spec: the IOU of two boxes, "Intersection-over-Union, overlap
ratio of two boxes" (`nms.hpp` is not among the sources). -/
def iou_calc (box_1 box_2 : HailoBBox) : ℚ :=
  let width_of_overlap := max (min box_1.xmax box_2.xmax - max box_1.xmin box_2.xmin) 0
  let height_of_overlap := max (min box_1.ymax box_2.ymax - max box_1.ymin box_2.ymin) 0
  let area_of_overlap := width_of_overlap * height_of_overlap
  area_of_overlap
    / (box_1.width * box_1.height + box_2.width * box_2.height - area_of_overlap)

/-- Insertion of a detection into a list in descending order of confidence, before
the first entry that is not more confident. -/
def insertByConfidence (d : HailoDetection) : List HailoDetection → List HailoDetection
  | [] => [d]
  | a :: l => if a.m_confidence ≤ d.m_confidence then d :: a :: l
    else a :: insertByConfidence d l

/-- Modelled from the spec: "sort detections ... by confidence descending". -/
def sortByConfidence : List HailoDetection → List HailoDetection
  | [] => []
  | d :: l => insertByConfidence d (sortByConfidence l)

/-- Modelled from the spec: a detection is kept "if its IOU with every already-kept
detection of the same class is < iou_threshold". -/
def nms_keeps (iou_thr : ℚ) (kept : List HailoDetection) (d : HailoDetection) : Bool :=
  kept.all (fun k => decide (k.m_class_id = d.m_class_id →
    iou_calc k.m_bbox d.m_bbox < iou_thr))

/-- Modelled from the spec: the greedy pass of the suppression, "iterate; keep a
detection if ..., else discard"; `kept` are the detections kept so far. -/
def nms_greedy (iou_thr : ℚ) : List HailoDetection → List HailoDetection → List HailoDetection
  | kept, [] => kept
  | kept, d :: ds =>
    if nms_keeps iou_thr kept d then nms_greedy iou_thr (kept ++ [d]) ds
    else nms_greedy iou_thr kept ds

/-- Modelled from the spec: `common::nms` (`nms.hpp` is not among the sources),
the suppression of section 4.3: "sort detections of a class by confidence
descending; iterate; keep a detection if its IOU with every already-kept
detection of the same class is < iou_threshold, else discard". One sort of the
whole list orders the detections of every class, and the kept set is left in
that order, which is the order in which `decode` truncates it "to the
highest-confidence max_boxes entries". -/
def nms (objects : List HailoDetection) (iou_thr : ℚ) : List HailoDetection :=
  nms_greedy iou_thr [] (sortByConfidence objects)

/-- No two distinct positions of the list hold detections of the same class with
IOU at or above the threshold. -/
def NoSuppressiblePair (iou_thr : ℚ) (l : List HailoDetection) : Prop :=
  ∀ i j (hi : i < l.length) (hj : j < l.length), i ≠ j →
    l[i].m_class_id = l[j].m_class_id →
      iou_calc l[i].m_bbox l[j].m_bbox < iou_thr

/-! ## Setting up the parameters -/

/-- The constructor `YoloParams::YoloParams`: it stores its arguments. -/
def YoloParams.create (detection_threshold : ℚ) (labels : LabelMap) (iou_threshold : ℚ)
    (max_boxes : Nat) (anchors_vec : List (List Int)) (output_activation : String)
    (label_offset : Int) : Except Failure YoloParams :=
  .ok { m_iou_threshold := iou_threshold
        m_detection_threshold := detection_threshold
        m_labels := labels
        m_max_boxes := max_boxes
        m_anchors_vec := anchors_vec
        m_output_activation := output_activation
        m_label_offset := label_offset }

/-- The constructor `Yolov7Params::Yolov7Params`: it hands its arguments to
`YoloParams::YoloParams`. -/
def Yolov7Params.create (detection_threshold : ℚ) (labels : LabelMap) (iou_threshold : ℚ)
    (max_boxes : Nat) (anchors_vec : List (List Int)) (output_activation : String)
    (label_offset : Int) : Except Failure YoloParams :=
  YoloParams.create detection_threshold labels iou_threshold max_boxes anchors_vec
    output_activation label_offset

/-! ## Confidences that are NaN -/

/-- A `float` that may be NaN; the numbers are taken exact. -/
inductive FloatNaN where
  | nan
  | num (q : ℚ)
deriving DecidableEq, Repr

namespace FloatNaN

/-- The comparison `<` of floats: false when an operand is NaN. -/
def lt : FloatNaN → FloatNaN → Bool
  | num a, num b => decide (a < b)
  | _, _ => false

/-- The comparison `>` of floats: false when an operand is NaN. -/
def gt : FloatNaN → FloatNaN → Bool
  | num a, num b => decide (a > b)
  | _, _ => false

/-- The product of floats: NaN when an operand is NaN. -/
def mul : FloatNaN → FloatNaN → FloatNaN
  | num a, num b => num (a * b)
  | _, _ => nan

end FloatNaN

/-- `assure_normal` on a float that may be NaN. -/
def assure_normal_nan (num : FloatNaN) : Except Failure FloatNaN :=
  if num.gt (.num 1) || num.lt (.num 0) then .error .invalid_argument else .ok num

/-- The guards of the innermost loop of `YoloPost::extract_boxes` on confidences
that may be NaN: the confidence of the detection that is pushed, if any. -/
def extract_cell_nan (confidence class_confidence m_detection_thr : FloatNaN) :
    Except Failure (Option FloatNaN) :=
  if confidence.lt m_detection_thr then .ok none
  else
    let confidence := confidence.mul class_confidence
    if confidence.gt m_detection_thr then
      match assure_normal_nan confidence with
      | .error e => .error e
      | .ok c => .ok (some c)
    else .ok none

/-! ## The emission gate of `DetectionNodeHailo8::ProcessDetections` -/

/-- The members of `DetectionNodeHailo8` that decide the emission. The type
`TrackingObject` of the entries is a parameter. -/
structure EmissionState (TrackingObject : Type) where
  m_lastTrackings : List TrackingObject
  m_framesSincePublish : Nat

/-- The loop `for (const auto& [idx, obj] : enumerate(trackers))` of
`ProcessDetections`, run when both lists have one length: whether
`m_lastTrackings[idx] != obj` at some index. The operator `!=` of the entries is
the parameter `ne`. -/
def any_changed {TrackingObject : Type} (ne : TrackingObject → TrackingObject → Bool) :
    List TrackingObject → List TrackingObject → Bool
  | last :: m_lastTrackings, obj :: trackers =>
    if ne last obj then true else any_changed ne m_lastTrackings trackers
  | _, _ => false

/-- The flag `changed` of `ProcessDetections`. -/
def trackings_changed {TrackingObject : Type} (ne : TrackingObject → TrackingObject → Bool)
    (m_lastTrackings trackers : List TrackingObject) : Bool :=
  if trackers.length ≠ m_lastTrackings.length then true
  else any_changed ne m_lastTrackings trackers

/-- The end of `ProcessDetections`, from the comparison with `m_lastTrackings` on:
the new state and the list handed to `printDetections`, if any.
`printDetections` stores its argument in `m_lastTrackings`. -/
def ProcessDetections_emit {TrackingObject : Type}
    (ne : TrackingObject → TrackingObject → Bool) (node : EmissionState TrackingObject)
    (trackers : List TrackingObject) :
    EmissionState TrackingObject × Option (List TrackingObject) :=
  if trackings_changed ne node.m_lastTrackings trackers || decide (node.m_framesSincePublish > 30)
  then ({ m_lastTrackings := trackers, m_framesSincePublish := 0 + 1 }, some trackers)
  else ({ node with m_framesSincePublish := node.m_framesSincePublish + 1 }, none)

/-- The gate run on consecutive frames: the final state and what each frame
emitted. -/
def ProcessDetections_run {TrackingObject : Type}
    (ne : TrackingObject → TrackingObject → Bool) :
    EmissionState TrackingObject → List (List TrackingObject) →
      EmissionState TrackingObject × List (Option (List TrackingObject))
  | node, [] => (node, [])
  | node, trackers :: frames =>
    let r := ProcessDetections_run ne (ProcessDetections_emit ne node trackers).1 frames
    (r.1, (ProcessDetections_emit ne node trackers).2 :: r.2)

/-! ## More concrete inputs -/

/-- Scenario D: one cell whose anchor 0 yields a detection of confidence 0.6 and
whose anchor 1 yields a detection of confidence 0.9, far apart. -/
def tensorTwoAnchors : HailoTensor :=
  { width := 1, height := 1, features := 18
    get := fun _ _ ch =>
      if ch = 2 ∨ ch = 3 ∨ ch = 8 ∨ ch = 9 then 10
      else if ch = 4 ∨ ch = 6 ∨ ch = 10 then 100
      else if ch = 5 then 60
      else if ch = 11 then 90
      else 0
    get_uint16 := fun _ _ _ => 0
    qp_zp := 0, qp_scale := 1 / 100, format_uint16 := false }

/-- The layer of Scenario D. -/
def layerD : YoloOutputLayer := Yolov7OL tensorTwoAnchors anchorsFirst false 1 false

/-- The post-processor state of Scenario D, with `max_boxes = 1`. -/
def postD : YoloPost :=
  { m_layers := [layerD], m_max_boxes := 1, m_detection_thr := 3 / 10, m_iou_thr := 45 / 100
    m_image_width := 32, m_image_height := 32
    m_dataset := labelsPerson }

/-- The less confident detection of Scenario D. -/
def detectionD06 : HailoDetection :=
  { m_bbox := ⟨-471 / 800, -91 / 160, 71 / 400, 11 / 80⟩, m_scaling_bbox := ⟨0, 0, 1, 1⟩
    m_confidence := 6 / 10, m_label := "person", m_class_id := 1 }

/-- The more confident detection of Scenario D. -/
def detectionD09 : HailoDetection :=
  { m_bbox := ⟨69 / 50, -1043 / 1600, 6 / 25, 243 / 800⟩, m_scaling_bbox := ⟨0, 0, 1, 1⟩
    m_confidence := 9 / 10, m_label := "person", m_class_id := 1 }

/-- Scenario A: a cell whose box confidence 0.1 is below the threshold 0.3. -/
def layerA : YoloOutputLayer := Yolov7OL (tensorOneCell 10 95) anchorsFirst false 1 false

/-- The layer of Scenario B, made to perform the sigmoid. -/
def layerSigmoid : YoloOutputLayer := { layerB with m_perform_sigmoid := true }

/-- Parameters in which every validated value of the spec is invalid: threshold 2,
IOU threshold -1, `max_boxes = 0`, activation "bogus". -/
def paramsInvalid : YoloParams :=
  { m_iou_threshold := -1, m_detection_threshold := 2
    m_labels := labelsPerson, m_max_boxes := 0
    m_anchors_vec := YOLO_V7_ANCHORS_VEC
    m_output_activation := "bogus", m_label_offset := 1 }

/-- The operator `!=` on track ids taken as the entries of a track list. -/
def ne_nat (a b : Nat) : Bool := a != b

/-! ## The channels that the decoder reads -/

/-- The channel of `Yolov7OL::get_center`:
`m_pTensor->features() / NUM_ANCHORS * anchor`; `x` is read there and `y` at
`channel + 1`. -/
def center_channel (features anchor : Nat) : Nat := u32 (features / NUM_ANCHORS * anchor)

/-- The channel of `Yolov7OL::get_shape`:
`m_pTensor->features() / NUM_ANCHORS * anchor + NUM_CENTERS`; `w` is read there and
`h` at `channel + 1`. -/
def shape_channel (features anchor : Nat) : Nat :=
  u32 (u32 (features / NUM_ANCHORS * anchor) + NUM_CENTERS)

/-- The channel of `YoloOutputLayer::get_confidence`:
`m_pTensor->features() / NUM_ANCHORS * anchor + CONF_CHANNEL_OFFSET`. -/
def confidence_channel (features anchor : Nat) : Nat :=
  u32 (u32 (features / NUM_ANCHORS * anchor) + CONF_CHANNEL_OFFSET)

/-- The channel of `YoloOutputLayer::get_class_prob`:
`m_pTensor->features() / NUM_ANCHORS * anchor + CLASS_CHANNEL_OFFSET + class_id - 1`. -/
def class_channel (features anchor class_id : Nat) : Nat :=
  u32 (2 ^ 32 + u32 (u32 (u32 (features / NUM_ANCHORS * anchor) + CLASS_CHANNEL_OFFSET)
    + class_id) - 1)

/-- The channels read for one anchor: the two of the centre, the two of the shape,
that of the box confidence, and those of the classes `1 .. num_classes`. -/
def channels_read (features anchor : Nat) : List Nat :=
  [center_channel features anchor, u32 (center_channel features anchor + 1),
    shape_channel features anchor, u32 (shape_channel features anchor + 1),
    confidence_channel features anchor]
  ++ (List.range' 1 (num_classes features)).map (class_channel features anchor)

/-! ## The other members of `HailoDetection` -/

/-- `HailoDetection::get_confidence`. -/
def HailoDetection.get_confidence (d : HailoDetection) : ℚ := d.m_confidence

/-- `HailoDetection::set_confidence`: `m_confidence = conf`. -/
def HailoDetection.set_confidence (d : HailoDetection) (conf : ℚ) : HailoDetection :=
  { d with m_confidence := conf }

/-- `HailoDetection::get_label`. -/
def HailoDetection.get_label (d : HailoDetection) : String := d.m_label

/-- `HailoDetection::get_class_id`. -/
def HailoDetection.get_class_id (d : HailoDetection) : Int := d.m_class_id

/-- The copy constructor and the move constructor of `HailoDetection`:
`m_confidence(assure_normal(other.m_confidence))`. -/
def HailoDetection.copy (other : HailoDetection) : Except Failure HailoDetection :=
  match assure_normal other.m_confidence with
  | .error e => .error e
  | .ok c => .ok { other with m_confidence := c }

/-- The copy assignment and the move assignment of `HailoDetection` (for
`this != &other`): the base part is assigned first, then
`m_confidence = assure_normal(other.m_confidence)`. -/
def HailoDetection.assign (_this other : HailoDetection) : Except Failure HailoDetection :=
  match assure_normal other.m_confidence with
  | .error e => .error e
  | .ok c => .ok { other with m_confidence := c }

/-! ## `float` arithmetic -/

/-- Rounding to the nearest integer, ties to the even one. -/
def round_half_even (x : ℚ) : Int :=
  if x - ⌊x⌋ < 1 / 2 then ⌊x⌋
  else if 1 / 2 < x - ⌊x⌋ then ⌊x⌋ + 1
  else if ⌊x⌋ % 2 = 0 then ⌊x⌋ else ⌊x⌋ + 1

/-- The exponent of the spacing of the `float` values around `x`: `⌊log2 |x|⌋ - 23`,
and `-149` in the subnormal range. -/
def f32_ulp_exponent (x : ℚ) : Int := max (Int.log 2 |x|) (-126) - 23

/-- The result of a `float` operation whose exact result is `x`: `x` rounded to the
nearest `float` (IEEE 754 binary32), ties to even. Overflow to infinity is not
represented; the value is that of the code for results below the overflow
threshold. -/
def f32 (x : ℚ) : ℚ := round_half_even (x / 2 ^ f32_ulp_exponent x) * 2 ^ f32_ulp_exponent x

/-- The number that the conversion `%.3f` writes for the value `x`: the decimal with
three places nearest to `x`, ties to even. -/
def format_3f (x : ℚ) : ℚ := (round_half_even (x * 1000) : ℚ) / 1000

/-! ## `detection_node_hailo8.cpp`: the emitted record -/

/-- The members of `BBox` that the node reads and the order of its constructor
`BBox(x, y, width, height)`. -/
structure BBox where
  x : ℚ
  y : ℚ
  width : ℚ
  height : ℚ
deriving DecidableEq, Repr

/-- The members of `TrackingObject` that the node reads or initialises:
`{ bBox, score, name }` in `ProcessDetections`, and `trackingID` in
`printDetections`. -/
structure TrackingObject where
  bBox : BBox
  score : Nat
  name : String
  trackingID : Nat
deriving DecidableEq, Repr

/-- `DetectionNodeHailo8::toCenter`, in `float` arithmetic: the division and the
addition each round their result. -/
def toCenter (bBox : BBox) : BBox :=
  let h := bBox.height
  let w := bBox.width
  let x := f32 (bBox.x + f32 (w / 2))
  let y := f32 (bBox.y + f32 (h / 2))
  ⟨x, y, w, h⟩

/-- Rounding to the nearest integer, halfway cases away from zero: `roundf` and
`std::round`. -/
def round_int (x : ℚ) : Int :=
  if 0 ≤ x then ⌊x + 1 / 2⌋ else -⌊-x + 1 / 2⌋

/-- `roundf`, applied to a `float` value; the result is an integer, which `float`
holds exactly. -/
def roundf (x : ℚ) : ℚ := (round_int x : ℚ)

/-- The numbers that `printDetections` writes for one track. -/
structure DetectionRecord where
  TrackID : Nat
  name : String
  center_x : ℚ
  center_y : ℚ
  w : ℚ
  h : ℚ
deriving DecidableEq, Repr

/-- The `string_format` call of `printDetections` for the track `t`: each argument
`roundf(v * 1000.0f) / 1000.0f` is computed in `float` arithmetic, the product and
the quotient each rounding their result, and is written by the conversion `%.3f`. -/
def printDetections_record (t : TrackingObject) : DetectionRecord :=
  let centerBox := toCenter t.bBox
  { TrackID := t.trackingID
    name := t.name
    center_x := format_3f (f32 (roundf (f32 (centerBox.x * 1000)) / 1000))
    center_y := format_3f (f32 (roundf (f32 (centerBox.y * 1000)) / 1000))
    w := format_3f (f32 (roundf (f32 (centerBox.width * 1000)) / 1000))
    h := format_3f (f32 (roundf (f32 (centerBox.height * 1000)) / 1000)) }

/-- `DetectionNodeHailo8::printDetections`: one record for each track, in the order
of `trackers`. -/
def printDetections (trackers : List TrackingObject) : List DetectionRecord :=
  trackers.map printDetections_record

/-- A track with top-left box `(0.125, 0.25, 0.0025f, 0.5)`; the width is the `float`
nearest to 0.0025, which is `10737418 / 2^32`. -/
def trackFloat : TrackingObject :=
  { bBox := ⟨1 / 8, 1 / 4, 10737418 / 4294967296, 1 / 2⟩, score := 86, name := "person"
    trackingID := 4 }

/-! ## `detection_node_hailo8.cpp`: detections handed to the per-class trackers -/

/-- The members of `YoloHailo::YoloResult` that `ProcessDetections` reads. -/
structure YoloResult where
  classID : Int
  x : ℚ
  y : ℚ
  w : ℚ
  h : ℚ
  classProb : ℚ
  label : String
deriving DecidableEq, Repr

/-- The object that the first loop of `ProcessDetections` pushes for `res`:
`{ { x, y, width, height }, static_cast<uint32_t>(std::round(res.classProb * 100)),
res.label }` after the four clamps; the product is a `float` product. -/
def ProcessDetections_object (res : YoloResult) : TrackingObject :=
  let x := if res.x < 0 then 0 else res.x
  let y := if res.y < 0 then 0 else res.y
  let width := if res.w > 1 then 1 else res.w
  let height := if res.h > 1 then 1 else res.h
  { bBox := ⟨x, y, width, height⟩
    score := uint_of_int (round_int (f32 (res.classProb * 100)))
    name := res.label
    trackingID := 0 }

/-- The key of the first loop, `uint32_t id = res.classID - 1`. -/
def ProcessDetections_id (res : YoloResult) : Nat := uint_of_int (res.classID - 1)

/-- A `std::map<uint32_t, TrackingObjects>`, as the function from a key to its
entry. -/
abbrev TrackingDets := Nat → Option (List TrackingObject)

/-- `trackingDets.try_emplace(id, TrackingObjects())`. -/
def TrackingDets.try_emplace (m : TrackingDets) (id : Nat) : TrackingDets :=
  fun k => if k = id then (match m id with | some v => some v | none => some []) else m k

/-- `trackingDets[id].push_back(obj)`. -/
def TrackingDets.push_back (m : TrackingDets) (id : Nat) (obj : TrackingObject) :
    TrackingDets :=
  fun k => if k = id then some ((m id).getD [] ++ [obj]) else m k

/-- The first loop of `ProcessDetections`: the map `trackingDets` after it. -/
def ProcessDetections_group (results : List YoloResult) : TrackingDets :=
  results.foldl (fun m res =>
    (m.try_emplace (ProcessDetections_id res)).push_back (ProcessDetections_id res)
      (ProcessDetections_object res)) (fun _ => none)

/-- The state of the second loop of `ProcessDetections`: the array
`m_pSortTrackers`, the vector `trackers`, and the calls of `Update` made so far
(the index of the tracker and the argument). -/
structure TrackLoop (S : Type) where
  m_pSortTrackers : Nat → S
  trackers : List TrackingObject
  calls : List (Nat × List TrackingObject)

/-- One turn of the second loop of `ProcessDetections`; the key of
`trackingDets.count(i)` is `i` converted to `uint32_t`. `SORT::Update` is the
parameter `Update`. -/
def ProcessDetections_turn {S : Type} (Update : S → List TrackingObject → S × List TrackingObject)
    (trackingDets : TrackingDets) (st : TrackLoop S) (i : Nat) : TrackLoop S :=
  let dets := match trackingDets (u32 i) with
    | some v => v
    | none => []
  let t := Update (st.m_pSortTrackers i) dets
  { m_pSortTrackers := fun k => if k = i then t.1 else st.m_pSortTrackers k
    trackers := st.trackers ++ t.2
    calls := st.calls ++ [(i, dets)] }

/-- The part of `ProcessDetections` that builds the merged track list: both loops,
for `GetClassCount() = classCount`. -/
def ProcessDetections_track {S : Type}
    (Update : S → List TrackingObject → S × List TrackingObject)
    (m_pSortTrackers : Nat → S) (classCount : Nat) (results : List YoloResult) : TrackLoop S :=
  (List.range classCount).foldl (ProcessDetections_turn Update (ProcessDetections_group results))
    { m_pSortTrackers := m_pSortTrackers, trackers := [], calls := [] }

/-- The detections of the class with id `i + 1`, converted, in their input order. -/
def detections_of_class (results : List YoloResult) (i : Nat) : List TrackingObject :=
  (results.filter (fun res => decide (res.classID = (i : Int) + 1))).map ProcessDetections_object

/-- The arguments with which the second loop calls `Update`. -/
def dets_at (results : List YoloResult) (i : Nat) : List TrackingObject :=
  match ProcessDetections_group results (u32 i) with
  | some v => v
  | none => []

/-! ## The tracker -/

/-- Modelled from the spec: the lifecycle state of a track, "Tentative → Confirmed
→ Deleted (terminal)" (`SORT.h` is not among the sources). -/
inductive LifecycleState where
  | Tentative
  | Confirmed
  | Deleted
deriving DecidableEq, Repr

/-- Modelled from the spec: the motion state of a track, "constant-velocity filter
over `(center_x, center_y, width, height)` and their velocities". -/
structure MotionState where
  center_x : ℚ
  center_y : ℚ
  width : ℚ
  height : ℚ
  v_center_x : ℚ
  v_center_y : ℚ
  v_width : ℚ
  v_height : ℚ
deriving DecidableEq, Repr

/-- Modelled from the spec: "predict = linear extrapolation", with `dt = 1` frame. -/
def MotionState.predict (m : MotionState) : MotionState :=
  { m with
    center_x := m.center_x + m.v_center_x
    center_y := m.center_y + m.v_center_y
    width := m.width + m.v_width
    height := m.height + m.v_height }

/-- Modelled from the spec: the bounding box of a motion state, in top-left form. -/
def MotionState.bbox (m : MotionState) : BBox :=
  ⟨m.center_x - m.width / 2, m.center_y - m.height / 2, m.width, m.height⟩

/-- Modelled from the spec: the motion state of a track spawned at a box, at rest. -/
def MotionState.init (b : BBox) : MotionState :=
  { center_x := b.x + b.width / 2, center_y := b.y + b.height / 2
    width := b.width, height := b.height
    v_center_x := 0, v_center_y := 0, v_width := 0, v_height := 0 }

/-- Modelled from the spec: a track, "`{id, motion state, hits, age,
time_since_update, lifecycle_state, class_id, label}`"; the tracker is per class,
and the score of the detection is kept next to its label. -/
structure Track where
  id : Nat
  motion : MotionState
  hits : Nat
  age : Nat
  time_since_update : Nat
  lifecycle_state : LifecycleState
  label : String
  score : Nat
deriving DecidableEq, Repr

/-- Modelled from the spec: the tracker of one class, with its configuration
(`max_age`, `min_hits`, `iou_threshold`), its tracks, and its id counter. -/
structure SORT where
  max_age : Nat
  min_hits : Nat
  iou_threshold : ℚ
  tracks : List Track
  next_id : Nat
deriving DecidableEq, Repr

/-- Modelled from the spec: the tracker as constructed, `SORT(max_age, min_hits)`,
without tracks. The IOU threshold of the association is a parameter. -/
def SORT.create (max_age min_hits : Nat) (iou_threshold : ℚ) : SORT :=
  { max_age := max_age, min_hits := min_hits, iou_threshold := iou_threshold
    tracks := [], next_id := 0 }

/-- Modelled from the spec: the IOU of two boxes in top-left form. -/
def BBox.iou (a b : BBox) : ℚ :=
  iou_calc ⟨a.x, a.y, a.width, a.height⟩ ⟨b.x, b.y, b.width, b.height⟩

/-- Modelled from the spec: "cost matrix `cost[i][j] = 1 − IOU(predicted_i,
detection_j)`". -/
def cost_matrix (tracks : List Track) (dets : List TrackingObject) : List (List ℚ) :=
  tracks.map (fun t => dets.map (fun d => 1 - BBox.iou t.motion.bbox d.bBox))

/-- Modelled from the spec: the association. The assignment solver is the parameter
`solve`; of the pairs `(track, detection)` that it returns, those "with `IOU <
iou_threshold`" are excluded, as are pairs that name no track or no detection. -/
def associate (solve : List (List ℚ) → List (Nat × Nat)) (iou_threshold : ℚ)
    (tracks : List Track) (dets : List TrackingObject) : List (Nat × Nat) :=
  (solve (cost_matrix tracks dets)).filter (fun p =>
    match tracks[p.1]?, dets[p.2]? with
    | some t, some d => decide (¬ BBox.iou t.motion.bbox d.bBox < iou_threshold)
    | _, _ => false)

/-- Modelled from the spec: "promote to Confirmed once `hits ≥ min_hits`". -/
def Track.promote (min_hits : Nat) (t : Track) : Track :=
  if t.hits ≥ min_hits then { t with lifecycle_state := .Confirmed } else t

/-- Modelled from the spec: a matched track, "feed the detection into the track's
motion-model correction step; `time_since_update = 0`; `hits += 1`; promote to
Confirmed once `hits ≥ min_hits`". The correction step is the parameter `correct`. -/
def Track.matched (correct : MotionState → BBox → MotionState) (min_hits : Nat) (t : Track)
    (d : TrackingObject) : Track :=
  Track.promote min_hits
    { t with motion := correct t.motion d.bBox, time_since_update := 0, hits := t.hits + 1 }

/-- Modelled from the spec: an unmatched track, "`age += 1`, `time_since_update +=
1`; delete (remove) once `time_since_update > max_age`". -/
def Track.unmatched (max_age : Nat) (t : Track) : Track :=
  if t.time_since_update + 1 > max_age then
    { t with age := t.age + 1, time_since_update := t.time_since_update + 1
             lifecycle_state := .Deleted }
  else { t with age := t.age + 1, time_since_update := t.time_since_update + 1 }

/-- Modelled from the spec: a track born of an unmatched detection, "spawn new
Tentative track, fresh monotonic id, `hits=1, age=0, time_since_update=0`"; it
"transitions to Confirmed once `hits ≥ min_hits`". -/
def Track.spawn (min_hits id : Nat) (d : TrackingObject) : Track :=
  Track.promote min_hits
    { id := id, motion := MotionState.init d.bBox, hits := 1, age := 0, time_since_update := 0
      lifecycle_state := .Tentative, label := d.name, score := d.score }

/-- Modelled from the spec: the prediction step for a track, "advance every existing
track's constant-velocity motion model one time-step". -/
def Track.predict (t : Track) : Track := { t with motion := t.motion.predict }

/-- Modelled from the spec: the track at index `i` after association with the
accepted pairs `pairs`. -/
def update_track (correct : MotionState → BBox → MotionState) (max_age min_hits : Nat)
    (pairs : List (Nat × Nat)) (dets : List TrackingObject) (i : Nat) (t : Track) : Track :=
  match pairs.find? (fun p => p.1 == i) with
  | none => Track.unmatched max_age t
  | some p =>
    match dets[p.2]? with
    | none => Track.unmatched max_age t
    | some d => Track.matched correct min_hits t d

/-- Modelled from the spec: the tracks after association, from index `i` on. -/
def update_tracks (correct : MotionState → BBox → MotionState) (max_age min_hits : Nat)
    (pairs : List (Nat × Nat)) (dets : List TrackingObject) : Nat → List Track → List Track
  | _, [] => []
  | i, t :: ts =>
    update_track correct max_age min_hits pairs dets i t
      :: update_tracks correct max_age min_hits pairs dets (i + 1) ts

/-- Modelled from the spec: the detections that no accepted pair names, from index
`j` on. -/
def unmatched_detections (pairs : List (Nat × Nat)) :
    Nat → List TrackingObject → List TrackingObject
  | _, [] => []
  | j, d :: ds =>
    if pairs.all (fun p => p.2 != j) then d :: unmatched_detections pairs (j + 1) ds
    else unmatched_detections pairs (j + 1) ds

/-- Modelled from the spec: the tracks born of the unmatched detections, with the
ids `id`, `id + 1`, and so on. -/
def spawn_all (min_hits : Nat) : Nat → List TrackingObject → List Track
  | _, [] => []
  | id, d :: ds => Track.spawn min_hits id d :: spawn_all min_hits (id + 1) ds

/-- Modelled from the spec: what `Update` returns for a track. -/
def Track.output (t : Track) : TrackingObject :=
  { bBox := t.motion.bbox, score := t.score, name := t.label, trackingID := t.id }

/-- Modelled from the spec: a track that is reported, "Confirmed and matched in this
frame (`time_since_update == 0`)". -/
def Track.reported (t : Track) : Bool :=
  t.lifecycle_state == .Confirmed && t.time_since_update == 0

/-- Modelled from the spec: `SORT::Update`, steps 1 to 6 of the tracker: predict,
associate, correct the matched tracks, age and delete the unmatched ones, spawn a
track for each unmatched detection, and return the tracks that are Confirmed and
matched in this frame. The new state comes first, the returned tracks second. -/
def SORT.Update (solve : List (List ℚ) → List (Nat × Nat))
    (correct : MotionState → BBox → MotionState) (s : SORT) (dets : List TrackingObject) :
    SORT × List TrackingObject :=
  let predicted := s.tracks.map Track.predict
  let pairs := associate solve s.iou_threshold predicted dets
  let updated := update_tracks correct s.max_age s.min_hits pairs dets 0 predicted
  let kept := updated.filter (fun t => t.lifecycle_state != .Deleted)
  let fresh := unmatched_detections pairs 0 dets
  let tracks := kept ++ spawn_all s.min_hits s.next_id fresh
  ({ s with tracks := tracks, next_id := s.next_id + fresh.length },
    (tracks.filter Track.reported).map Track.output)

/-- Modelled from the spec: the tracker after `Update` on consecutive frames. -/
def SORT.run (solve : List (List ℚ) → List (Nat × Nat))
    (correct : MotionState → BBox → MotionState) : SORT → List (List TrackingObject) → SORT
  | s, [] => s
  | s, dets :: frames => SORT.run solve correct (SORT.Update solve correct s dets).1 frames

/-- The ids of the tracks ascend along the list of tracks and lie below the id
counter, and no track of the list is Deleted. -/
def SORT.wf (s : SORT) : Prop :=
  (s.tracks.map (fun t => t.id)).Pairwise (fun a b => a < b) ∧
    (∀ t ∈ s.tracks, t.id < s.next_id) ∧ ∀ t ∈ s.tracks, t.lifecycle_state ≠ .Deleted

/-- The track with id `x` is matched by no accepted pair in `Update s dets`. -/
def SORT.unmatched (solve : List (List ℚ) → List (Nat × Nat)) (s : SORT)
    (dets : List TrackingObject) (x : Nat) : Prop :=
  ∀ i t, s.tracks[i]? = some t → t.id = x →
    (associate solve s.iou_threshold (s.tracks.map Track.predict) dets).find?
      (fun p => p.1 == i) = none

/-- The track with id `x` is matched on none of the consecutive frames `frames`. -/
def SORT.unmatched_run (solve : List (List ℚ) → List (Nat × Nat))
    (correct : MotionState → BBox → MotionState) (x : Nat) :
    SORT → List (List TrackingObject) → Prop
  | _, [] => True
  | s, dets :: frames =>
    SORT.unmatched solve s dets x ∧
      SORT.unmatched_run solve correct x (SORT.Update solve correct s dets).1 frames

/-- The track that a detection `d` sustained at one place yields after `k` frames
in a tracker that was empty, with id counter `id`. -/
def Track.sustained (min_hits id : Nat) (d : TrackingObject) (k : Nat) : Track :=
  { id := id, motion := MotionState.init d.bBox, hits := k, age := 0, time_since_update := 0
    lifecycle_state := if k ≥ min_hits then .Confirmed else .Tentative
    label := d.name, score := d.score }

/-- A solver for tests: it pairs track 0 with detection 0 when both exist. -/
def solveFirst (cost : List (List ℚ)) : List (Nat × Nat) :=
  match cost with
  | (_ :: _) :: _ => [(0, 0)]
  | _ => []

/-- A correction step for tests: the measured box replaces the position and size,
the velocities stay. -/
def correctReplace (m : MotionState) (z : BBox) : MotionState :=
  { m with center_x := z.x + z.width / 2, center_y := z.y + z.height / 2
           width := z.width, height := z.height }

/-- A tracker `SORT(30, 5)` that holds one track, with id 0, matched on the last
frame. -/
def sortOneTrack : SORT :=
  { max_age := 30, min_hits := 5, iou_threshold := 3 / 10
    tracks := [{ id := 0, motion := MotionState.init ⟨1 / 10, 2 / 10, 3 / 10, 4 / 10⟩
                 hits := 1, age := 0, time_since_update := 0
                 lifecycle_state := .Tentative, label := "person", score := 86 }]
    next_id := 1 }

/-- A detection of the class 2 at `(0.125, 0.125)` of size `0.25 × 0.25`. -/
def resultCarA : YoloResult := ⟨2, 1 / 8, 1 / 8, 1 / 4, 1 / 4, 7 / 8, "car"⟩

/-- A detection of the class 1 at `(0.5, 0.5)` of size `0.25 × 0.375`. -/
def resultPerson : YoloResult := ⟨1, 1 / 2, 1 / 2, 1 / 4, 3 / 8, 3 / 4, "person"⟩

/-- A detection of the class 2 that reaches out of the frame: `x = -0.125` and
width 1.5. -/
def resultCarB : YoloResult := ⟨2, -1 / 8, 1 / 2, 3 / 2, 1 / 4, 1 / 2, "car"⟩

/-- Three detections of a frame, of the classes 2, 1 and 2. -/
def resultsTwoClasses : List YoloResult := [resultCarA, resultPerson, resultCarB]

/-- A solver for tests: it pairs track `i` with detection `i`. -/
def solveDiagonal (cost : List (List ℚ)) : List (Nat × Nat) :=
  (List.range (min cost.length (cost.headD []).length)).map (fun i => (i, i))

/-- A tracker `SORT(30, 5)` of the class 1 that holds one Confirmed track, with id
4, at the place of `resultPerson`. -/
def sortPerson : SORT :=
  { max_age := 30, min_hits := 5, iou_threshold := 3 / 10
    tracks := [Track.sustained 5 4 (ProcessDetections_object resultPerson) 5]
    next_id := 5 }

/-- A tracker `SORT(30, 5)` of the class 2 that holds two Confirmed tracks, with the
ids 2 and 5, at the places of `resultCarA` and `resultCarB`. -/
def sortCars : SORT :=
  { max_age := 30, min_hits := 5, iou_threshold := 3 / 10
    tracks := [Track.sustained 5 2 (ProcessDetections_object resultCarA) 5,
               Track.sustained 5 5 (ProcessDetections_object resultCarB) 5]
    next_id := 6 }

/-- The array of the two trackers. -/
def trackersTwoClasses (i : Nat) : SORT := if i = 0 then sortPerson else sortCars

theorem u32_of_lt {n : Nat} (h : n < 2 ^ 32) : u32 n = n := Nat.mod_eq_of_lt h

/-- For an anchor below `NUM_ANCHORS` the first channel of the anchor and the
offsets up to `CLASS_CHANNEL_OFFSET` are computed without wrap-around. -/
theorem channel_no_wrap (F a k : Nat) (hF : F < 2 ^ 32) (ha : a < 3) (hk : k ≤ 5) :
    u32 (F / NUM_ANCHORS * a) = F / 3 * a ∧ F / 3 * a + k < 2 ^ 32 := by
  have h3 : F / 3 * a ≤ F / 3 * 2 := Nat.mul_le_mul_left _ (by omega)
  have hlt : F / 3 * a < 2 ^ 32 := by omega
  refine ⟨?_, by omega⟩
  simp only [NUM_ANCHORS]
  exact u32_of_lt hlt

theorem int_of_uint_of_lt {n : Nat} (h : n < 2 ^ 31) : int_of_uint n = (n : Int) := by
  have h1 : u32 n = n := Nat.mod_eq_of_lt (by omega)
  simp only [int_of_uint, h1]
  rw [if_pos (by exact_mod_cast h)]

/-! ## The class loop -/

/-- The loop of `get_class` from state `st` over the class ids `s, ..., s + n - 1`:
either no class exceeded `st.2` and the state is unchanged, or the state holds the
first class of maximal value. -/
theorem get_class_fold (L : YoloOutputLayer) (row col anchor : Nat) :
    ∀ (n s : Nat) (st : Nat × Nat),
      let f := L.get_class_prob row col anchor
      let r := (List.range' s n).foldl (L.get_class_step row col anchor) st
      st.2 ≤ r.2 ∧ (∀ k, s ≤ k → k < s + n → f k ≤ r.2) ∧
        (r = st ∨ (s ≤ r.1 ∧ r.1 < s + n ∧ r.2 = f r.1 ∧ st.2 < f r.1 ∧
          ∀ k, s ≤ k → k < r.1 → f k < f r.1)) := by
  intro n
  induction n with
  | zero =>
    intro s st
    simp
    intro k h1 h2
    omega
  | succ n ih =>
    intro s st
    simp only [List.range'_succ, List.foldl_cons]
    have h := ih (s + 1) (L.get_class_step row col anchor st s)
    simp only at h
    obtain ⟨h1, h2, h3⟩ := h
    by_cases hc : L.get_class_prob row col anchor s > st.2
    · have hst : L.get_class_step row col anchor st s = (s, L.get_class_prob row col anchor s) := by
        simp [YoloOutputLayer.get_class_step, hc]
      rw [hst] at h1 h2 h3 ⊢
      simp only at h1 h3
      refine ⟨by omega, ?_, ?_⟩
      · intro k hk1 hk2
        rcases Nat.eq_or_lt_of_le hk1 with h | h
        · subst h; exact h1
        · exact h2 k h (by omega)
      · right
        rcases h3 with h3 | ⟨a, b, c, d, e⟩
        · rw [h3]
          refine ⟨le_refl _, by omega, rfl, hc, ?_⟩
          intro k hk1 hk2
          simp only at hk2
          omega
        · refine ⟨by omega, by omega, c, by omega, ?_⟩
          intro k hk1 hk2
          rcases Nat.eq_or_lt_of_le hk1 with h | h
          · subst h; exact d
          · exact e k h hk2
    · have hst : L.get_class_step row col anchor st s = st := by
        simp [YoloOutputLayer.get_class_step, hc]
      rw [hst] at h1 h2 h3 ⊢
      refine ⟨h1, ?_, ?_⟩
      · intro k hk1 hk2
        rcases Nat.eq_or_lt_of_le hk1 with h | h
        · subst h; omega
        · exact h2 k h (by omega)
      · rcases h3 with h3 | ⟨a, b, c, d, e⟩
        · left; exact h3
        · right
          refine ⟨by omega, by omega, c, d, ?_⟩
          intro k hk1 hk2
          rcases Nat.eq_or_lt_of_le hk1 with h | h
          · subst h; omega
          · exact e k h hk2


/-! ## The loops of `extract_boxes` -/

theorem foldlM_flatMap {α β σ ε : Type} (f : α → List β) (g : σ → β → Except ε σ) :
    ∀ (l : List α) (s : σ),
      (l.flatMap f).foldlM g s = l.foldlM (fun s a => (f a).foldlM g s) s := by
  intro l
  induction l with
  | nil => intro s; rfl
  | cons a l ih =>
    intro s
    rw [List.flatMap_cons, List.foldlM_append, List.foldlM_cons]
    cases h : List.foldlM g s (f a) with
    | error e => rfl
    | ok s1 => exact ih s1

theorem foldlM_extract_anchor (expf : ℚ → ℚ) (P : YoloPost) (layer : YoloOutputLayer) :
    ∀ (cs : List (Nat × Nat × Nat)) (objects : List HailoDetection),
      cs.foldlM (fun objs c => P.extract_anchor expf layer c.1 c.2.1 objs c.2.2) objects
        = append_to objects (emit_cells expf P layer cs) := by
  intro cs
  induction cs with
  | nil => intro objects; simp [emit_cells, append_to]; rfl
  | cons c cs ih =>
    intro objects
    rw [List.foldlM_cons]
    show (P.extract_anchor expf layer c.1 c.2.1 objects c.2.2 >>= fun s =>
      List.foldlM (fun objs c => P.extract_anchor expf layer c.1 c.2.1 objs c.2.2) s cs) = _
    cases h : P.extract_cell expf layer c.1 c.2.1 c.2.2 with
    | error e =>
      have ha : P.extract_anchor expf layer c.1 c.2.1 objects c.2.2 = .error e := by
        simp only [YoloPost.extract_anchor, h]
      rw [ha]
      simp only [emit_cells, h]
      rfl
    | ok r =>
      cases r with
      | none =>
        have ha : P.extract_anchor expf layer c.1 c.2.1 objects c.2.2 = .ok objects := by
          simp only [YoloPost.extract_anchor, h]
        rw [ha]
        show List.foldlM _ objects cs = _
        rw [ih objects]
        simp only [emit_cells, h]
        cases emit_cells expf P layer cs <;> simp [append_to]
      | some d =>
        have ha : P.extract_anchor expf layer c.1 c.2.1 objects c.2.2 = .ok (objects ++ [d]) := by
          simp only [YoloPost.extract_anchor, h]
        rw [ha]
        show List.foldlM _ (objects ++ [d]) cs = _
        rw [ih (objects ++ [d])]
        simp only [emit_cells, h]
        cases emit_cells expf P layer cs <;> simp [append_to]

/-- The three nested loops of `extract_boxes` visit the cells in row-major order
and append what each cell emits. -/
theorem extract_boxes_eq (expf : ℚ → ℚ) (P : YoloPost) (layer : YoloOutputLayer)
    (objects : List HailoDetection) :
    P.extract_boxes expf layer objects
      = append_to objects (emit_cells expf P layer (cells layer)) := by
  rw [← foldlM_extract_anchor, cells, foldlM_flatMap]
  unfold YoloPost.extract_boxes
  congr 1
  funext objs row
  rw [foldlM_flatMap]
  congr 1


theorem mem_cells (layer : YoloOutputLayer) (c : Nat × Nat × Nat) :
    c ∈ cells layer ↔ c.1 < layer.m_height ∧ c.2.1 < layer.m_width ∧ c.2.2 < 3 := by
  obtain ⟨row, col, anchor⟩ := c
  simp only [cells, NUM_ANCHORS, List.mem_flatMap, List.mem_map, List.mem_range, Prod.mk.injEq]
  constructor
  · rintro ⟨r, hr, c, hc, a, ha, h1, h2, h3⟩
    subst h1 h2 h3
    exact ⟨hr, hc, ha⟩
  · rintro ⟨hr, hc, ha⟩
    exact ⟨row, hr, col, hc, anchor, ha, rfl, rfl, rfl⟩

theorem mem_emit_cells (expf : ℚ → ℚ) (P : YoloPost) (layer : YoloOutputLayer) :
    ∀ (cs : List (Nat × Nat × Nat)) (ds : List HailoDetection),
      emit_cells expf P layer cs = .ok ds →
      ∀ d ∈ ds, ∃ c ∈ cs, P.extract_cell expf layer c.1 c.2.1 c.2.2 = .ok (some d) := by
  intro cs
  induction cs with
  | nil =>
    intro ds h d hd
    simp only [emit_cells, Except.ok.injEq] at h
    subst h
    simp at hd
  | cons c cs ih =>
    intro ds h d hd
    simp only [emit_cells] at h
    cases hc : P.extract_cell expf layer c.1 c.2.1 c.2.2 with
    | error e => rw [hc] at h; simp at h
    | ok r =>
      rw [hc] at h
      cases hr : emit_cells expf P layer cs with
      | error e => rw [hr] at h; simp at h
      | ok ds1 =>
        rw [hr] at h
        simp only [Except.ok.injEq] at h
        subst h
        rcases List.mem_append.mp hd with h1 | h1
        · cases r with
          | none => simp at h1
          | some d1 =>
            simp only [Option.toList, List.mem_singleton] at h1
            subst h1
            exact ⟨c, List.mem_cons_self _ _, hc⟩
        · obtain ⟨c1, hc1, hc2⟩ := ih ds1 hr d h1
          exact ⟨c1, List.mem_cons_of_mem _ hc1, hc2⟩

/-- What `extract_cell` does at a cell whose shape is read within `m_anchors`. -/
theorem extract_cell_of_shape (expf : ℚ → ℚ) (P : YoloPost) (layer : YoloOutputLayer)
    (row col anchor : Nat) (s : ℚ × ℚ)
    (hs : layer.get_shape row col anchor P.m_image_width P.m_image_height = some s) :
    P.extract_cell expf layer row col anchor =
      if layer.get_confidence expf row col anchor < P.m_detection_thr then .ok none
      else if layer.get_confidence expf row col anchor * (layer.get_class expf row col anchor).2
          > P.m_detection_thr then
        (if layer.get_confidence expf row col anchor * (layer.get_class expf row col anchor).2 > 1
              ∨ layer.get_confidence expf row col anchor * (layer.get_class expf row col anchor).2 < 0
          then .error .invalid_argument
          else .ok (some (cell_detection expf P layer row col anchor s)))
      else .ok none := by
  unfold YoloPost.extract_cell
  simp only [hs, HailoDetection.create, assure_normal, cell_detection]
  split_ifs <;> rfl

/-- A cell emits only with its shape read within `m_anchors`. -/
theorem extract_cell_some (expf : ℚ → ℚ) (P : YoloPost) (layer : YoloOutputLayer)
    (row col anchor : Nat) (d : HailoDetection)
    (h : P.extract_cell expf layer row col anchor = .ok (some d)) :
    ∃ s, layer.get_shape row col anchor P.m_image_width P.m_image_height = some s ∧
      d = cell_detection expf P layer row col anchor s := by
  cases hs : layer.get_shape row col anchor P.m_image_width P.m_image_height with
  | none =>
    unfold YoloPost.extract_cell at h
    simp only [hs] at h
    split_ifs at h <;> simp at h
  | some s =>
    refine ⟨s, rfl, ?_⟩
    rw [extract_cell_of_shape expf P layer row col anchor s hs] at h
    split_ifs at h <;> simp only [Except.ok.injEq, Option.some.injEq, reduceCtorEq] at h
    exact h.symm

theorem push_layers_ok (p : YoloParams) (sigmoid : Bool) :
    ∀ (ts : List HailoTensor) (i : Nat), i + ts.length ≤ p.m_anchors_vec.length →
      ∃ ls, Yolov7.push_layers p sigmoid i ts = .ok ls ∧
        ls.map (fun L => L.m_pTensor) = ts ∧
        ∀ j, j < ts.length → (ls[j]?).map (fun L => L.m_anchors) = p.m_anchors_vec[i + j]? := by
  intro ts
  induction ts with
  | nil =>
    intro i _
    exact ⟨[], rfl, rfl, fun j hj => absurd hj (Nat.not_lt_zero _)⟩
  | cons t ts ih =>
    intro i hi
    simp only [List.length_cons] at hi
    obtain ⟨ls, h1, h2, h3⟩ := ih (i + 1) (by omega)
    have hlt : i < p.m_anchors_vec.length := by omega
    refine ⟨Yolov7OL t p.m_anchors_vec[i] sigmoid p.m_label_offset t.format_uint16 :: ls, ?_, ?_, ?_⟩
    · simp only [Yolov7.push_layers, List.getElem?_eq_getElem hlt, h1]
    · simp only [List.map_cons, h2]
      rfl
    · intro j hj
      cases j with
      | zero =>
        simp only [List.getElem?_cons_zero, Option.map_some', Nat.add_zero,
          List.getElem?_eq_getElem hlt]
        rfl
      | succ j =>
        simp only [List.length_cons] at hj
        have := h3 j (by omega)
        simp only [List.getElem?_cons_succ]
        rw [this]
        congr 1
        omega

/-- The sort leaves a non-empty list non-empty, and its first element is a tensor
of the input of least size. -/
theorem sort_head (sort : List HailoTensor → List HailoTensor) (hsort : IsSizeSort sort)
    (tensors : List HailoTensor) (hne : tensors ≠ []) :
    ∃ t0, (sort tensors)[0]? = some t0 ∧ t0 ∈ tensors ∧ ∀ t ∈ tensors, t0.size ≤ t.size := by
  obtain ⟨hperm, hpw⟩ := hsort tensors
  cases hst : sort tensors with
  | nil =>
    rw [hst] at hperm
    exact absurd (List.Perm.nil_eq hperm).symm hne
  | cons t0 rest =>
    rw [hst] at hperm hpw
    refine ⟨t0, by simp, hperm.subset (List.mem_cons_self _ _), ?_⟩
    intro t ht
    have ht' : t ∈ t0 :: rest := hperm.symm.subset ht
    rcases List.mem_cons.mp ht' with h | h
    · rw [h]
    · exact (List.pairwise_cons.mp hpw).1 t h

theorem Yolov7_layers_ok (sort : List HailoTensor → List HailoTensor)
    (tensors : List HailoTensor) (p : YoloParams) (hsort : IsSizeSort sort)
    (hn : tensors.length ≤ p.m_anchors_vec.length) :
    ∃ ls, Yolov7.layers sort tensors p = .ok ls ∧
      ls.map (fun L => L.m_pTensor) = sort tensors ∧
      ∀ j, j < tensors.length → (ls[j]?).map (fun L => L.m_anchors) = p.m_anchors_vec[j]? := by
  have hlen : (sort tensors).length = tensors.length := (hsort tensors).1.length_eq
  by_cases h : tensors.length > 0
  · obtain ⟨ls, h1, h2, h3⟩ := push_layers_ok p (p.m_output_activation == "sigmoid")
      (sort tensors) 0 (by omega)
    refine ⟨ls, ?_, h2, ?_⟩
    · simp only [Yolov7.layers, if_pos h, h1]
    · intro j hj
      have := h3 j (by omega)
      rw [this]
      congr 1
      omega
  · have h0 : sort tensors = [] := List.length_eq_zero.mp (by omega)
    refine ⟨[], ?_, ?_, ?_⟩
    · simp only [Yolov7.layers, if_neg h]
    · rw [h0]; rfl
    · intro j hj
      omega

theorem Yolov7_members (sort : List HailoTensor → List HailoTensor) (tensors : List HailoTensor)
    (p : YoloParams) (P : YoloPost) (hP : Yolov7 sort tensors p = .ok P) :
    Yolov7.layers sort tensors p = .ok P.m_layers ∧
      Yolov7.image_size sort tensors = some (P.m_image_width, P.m_image_height) ∧
      P.m_dataset = p.m_labels ∧ P.m_detection_thr = p.m_detection_threshold := by
  unfold Yolov7 at hP
  cases h1 : Yolov7.layers sort tensors p with
  | error e => simp only [h1] at hP; exact Except.noConfusion hP
  | ok ls =>
    simp only [h1] at hP
    cases h2 : get_num_classes ls with
    | error e => simp only [h2] at hP; exact Except.noConfusion hP
    | ok n =>
      simp only [h2] at hP
      cases h3 : p.check_params_logic n with
      | error e => simp only [h3] at hP; exact Except.noConfusion hP
      | ok u =>
        simp only [h3] at hP
        cases h4 : Yolov7.image_size sort tensors with
        | none => simp only [h4] at hP; exact Except.noConfusion hP
        | some wh =>
          simp only [h4, Except.ok.injEq] at hP
          subst hP
          exact ⟨rfl, rfl, rfl, rfl⟩

theorem insertBySize_perm (t : HailoTensor) :
    ∀ l : List HailoTensor, (insertBySize t l).Perm (t :: l) := by
  intro l
  induction l with
  | nil => exact List.Perm.refl _
  | cons a l ih =>
    simp only [insertBySize]
    split_ifs
    · exact List.Perm.refl _
    · exact (List.Perm.cons a ih).trans (List.Perm.swap t a l)

theorem insertBySize_pairwise (t : HailoTensor) :
    ∀ l : List HailoTensor, l.Pairwise (fun a b => a.size ≤ b.size) →
      (insertBySize t l).Pairwise (fun a b => a.size ≤ b.size) := by
  intro l
  induction l with
  | nil => intro _; simp [insertBySize]
  | cons a l ih =>
    intro h
    obtain ⟨h1, h2⟩ := List.pairwise_cons.mp h
    simp only [insertBySize]
    split_ifs with hlt
    · refine List.pairwise_cons.mpr ⟨?_, h⟩
      intro b hb
      rcases List.mem_cons.mp hb with hb | hb
      · rw [hb]; omega
      · have := h1 b hb
        omega
    · refine List.pairwise_cons.mpr ⟨?_, ih h2⟩
      intro b hb
      have hb' : b ∈ t :: l := (insertBySize_perm t l).subset hb
      rcases List.mem_cons.mp hb' with hb' | hb'
      · rw [hb']; omega
      · exact h1 b hb'

theorem sortBySize_isSizeSort : IsSizeSort sortBySize := by
  intro l
  induction l with
  | nil => exact ⟨List.Perm.refl _, List.Pairwise.nil⟩
  | cons a l ih =>
    simp only [sortBySize]
    exact ⟨(insertBySize_perm a _).trans (List.Perm.cons a ih.1), insertBySize_pairwise a _ ih.2⟩

/-! ## Evaluation on the concrete inputs -/

theorem extract_boxes_B :
    (postOneLayer layerB).extract_boxes expf_const layerB [] = .ok [detectionB] := by
  rw [extract_boxes_eq]
  simp [cells, emit_cells, append_to, YoloPost.extract_cell, layerB, postOneLayer, tensorOneCell,
    Yolov7OL, num_classes, u32, NUM_ANCHORS, CLASS_CHANNEL_OFFSET, CONF_CHANNEL_OFFSET,
    NUM_CENTERS, NUM_SCALES, NUM_CONF, YoloOutputLayer.get_confidence, YoloOutputLayer.get_class,
    YoloOutputLayer.get_class_loop, YoloOutputLayer.get_class_step,
    YoloOutputLayer.get_class_prob, YoloOutputLayer.get_class_conf, YoloOutputLayer.get_center,
    YoloOutputLayer.get_shape, HailoTensor.get_full_percision, HailoTensor.fix_scale, uint_of_int,
    List.range, List.range.loop, List.range', HailoDetection.create, assure_normal,
    LabelMap.index, List.lookup, int_of_uint, anchorsFirst, detectionB, labelsPerson]
  norm_num

theorem layerB_values :
    layerB.get_confidence expf_const 0 0 0 = 9 / 10 ∧
      layerB.get_class expf_const 0 0 0 = (1, 95 / 100) := by
  simp [layerB, tensorOneCell, Yolov7OL, num_classes, u32, NUM_ANCHORS, CLASS_CHANNEL_OFFSET,
    CONF_CHANNEL_OFFSET, NUM_CENTERS, NUM_SCALES, NUM_CONF, YoloOutputLayer.get_confidence,
    YoloOutputLayer.get_class, YoloOutputLayer.get_class_loop, YoloOutputLayer.get_class_step,
    YoloOutputLayer.get_class_prob, YoloOutputLayer.get_class_conf,
    HailoTensor.get_full_percision, HailoTensor.fix_scale, uint_of_int, List.range']
  norm_num

/-- C1 (the code departs from the claim): the layers that the Yolov7 post-processor
builds return the dequantized value of the box-confidence channel whatever the
configured output activation is; with `output_activation = "sigmoid"` and a cell
whose dequantized box confidence is 2, the box confidence computed is 2, which
is no value of the sigmoid. -/
theorem Yolov7OL_confidence_ignores_activation :
    (∀ (expf : ℚ → ℚ) (tensor : HailoTensor) (anchors : List Int) (activation : String)
        (label_offset : Int) (is_uint16 : Bool) (row col anchor : Nat),
      (Yolov7OL tensor anchors (activation == "sigmoid") label_offset is_uint16).get_confidence
          expf row col anchor
        = tensor.get_full_percision row col
            (u32 (u32 (tensor.features / 3 * anchor) + 4)) is_uint16)
    ∧ (∀ expf : ℚ → ℚ,
        confidences_at_origin expf
            (Yolov7 sortBySize [tensorOneCell 200 0] (paramsWith "sigmoid"))
          = some [2]) := by
  refine ⟨?_, ?_⟩
  · intro expf tensor anchors activation label_offset is_uint16 row col anchor
    rfl
  · intro expf
    simp [confidences_at_origin, Yolov7, Yolov7.layers, Yolov7.image_size, get_num_classes,
      Yolov7.push_layers, sortBySize, insertBySize, paramsWith, tensorOneCell,
      YOLO_V7_ANCHORS_VEC, labelsPerson, YoloParams.check_params_logic, Yolov7OL, num_classes,
      u32, u64, NUM_ANCHORS, CLASS_CHANNEL_OFFSET, CONF_CHANNEL_OFFSET, NUM_CENTERS, NUM_SCALES,
      NUM_CONF, YoloOutputLayer.get_confidence, HailoTensor.get_full_percision,
      HailoTensor.fix_scale]
    norm_num

/-- C2, counterexample: with `label_offset = 2 ≤ num_classes = 2` and the channel of
class 2 holding 0, `get_class` returns class 1, which is outside
`[label_offset, num_classes]`. -/
theorem get_class_default_counterexample :
    uint_of_int layerOffsetTwo.m_label_offset ≤ layerOffsetTwo.m_num_classes ∧
    (layerOffsetTwo.get_class expf_const 0 0 0).1 = 1 ∧
    ¬ IsFirstMax (layerOffsetTwo.get_class_prob 0 0 0)
        (uint_of_int layerOffsetTwo.m_label_offset) layerOffsetTwo.m_num_classes
        (layerOffsetTwo.get_class expf_const 0 0 0).1 := by
  have h : (layerOffsetTwo.get_class expf_const 0 0 0).1 = 1 := by
    simp [YoloOutputLayer.get_class, YoloOutputLayer.get_class_loop, layerOffsetTwo, uint_of_int,
      List.range', YoloOutputLayer.get_class_step, YoloOutputLayer.get_class_prob, u32,
      NUM_ANCHORS, CLASS_CHANNEL_OFFSET, CONF_CHANNEL_OFFSET, NUM_CENTERS, NUM_SCALES, NUM_CONF]
  refine ⟨by simp [layerOffsetTwo, uint_of_int], h, ?_⟩
  rw [h]
  intro hmax
  have := hmax.1
  simp [layerOffsetTwo, uint_of_int] at this

/-- C2, amended: for `label_offset ≤ num_classes`, when `label_offset = 1` or some
class of `[label_offset, num_classes]` has a non-zero channel value, `get_class`
returns `(c, conf)` where `c` is the lowest class id of that range whose channel
value is maximal over the range, and `conf` is the dequantized value at the
channel of `c`, passed through the sigmoid iff the layer performs it; when every
channel value of the range is 0 it returns class 1 with the dequantized value
of 0. -/
theorem get_class_first_max (expf : ℚ → ℚ) (L : YoloOutputLayer) (row col anchor : Nat)
    (hN : L.m_num_classes < 2 ^ 32 - 1)
    (hlo : uint_of_int L.m_label_offset ≤ L.m_num_classes) :
    ((uint_of_int L.m_label_offset = 1 ∨
        ∃ c, uint_of_int L.m_label_offset ≤ c ∧ c ≤ L.m_num_classes ∧
          0 < L.get_class_prob row col anchor c) →
      IsFirstMax (L.get_class_prob row col anchor) (uint_of_int L.m_label_offset)
          L.m_num_classes (L.get_class expf row col anchor).1 ∧
      (L.get_class expf row col anchor).2 =
        (if L.m_perform_sigmoid then
          sigmoid expf (L.m_pTensor.fix_scale
            (L.get_class_prob row col anchor (L.get_class expf row col anchor).1))
         else L.m_pTensor.fix_scale
            (L.get_class_prob row col anchor (L.get_class expf row col anchor).1))) ∧
    ((∀ c, uint_of_int L.m_label_offset ≤ c → c ≤ L.m_num_classes →
        L.get_class_prob row col anchor c = 0) →
      L.get_class expf row col anchor =
        (1, if L.m_perform_sigmoid then sigmoid expf (L.m_pTensor.fix_scale 0)
            else L.m_pTensor.fix_scale 0)) := by
  have _ := hN
  obtain ⟨h1, h2, h3⟩ := get_class_fold L row col anchor
    (L.m_num_classes + 1 - uint_of_int L.m_label_offset) (uint_of_int L.m_label_offset) (1, 0)
  simp only at h1 h2 h3
  have hsum : uint_of_int L.m_label_offset + (L.m_num_classes + 1 - uint_of_int L.m_label_offset)
      = L.m_num_classes + 1 := by omega
  rw [hsum] at h2 h3
  simp only [YoloOutputLayer.get_class, YoloOutputLayer.get_class_loop,
    YoloOutputLayer.get_class_conf]
  generalize (List.range' (uint_of_int L.m_label_offset)
      (L.m_num_classes + 1 - uint_of_int L.m_label_offset)).foldl
      (L.get_class_step row col anchor) (1, 0) = r at h1 h2 h3 ⊢
  refine ⟨?_, ?_⟩
  · intro hnz
    rcases h3 with h3 | ⟨a, b, c, d, e⟩
    · subst h3
      simp only at h2 ⊢
      rcases hnz with hone | ⟨c, hc1, hc2, hc3⟩
      · have hz : L.get_class_prob row col anchor 1 = 0 := by
          have := h2 1 (by omega) (by omega)
          omega
        refine ⟨⟨by omega, by omega, ?_, ?_⟩, by rw [hz]⟩
        · intro k hk1 hk2
          have := h2 k hk1 (by omega)
          omega
        · intro k hk1 hk2
          omega
      · have := h2 c hc1 (by omega)
        omega
    · refine ⟨⟨a, by omega, ?_, e⟩, by rw [c]⟩
      intro k hk1 hk2
      have := h2 k hk1 (by omega)
      omega
  · intro hzero
    rcases h3 with h3 | ⟨a, b, c, d, e⟩
    · subst h3
      rfl
    · have := hzero r.1 a (by omega)
      omega

/-- C2, witness: Scenario B, where `label_offset = 1` and `num_classes = 1`. -/
theorem get_class_first_max_witness :
    layerB.m_num_classes < 2 ^ 32 - 1 ∧
    uint_of_int layerB.m_label_offset ≤ layerB.m_num_classes ∧
    IsFirstMax (layerB.get_class_prob 0 0 0) (uint_of_int layerB.m_label_offset)
      layerB.m_num_classes (layerB.get_class expf_const 0 0 0).1 :=
  ⟨by decide, by decide,
    ((get_class_first_max expf_const layerB 0 0 0 (by decide) (by decide)).1
      (Or.inl (by decide))).1⟩

/-- C3: for a tensor with grid width `W > 0` and grid height `H > 0`, `get_center`
returns `x = (2*v0 - 0.5 + col) / W` and `y = (2*v1 - 0.5 + row) / H`, where `v0`
and `v1` are the dequantized values of the channels `features/3*anchor` and
`features/3*anchor + 1` at `(row, col)`. -/
theorem get_center_formula (tensor : HailoTensor) (anchors : List Int) (perform_sigmoid : Bool)
    (label_offset : Int) (is_uint16 : Bool) (row col anchor : Nat)
    (hW : 0 < tensor.width) (hH : 0 < tensor.height)
    (hF : tensor.features < 2 ^ 32) (ha : anchor < 3) :
    (Yolov7OL tensor anchors perform_sigmoid label_offset is_uint16).get_center row col anchor
      = ((2 * tensor.get_full_percision row col (tensor.features / 3 * anchor) is_uint16
            - 1 / 2 + col) / tensor.width,
         (2 * tensor.get_full_percision row col (tensor.features / 3 * anchor + 1) is_uint16
            - 1 / 2 + row) / tensor.height) := by
  have _ := hW
  have _ := hH
  obtain ⟨h1, h2⟩ := channel_no_wrap tensor.features anchor 1 hF ha (by omega)
  simp only [YoloOutputLayer.get_center, Yolov7OL, h1, u32_of_lt h2]
  rw [mul_comm (tensor.get_full_percision row col (tensor.features / 3 * anchor) is_uint16) 2,
    mul_comm (tensor.get_full_percision row col (tensor.features / 3 * anchor + 1) is_uint16) 2]

/-- C3, witness: cell `(0, 0, 0)` of the tensor of Scenario B. -/
theorem get_center_formula_witness :
    0 < (tensorOneCell 90 95).width ∧ 0 < (tensorOneCell 90 95).height ∧
    (tensorOneCell 90 95).features < 2 ^ 32 ∧
    (Yolov7OL (tensorOneCell 90 95) anchorsFirst false 1 false).get_center 0 0 0
      = ((2 * (tensorOneCell 90 95).get_full_percision 0 0
            ((tensorOneCell 90 95).features / 3 * 0) false - 1 / 2 + (0 : Nat))
            / (tensorOneCell 90 95).width,
         (2 * (tensorOneCell 90 95).get_full_percision 0 0
            ((tensorOneCell 90 95).features / 3 * 0 + 1) false - 1 / 2 + (0 : Nat))
            / (tensorOneCell 90 95).height) :=
  ⟨by decide, by decide, by decide,
    get_center_formula (tensorOneCell 90 95) anchorsFirst false 1 false 0 0 0
      (by decide) (by decide) (by decide) (by decide)⟩

/-- C4: for `anchor` in `{0, 1, 2}` and `image_width, image_height > 0`, `get_shape`
returns `w = (2*v2)^2 * anchor_w / image_width` and
`h = (2*v3)^2 * anchor_h / image_height`, where `v2`, `v3` are the dequantized
values of the channels `features/3*anchor + 2` and `+ 3`, and `anchor_w`,
`anchor_h` are the entries `2*anchor` and `2*anchor + 1` of the anchor list. -/
theorem get_shape_formula (tensor : HailoTensor) (anchors : List Int) (perform_sigmoid : Bool)
    (label_offset : Int) (is_uint16 : Bool) (row col anchor image_width image_height : Nat)
    (anchor_w anchor_h : Int)
    (ha : anchor < 3) (hiw : 0 < image_width) (hih : 0 < image_height)
    (hF : tensor.features < 2 ^ 32)
    (haw : anchors[2 * anchor]? = some anchor_w) (hah : anchors[2 * anchor + 1]? = some anchor_h) :
    (Yolov7OL tensor anchors perform_sigmoid label_offset is_uint16).get_shape row col anchor
        image_width image_height
      = some ((2 * tensor.get_full_percision row col (tensor.features / 3 * anchor + 2) is_uint16) ^ 2
            * anchor_w / image_width,
          (2 * tensor.get_full_percision row col (tensor.features / 3 * anchor + 3) is_uint16) ^ 2
            * anchor_h / image_height) := by
  have _ := hiw
  have _ := hih
  obtain ⟨h1, h2⟩ := channel_no_wrap tensor.features anchor 3 hF ha (by omega)
  have e1 : u32 (anchor * 2) = 2 * anchor := by rw [u32_of_lt (by omega)]; omega
  have e2 : u32 (2 * anchor + 1) = 2 * anchor + 1 := u32_of_lt (by omega)
  have e3 : u32 (tensor.features / 3 * anchor + NUM_CENTERS) = tensor.features / 3 * anchor + 2 :=
    u32_of_lt (by simp only [NUM_CENTERS]; omega)
  have e4 : u32 (tensor.features / 3 * anchor + 2 + 1) = tensor.features / 3 * anchor + 3 :=
    u32_of_lt (by omega)
  simp only [YoloOutputLayer.get_shape, Yolov7OL, h1, e1, e2, e3, e4, haw, hah]

/-- C4, witness: anchor 1 of the tensor of Scenario B, image 32 × 32. -/
theorem get_shape_formula_witness :
    (1 : Nat) < 3 ∧ (tensorOneCell 90 95).features < 2 ^ 32 ∧
    anchorsFirst[2 * 1]? = some 192 ∧ anchorsFirst[2 * 1 + 1]? = some 243 ∧
    (Yolov7OL (tensorOneCell 90 95) anchorsFirst false 1 false).get_shape 0 0 1 32 32
      = some ((2 * (tensorOneCell 90 95).get_full_percision 0 0
            ((tensorOneCell 90 95).features / 3 * 1 + 2) false) ^ 2 * (192 : Int) / (32 : Nat),
          (2 * (tensorOneCell 90 95).get_full_percision 0 0
            ((tensorOneCell 90 95).features / 3 * 1 + 3) false) ^ 2 * (243 : Int) / (32 : Nat)) :=
  ⟨by decide, by decide, by decide, by decide,
    get_shape_formula (tensorOneCell 90 95) anchorsFirst false 1 false 0 0 1 32 32 192 243
      (by decide) (by decide) (by decide) (by decide) (by decide) (by decide)⟩

/-- C6: every Detection that `extract_boxes` appends comes from a cell of the layer
and has confidence `box_conf * class_conf`, class id the class returned by
`get_class`, label `labels[class_id]` and bounding box `(x - w/2, y - h/2, w, h)`
with `(x, y) = get_center` and `(w, h) = get_shape` of that cell. -/
theorem extract_boxes_detection_fields (expf : ℚ → ℚ) (P : YoloPost) (layer : YoloOutputLayer)
    (objects out : List HailoDetection)
    (h : P.extract_boxes expf layer objects = .ok out) :
    ∃ ds, out = objects ++ ds ∧ ∀ d ∈ ds, ∃ row col anchor w hh,
      row < layer.m_height ∧ col < layer.m_width ∧ anchor < 3 ∧
      layer.get_shape row col anchor P.m_image_width P.m_image_height = some (w, hh) ∧
      d.m_confidence
        = layer.get_confidence expf row col anchor * (layer.get_class expf row col anchor).2 ∧
      d.m_class_id = int_of_uint (layer.get_class expf row col anchor).1 ∧
      ((layer.get_class expf row col anchor).1 < 2 ^ 31 →
        d.m_class_id = ((layer.get_class expf row col anchor).1 : Int)) ∧
      d.m_label = P.m_dataset.index (layer.get_class expf row col anchor).1 ∧
      d.m_bbox = ⟨(layer.get_center row col anchor).1 - w / 2,
        (layer.get_center row col anchor).2 - hh / 2, w, hh⟩ := by
  rw [extract_boxes_eq] at h
  cases he : emit_cells expf P layer (cells layer) with
  | error e => rw [he] at h; simp [append_to] at h
  | ok ds =>
    rw [he] at h
    simp only [append_to, Except.ok.injEq] at h
    refine ⟨ds, h.symm, ?_⟩
    intro d hd
    obtain ⟨c, hc, hcell⟩ := mem_emit_cells expf P layer _ ds he d hd
    obtain ⟨hr, hcol, ha⟩ := (mem_cells layer c).mp hc
    obtain ⟨s, hs, hds⟩ := extract_cell_some expf P layer c.1 c.2.1 c.2.2 d hcell
    refine ⟨c.1, c.2.1, c.2.2, s.1, s.2, hr, hcol, ha, hs, ?_, ?_, ?_, ?_, ?_⟩
    · rw [hds]; rfl
    · rw [hds]; rfl
    · intro hlt
      rw [hds]
      exact int_of_uint_of_lt hlt
    · rw [hds]; rfl
    · rw [hds]; rfl

/-- C6, witness: Scenario B. Box confidence 0.9 and class confidence 0.95 for the
class "person" with threshold 0.3 yield exactly one Detection, with confidence
0.855 and label "person". -/
theorem extract_boxes_detection_fields_witness :
    (postOneLayer layerB).extract_boxes expf_const layerB [] = .ok [detectionB] ∧
    detectionB.m_confidence = 855 / 1000 ∧ detectionB.m_label = "person" ∧
    layerB.get_confidence expf_const 0 0 0 = 9 / 10 ∧
    (layerB.get_class expf_const 0 0 0).2 = 95 / 100 ∧
    ∃ ds, [detectionB] = [] ++ ds ∧ ∀ d ∈ ds, ∃ row col anchor w hh,
      row < layerB.m_height ∧ col < layerB.m_width ∧ anchor < 3 ∧
      layerB.get_shape row col anchor (postOneLayer layerB).m_image_width
        (postOneLayer layerB).m_image_height = some (w, hh) ∧
      d.m_confidence
        = layerB.get_confidence expf_const row col anchor
          * (layerB.get_class expf_const row col anchor).2 ∧
      d.m_class_id = int_of_uint (layerB.get_class expf_const row col anchor).1 ∧
      ((layerB.get_class expf_const row col anchor).1 < 2 ^ 31 →
        d.m_class_id = ((layerB.get_class expf_const row col anchor).1 : Int)) ∧
      d.m_label = (postOneLayer layerB).m_dataset.index
        (layerB.get_class expf_const row col anchor).1 ∧
      d.m_bbox = ⟨(layerB.get_center row col anchor).1 - w / 2,
        (layerB.get_center row col anchor).2 - hh / 2, w, hh⟩ :=
  ⟨extract_boxes_B, rfl, rfl, layerB_values.1, by rw [layerB_values.2],
    extract_boxes_detection_fields expf_const (postOneLayer layerB) layerB [] [detectionB]
      extract_boxes_B⟩

/-- C7, counterexample: for a 2 × 2 tensor and a 1 × 1 tensor the image size is
32 × 32, that of the 1 × 1 tensor, while the tensor with the largest spatial
extent is the 2 × 2 one, for which 32 times the grid size is 64 × 64. -/
theorem image_size_counterexample :
    image_size_of (Yolov7 sortBySize [tensorFine, tensorOneCell 90 95] (paramsWith "none"))
      = some (32, 32) ∧
    (∀ t ∈ [tensorFine, tensorOneCell 90 95],
      (∀ u ∈ [tensorFine, tensorOneCell 90 95], u.width * u.height ≤ t.width * t.height) →
        (32 * t.width, 32 * t.height) = (64, 64)) := by
  refine ⟨?_, ?_⟩
  · simp [image_size_of, Yolov7, Yolov7.layers, Yolov7.image_size, get_num_classes,
      Yolov7.push_layers, sortBySize, insertBySize, paramsWith, tensorOneCell, tensorFine,
      HailoTensor.size, YOLO_V7_ANCHORS_VEC, labelsPerson, YoloParams.check_params_logic,
      Yolov7OL, num_classes, u32, u64, NUM_ANCHORS, CLASS_CHANNEL_OFFSET, CONF_CHANNEL_OFFSET,
      NUM_CENTERS, NUM_SCALES, NUM_CONF]
  · intro t ht hmax
    simp only [List.mem_cons, List.mem_singleton, List.not_mem_nil, or_false] at ht
    rcases ht with h | h
    · rw [h]; rfl
    · have := hmax tensorFine (List.mem_cons_self _ _)
      rw [h] at this
      simp [tensorFine, tensorOneCell] at this

/-- C7, amended: for every non-empty list of input tensors (whose grid sizes times
32 fit a `uint`), the image width and height of the decode are `32 * grid_width`
and `32 * grid_height` of the first tensor in size-sorted order, a tensor whose
total element count is the least. -/
theorem Yolov7_image_size_smallest (sort : List HailoTensor → List HailoTensor)
    (tensors : List HailoTensor) (hsort : IsSizeSort sort) (hne : tensors ≠ [])
    (hw : ∀ t ∈ tensors, t.width * 32 < 2 ^ 32 ∧ t.height * 32 < 2 ^ 32) :
    ∃ t0, (sort tensors)[0]? = some t0 ∧ t0 ∈ tensors ∧ (∀ t ∈ tensors, t0.size ≤ t.size) ∧
      Yolov7.image_size sort tensors = some (32 * t0.width, 32 * t0.height) ∧
      (∀ p P, Yolov7 sort tensors p = .ok P →
        P.m_image_width = 32 * t0.width ∧ P.m_image_height = 32 * t0.height) := by
  obtain ⟨t0, h0, hmem, hmin⟩ := sort_head sort hsort tensors hne
  have hpos : tensors.length > 0 := List.length_pos.mpr hne
  obtain ⟨hw0, hh0⟩ := hw t0 hmem
  have hsz : Yolov7.image_size sort tensors = some (32 * t0.width, 32 * t0.height) := by
    simp only [Yolov7.image_size, if_pos hpos, h0, Option.map_some', u32_of_lt hw0, u32_of_lt hh0,
      Nat.mul_comm]
  refine ⟨t0, h0, hmem, hmin, hsz, ?_⟩
  intro p P hP
  have := (Yolov7_members sort tensors p P hP).2.1
  rw [hsz] at this
  simp only [Option.some.injEq, Prod.mk.injEq] at this
  exact ⟨this.1.symm, this.2.symm⟩


/-- C7, witness: the 2 × 2 tensor and the 1 × 1 tensor. -/
theorem Yolov7_image_size_smallest_witness :
    [tensorFine, tensorOneCell 90 95] ≠ [] ∧
    ∃ t0, (sortBySize [tensorFine, tensorOneCell 90 95])[0]? = some t0 ∧
      t0 ∈ [tensorFine, tensorOneCell 90 95] ∧
      (∀ t ∈ [tensorFine, tensorOneCell 90 95], t0.size ≤ t.size) ∧
      Yolov7.image_size sortBySize [tensorFine, tensorOneCell 90 95]
        = some (32 * t0.width, 32 * t0.height) ∧
      (∀ p P, Yolov7 sortBySize [tensorFine, tensorOneCell 90 95] p = .ok P →
        P.m_image_width = 32 * t0.width ∧ P.m_image_height = 32 * t0.height) :=
  ⟨by simp,
    Yolov7_image_size_smallest sortBySize [tensorFine, tensorOneCell 90 95]
      sortBySize_isSizeSort (by simp)
      (by
        intro t ht
        simp only [List.mem_cons, List.mem_singleton, List.not_mem_nil, or_false] at ht
        rcases ht with h | h <;> rw [h] <;> simp [tensorFine, tensorOneCell])⟩

/-- C8: for `n` input tensors and at least `n` configured anchor lists, the
constructor builds `n` layers whose tensors are the input tensors in
non-decreasing order of total element count, and the `i`-th layer uses the
`i`-th configured anchor list; so the first layer holds a tensor of least size
and the first configured anchor list. -/
theorem Yolov7_layers_sorted_anchors (sort : List HailoTensor → List HailoTensor)
    (tensors : List HailoTensor) (p : YoloParams) (hsort : IsSizeSort sort)
    (hn : tensors.length ≤ p.m_anchors_vec.length) :
    ∃ ls, Yolov7.layers sort tensors p = .ok ls ∧
      ls.length = tensors.length ∧
      (ls.map (fun L => L.m_pTensor)).Perm tensors ∧
      (ls.map (fun L => L.m_pTensor)).Pairwise (fun a b => a.size ≤ b.size) ∧
      (∀ i, i < tensors.length →
        (ls[i]?).map (fun L => L.m_anchors) = p.m_anchors_vec[i]?) ∧
      (∀ l0, ls[0]? = some l0 →
        (∀ t ∈ tensors, l0.m_pTensor.size ≤ t.size) ∧
          p.m_anchors_vec[0]? = some l0.m_anchors) ∧
      (∀ P, Yolov7 sort tensors p = .ok P → P.m_layers = ls) := by
  obtain ⟨ls, h1, h2, h3⟩ := Yolov7_layers_ok sort tensors p hsort hn
  obtain ⟨hperm, hpw⟩ := hsort tensors
  have hlen : ls.length = tensors.length := by
    rw [← hperm.length_eq, ← h2, List.length_map]
  refine ⟨ls, h1, hlen, by rw [h2]; exact hperm, by rw [h2]; exact hpw, h3, ?_, ?_⟩
  · intro l0 hl0
    have hpos : 0 < tensors.length := by
      rw [← hlen]
      cases ls with
      | nil => simp at hl0
      | cons a l => simp
    have hne : tensors ≠ [] := by
      intro h0; rw [h0] at hpos; simp at hpos
    obtain ⟨t0, ht0, _, hmin⟩ := sort_head sort hsort tensors hne
    have e0 : (ls.map (fun L => L.m_pTensor))[0]? = some l0.m_pTensor := by
      rw [List.getElem?_map, hl0]; rfl
    rw [h2, ht0] at e0
    have e1 : t0 = l0.m_pTensor := Option.some.inj e0
    refine ⟨fun t ht => by rw [← e1]; exact hmin t ht, ?_⟩
    have := h3 0 hpos
    rw [hl0] at this
    exact this.symm
  · intro P hP
    have := (Yolov7_members sort tensors p P hP).1
    rw [h1] at this
    exact (Except.ok.inj this).symm

/-- C8, witness: the 2 × 2 tensor and the 1 × 1 tensor with `YOLO_V7_ANCHORS_VEC`. -/
theorem Yolov7_layers_sorted_anchors_witness :
    [tensorFine, tensorOneCell 90 95].length ≤ (paramsWith "none").m_anchors_vec.length ∧
    ∃ ls, Yolov7.layers sortBySize [tensorFine, tensorOneCell 90 95] (paramsWith "none")
        = .ok ls ∧
      ls.length = [tensorFine, tensorOneCell 90 95].length ∧
      (ls.map (fun L => L.m_pTensor)).Perm [tensorFine, tensorOneCell 90 95] ∧
      (ls.map (fun L => L.m_pTensor)).Pairwise (fun a b => a.size ≤ b.size) ∧
      (∀ i, i < [tensorFine, tensorOneCell 90 95].length →
        (ls[i]?).map (fun L => L.m_anchors) = (paramsWith "none").m_anchors_vec[i]?) ∧
      (∀ l0, ls[0]? = some l0 →
        (∀ t ∈ [tensorFine, tensorOneCell 90 95], l0.m_pTensor.size ≤ t.size) ∧
          (paramsWith "none").m_anchors_vec[0]? = some l0.m_anchors) ∧
      (∀ P, Yolov7 sortBySize [tensorFine, tensorOneCell 90 95] (paramsWith "none") = .ok P →
        P.m_layers = ls) :=
  ⟨by decide,
    Yolov7_layers_sorted_anchors sortBySize [tensorFine, tensorOneCell 90 95]
      (paramsWith "none") sortBySize_isSizeSort (by decide)⟩

/-- C9: for a label map and a per-tensor class count `n` (a `uint`),
`check_params_logic(n)` raises iff `label_count - 1 ≠ n`, an empty label map
always raises, and otherwise it returns without any effect. -/
theorem check_params_logic_iff (p : YoloParams) (n : Nat)
    (hsize : p.m_labels.length ≤ 256) (hn : n < 2 ^ 32) :
    (p.check_params_logic n = .error .runtime_error ↔ (p.m_labels.length : Int) - 1 ≠ (n : Int)) ∧
    (p.check_params_logic n = .ok () ↔ (p.m_labels.length : Int) - 1 = (n : Int)) ∧
    (p.m_labels = [] → p.check_params_logic n = .error .runtime_error) := by
  have key : u64 (2 ^ 64 + p.m_labels.length - 1) ≠ n ↔ (p.m_labels.length : Int) - 1 ≠ (n : Int) := by
    simp only [u64]
    omega
  refine ⟨?_, ?_, ?_⟩
  · simp only [YoloParams.check_params_logic]
    by_cases h : u64 (2 ^ 64 + p.m_labels.length - 1) ≠ n
    · rw [if_pos h]
      exact ⟨fun _ => key.mp h, fun _ => rfl⟩
    · rw [if_neg h]
      constructor
      · intro h1; exact Except.noConfusion h1
      · intro h1; exact absurd (key.mpr h1) h
  · simp only [YoloParams.check_params_logic]
    by_cases h : u64 (2 ^ 64 + p.m_labels.length - 1) ≠ n
    · rw [if_pos h]
      constructor
      · intro h1; exact Except.noConfusion h1
      · intro h1; exact absurd h1 (key.mp h)
    · rw [if_neg h]
      refine ⟨fun _ => ?_, fun _ => rfl⟩
      by_contra hc
      exact h (key.mpr hc)
  · intro h0
    have h : u64 (2 ^ 64 + p.m_labels.length - 1) ≠ n := by
      apply key.mpr
      rw [h0]
      simp only [List.length_nil]
      omega
    simp only [YoloParams.check_params_logic]
    rw [if_pos h]

/-- C9, witness: two labels and one class pass the check. -/
theorem check_params_logic_iff_witness :
    (paramsWith "none").m_labels.length ≤ 256 ∧ (1 : Nat) < 2 ^ 32 ∧
    ((paramsWith "none").check_params_logic 1 = .ok () ↔
      ((paramsWith "none").m_labels.length : Int) - 1 = ((1 : Nat) : Int)) :=
  ⟨by decide, by decide,
    (check_params_logic_iff (paramsWith "none") 1 (by decide) (by decide)).2.1⟩

/-- C10: constructing a Detection fails with `invalid_argument` iff the confidence
`c` is below 0 or above 1; when it succeeds the stored confidence is `c` itself
and the bounding box, class id and label are stored unchanged. -/
theorem HailoDetection_create_eq (bbox : HailoBBox) (class_id : Int) (label : String)
    (confidence : ℚ) :
    (HailoDetection.create bbox class_id label confidence = .error .invalid_argument ↔
      (confidence < 0 ∨ confidence > 1)) ∧
    HailoDetection.create bbox class_id label confidence =
      (if confidence < 0 ∨ confidence > 1 then .error .invalid_argument
       else .ok { m_bbox := bbox, m_scaling_bbox := ⟨0, 0, 1, 1⟩, m_confidence := confidence
                  m_label := label, m_class_id := class_id }) := by
  by_cases h : confidence > 1 ∨ confidence < 0
  · have h' : confidence < 0 ∨ confidence > 1 := h.symm
    simp only [HailoDetection.create, assure_normal, if_pos h, if_pos h']
    exact ⟨⟨fun _ => h', fun _ => trivial⟩, trivial⟩
  · have h' : ¬ (confidence < 0 ∨ confidence > 1) := fun hc => h hc.symm
    simp only [HailoDetection.create, assure_normal, if_neg h, if_neg h']
    exact ⟨⟨fun hc => Except.noConfusion hc, fun hc => absurd hc h'⟩, trivial⟩

/-! ## The suppression -/

theorem iou_calc_comm (a b : HailoBBox) : iou_calc a b = iou_calc b a := by
  simp only [iou_calc, min_comm a.xmax b.xmax, max_comm a.xmin b.xmin, min_comm a.ymax b.ymax,
    max_comm a.ymin b.ymin, add_comm (a.width * a.height) (b.width * b.height)]

theorem insertByConfidence_perm (d : HailoDetection) :
    ∀ l : List HailoDetection, (insertByConfidence d l).Perm (d :: l) := by
  intro l
  induction l with
  | nil => exact List.Perm.refl _
  | cons a l ih =>
    simp only [insertByConfidence]
    split_ifs
    · exact List.Perm.refl _
    · exact (List.Perm.cons a ih).trans (List.Perm.swap d a l)

theorem insertByConfidence_pairwise (d : HailoDetection) :
    ∀ l : List HailoDetection, l.Pairwise (fun a b => b.m_confidence ≤ a.m_confidence) →
      (insertByConfidence d l).Pairwise (fun a b => b.m_confidence ≤ a.m_confidence) := by
  intro l
  induction l with
  | nil => intro _; simp [insertByConfidence]
  | cons a l ih =>
    intro h
    obtain ⟨h1, h2⟩ := List.pairwise_cons.mp h
    simp only [insertByConfidence]
    split_ifs with hle
    · refine List.pairwise_cons.mpr ⟨?_, h⟩
      intro b hb
      rcases List.mem_cons.mp hb with hb | hb
      · rw [hb]; exact hle
      · exact le_trans (h1 b hb) hle
    · refine List.pairwise_cons.mpr ⟨?_, ih h2⟩
      intro b hb
      have hb' : b ∈ d :: l := (insertByConfidence_perm d l).subset hb
      rcases List.mem_cons.mp hb' with hb' | hb'
      · rw [hb']; exact le_of_lt (not_le.mp hle)
      · exact h1 b hb'

theorem sortByConfidence_pairwise :
    ∀ l : List HailoDetection,
      (sortByConfidence l).Pairwise (fun a b => b.m_confidence ≤ a.m_confidence) := by
  intro l
  induction l with
  | nil => exact List.Pairwise.nil
  | cons a l ih => exact insertByConfidence_pairwise a _ ih

theorem sortByConfidence_of_pairwise :
    ∀ l : List HailoDetection, l.Pairwise (fun a b => b.m_confidence ≤ a.m_confidence) →
      sortByConfidence l = l := by
  intro l
  induction l with
  | nil => intro _; rfl
  | cons a l ih =>
    intro h
    obtain ⟨h1, h2⟩ := List.pairwise_cons.mp h
    simp only [sortByConfidence, ih h2]
    cases l with
    | nil => rfl
    | cons b l =>
      simp only [insertByConfidence]
      rw [if_pos (h1 b (List.mem_cons_self _ _))]

/-- The greedy pass keeps `kept`, appends a sublist of the remaining detections,
and never keeps a detection that conflicts with one kept before it. -/
theorem nms_greedy_spec (iou_thr : ℚ) :
    ∀ (ds kept : List HailoDetection),
      ∃ s, s.Sublist ds ∧ nms_greedy iou_thr kept ds = kept ++ s ∧
        (kept.Pairwise (fun k d => k.m_class_id = d.m_class_id →
            iou_calc k.m_bbox d.m_bbox < iou_thr) →
          (kept ++ s).Pairwise (fun k d => k.m_class_id = d.m_class_id →
            iou_calc k.m_bbox d.m_bbox < iou_thr)) := by
  intro ds
  induction ds with
  | nil =>
    intro kept
    exact ⟨[], List.Sublist.refl _, by simp [nms_greedy], by simp⟩
  | cons d ds ih =>
    intro kept
    by_cases hk : nms_keeps iou_thr kept d = true
    · obtain ⟨s, hs1, hs2, hs3⟩ := ih (kept ++ [d])
      refine ⟨d :: s, hs1.cons₂ d, ?_, ?_⟩
      · simp only [nms_greedy, hk, if_true, hs2, List.append_assoc, List.singleton_append]
      · intro hp
        have hq : (kept ++ [d]).Pairwise (fun k d => k.m_class_id = d.m_class_id →
            iou_calc k.m_bbox d.m_bbox < iou_thr) := by
          refine List.pairwise_append.mpr ⟨hp, List.pairwise_singleton _ _, ?_⟩
          intro a ha b hb
          rw [List.mem_singleton.mp hb]
          simp only [nms_keeps, List.all_eq_true, decide_eq_true_eq] at hk
          exact hk a ha
        have := hs3 hq
        simpa only [List.append_assoc, List.singleton_append] using this
    · obtain ⟨s, hs1, hs2, hs3⟩ := ih kept
      refine ⟨s, hs1.cons d, ?_, hs3⟩
      simp only [nms_greedy, hk, hs2]
      rfl

theorem nms_greedy_keeps_all (iou_thr : ℚ) :
    ∀ (ds kept : List HailoDetection),
      (kept ++ ds).Pairwise (fun k d => k.m_class_id = d.m_class_id →
          iou_calc k.m_bbox d.m_bbox < iou_thr) →
        nms_greedy iou_thr kept ds = kept ++ ds := by
  intro ds
  induction ds with
  | nil => intro kept _; simp [nms_greedy]
  | cons d ds ih =>
    intro kept hp
    have hk : nms_keeps iou_thr kept d = true := by
      simp only [nms_keeps, List.all_eq_true, decide_eq_true_eq]
      intro a ha
      exact (List.pairwise_append.mp hp).2.2 a ha d (List.mem_cons_self _ _)
    have hp' : ((kept ++ [d]) ++ ds).Pairwise (fun k d => k.m_class_id = d.m_class_id →
          iou_calc k.m_bbox d.m_bbox < iou_thr) := by
      simpa only [List.append_assoc, List.singleton_append] using hp
    simp only [nms_greedy, hk, if_true, ih (kept ++ [d]) hp', List.append_assoc,
      List.singleton_append]

/-- The output of the suppression: a sublist of the sorted input, in descending
order of confidence, without conflicting pairs. -/
theorem nms_spec (objects : List HailoDetection) (iou_thr : ℚ) :
    (nms objects iou_thr).Sublist (sortByConfidence objects) ∧
    (nms objects iou_thr).Pairwise (fun a b => b.m_confidence ≤ a.m_confidence) ∧
    (nms objects iou_thr).Pairwise (fun k d => k.m_class_id = d.m_class_id →
      iou_calc k.m_bbox d.m_bbox < iou_thr) := by
  obtain ⟨s, hs1, hs2, hs3⟩ := nms_greedy_spec iou_thr (sortByConfidence objects) []
  have he : nms objects iou_thr = s := by simp only [nms, hs2, List.nil_append]
  rw [he]
  refine ⟨hs1, (sortByConfidence_pairwise objects).sublist hs1, ?_⟩
  simpa using hs3 List.Pairwise.nil

/-- C18: the list that the suppression produces holds no pair of same-class
detections with IOU at or above the threshold, and the suppression applied to
its own output returns that output unchanged. -/
theorem nms_idempotent (objects : List HailoDetection) (iou_thr : ℚ) :
    NoSuppressiblePair iou_thr (nms objects iou_thr) ∧
    nms (nms objects iou_thr) iou_thr = nms objects iou_thr := by
  obtain ⟨_, hsorted, hq⟩ := nms_spec objects iou_thr
  refine ⟨?_, ?_⟩
  · intro i j hi hj hij hclass
    rcases Nat.lt_or_gt_of_ne hij with h | h
    · exact (List.pairwise_iff_getElem.mp hq) i j hi hj h hclass
    · rw [iou_calc_comm]
      exact (List.pairwise_iff_getElem.mp hq) j i hj hi h hclass.symm
  · have h1 : sortByConfidence (nms objects iou_thr) = nms objects iou_thr :=
      sortByConfidence_of_pairwise _ hsorted
    have h2 := nms_greedy_keeps_all iou_thr (nms objects iou_thr) [] (by simpa using hq)
    show nms_greedy iou_thr [] (sortByConfidence (nms objects iou_thr)) = _
    rw [h1, h2, List.nil_append]

/-! ## `decode`, zero tensors, confidences below the threshold -/

theorem create_unclassified_none :
    HailoDetection.create_unclassified ⟨0, 0, 1, 1⟩ "None" 0
      = .ok { m_bbox := ⟨0, 0, 1, 1⟩, m_scaling_bbox := ⟨0, 0, 1, 1⟩, m_confidence := 0
              m_label := "None", m_class_id := -1 } := by
  have h : ¬ ((0 : ℚ) > 1 ∨ (0 : ℚ) < 0) := by norm_num
  simp only [HailoDetection.create_unclassified, assure_normal, if_neg h]

/-- What `decode` returns once the extraction has succeeded. -/
theorem decode_of_extract_all (expf : ℚ → ℚ)
    (nms : List HailoDetection → ℚ → List HailoDetection) (P : YoloPost)
    (objects : List HailoDetection) (h : P.extract_all expf = .ok objects) :
    P.decode expf nms = .ok ((nms objects P.m_iou_thr).take P.m_max_boxes) := by
  unfold YoloPost.decode
  simp only [h]
  by_cases hk : (nms objects P.m_iou_thr).length > P.m_max_boxes
  · rw [if_pos hk, create_unclassified_none]
    simp only [vector_resize]
    have : P.m_max_boxes - (nms objects P.m_iou_thr).length = 0 := by omega
    rw [this, List.replicate_zero, List.append_nil]
  · rw [if_neg hk, List.take_of_length_le (by omega)]

/-- C11: when the extraction fails `decode` fails with it; otherwise the list
that `decode` returns is the first `min(k, max_boxes)` entries of the `k`-entry
suppressed list in the same order: its length is at most `max_boxes`, and as
a prefix of the suppressed list it holds no entry, such as the detection "None"
of confidence 0, that the suppression did not produce. -/
theorem decode_truncates (expf : ℚ → ℚ)
    (nms : List HailoDetection → ℚ → List HailoDetection) (P : YoloPost) :
    (∀ e, P.extract_all expf = .error e → P.decode expf nms = .error e) ∧
    (∀ objects, P.extract_all expf = .ok objects →
      P.decode expf nms
        = .ok ((nms objects P.m_iou_thr).take
            (min (nms objects P.m_iou_thr).length P.m_max_boxes)) ∧
      ((nms objects P.m_iou_thr).take
          (min (nms objects P.m_iou_thr).length P.m_max_boxes)).length ≤ P.m_max_boxes ∧
      (nms objects P.m_iou_thr).take (min (nms objects P.m_iou_thr).length P.m_max_boxes)
        <+: nms objects P.m_iou_thr) := by
  refine ⟨?_, ?_⟩
  · intro e h
    unfold YoloPost.decode
    simp only [h]
  · intro objects h
    have hmin : (nms objects P.m_iou_thr).take
          (min (nms objects P.m_iou_thr).length P.m_max_boxes)
        = (nms objects P.m_iou_thr).take P.m_max_boxes := by
      by_cases hk : (nms objects P.m_iou_thr).length ≤ P.m_max_boxes
      · rw [Nat.min_eq_left hk, List.take_length, List.take_of_length_le hk]
      · rw [Nat.min_eq_right (by omega)]
    rw [hmin]
    refine ⟨decode_of_extract_all expf nms P objects h, ?_, List.take_prefix _ _⟩
    rw [List.length_take]
    exact Nat.min_le_left _ _

/-- C12: when more than `max_boxes` detections survive the suppression, `decode`
returns `max_boxes` of them, and every returned detection has a confidence at
least that of every dropped one. -/
theorem decode_keeps_highest (expf : ℚ → ℚ) (P : YoloPost) (objects : List HailoDetection)
    (h : P.extract_all expf = .ok objects)
    (hk : P.m_max_boxes < (nms objects P.m_iou_thr).length) :
    P.decode expf nms = .ok ((nms objects P.m_iou_thr).take P.m_max_boxes) ∧
    ((nms objects P.m_iou_thr).take P.m_max_boxes).length = P.m_max_boxes ∧
    ∀ d ∈ (nms objects P.m_iou_thr).take P.m_max_boxes,
      ∀ dropped ∈ (nms objects P.m_iou_thr).drop P.m_max_boxes,
        dropped.m_confidence ≤ d.m_confidence := by
  refine ⟨decode_of_extract_all expf nms P objects h, ?_, ?_⟩
  · rw [List.length_take]
    exact Nat.min_eq_left (le_of_lt hk)
  · intro d hd dropped hdr
    have hp := (nms_spec objects P.m_iou_thr).2.1
    rw [← List.take_append_drop P.m_max_boxes (nms objects P.m_iou_thr)] at hp
    exact (List.pairwise_append.mp hp).2.2 d hd dropped hdr

/-- C13 (the code departs from the claim): with zero tensors the constructor of
`Yolov7` skips the block that builds the layers and then reads `m_layers[0]` of
the empty vector in `get_num_classes`; neither the constructor nor `yolov7`
completes. -/
theorem yolov7_zero_tensors (expf : ℚ → ℚ)
    (nms : List HailoDetection → ℚ → List HailoDetection)
    (sort : List HailoTensor → List HailoTensor) (p : YoloParams) :
    Yolov7 sort [] p = .error .out_of_range ∧
    yolov7 expf nms sort [] p = .error .out_of_range := by
  have h : Yolov7 sort [] p = .error .out_of_range := by
    simp [Yolov7, Yolov7.layers, get_num_classes]
  exact ⟨h, by simp only [yolov7, h]⟩

/-- A layer none of whose cells reaches the threshold emits nothing. -/
theorem emit_cells_below (expf : ℚ → ℚ) (P : YoloPost) (layer : YoloOutputLayer) :
    ∀ cs : List (Nat × Nat × Nat),
      (∀ c ∈ cs, layer.get_confidence expf c.1 c.2.1 c.2.2 < P.m_detection_thr) →
      emit_cells expf P layer cs = .ok [] := by
  intro cs
  induction cs with
  | nil => intro _; rfl
  | cons c cs ih =>
    intro h
    have hc : P.extract_cell expf layer c.1 c.2.1 c.2.2 = .ok none := by
      unfold YoloPost.extract_cell
      simp only [if_pos (h c (List.mem_cons_self _ _))]
    simp only [emit_cells, hc, ih (fun c' hc' => h c' (List.mem_cons_of_mem _ hc'))]
    rfl

theorem foldlM_extract_boxes_below (expf : ℚ → ℚ) (P : YoloPost) :
    ∀ (layers : List YoloOutputLayer) (objects : List HailoDetection),
      (∀ layer ∈ layers, ∀ row col anchor, row < layer.m_height → col < layer.m_width →
        anchor < 3 → layer.get_confidence expf row col anchor < P.m_detection_thr) →
      layers.foldlM (fun objs layer => P.extract_boxes expf layer objs) objects = .ok objects := by
  intro layers
  induction layers with
  | nil => intro objects _; rfl
  | cons layer layers ih =>
    intro objects h
    have hl : P.extract_boxes expf layer objects = .ok objects := by
      rw [extract_boxes_eq, emit_cells_below]
      · simp [append_to]
      · intro c hc
        obtain ⟨h1, h2, h3⟩ := (mem_cells layer c).mp hc
        exact h layer (List.mem_cons_self _ _) c.1 c.2.1 c.2.2 h1 h2 h3
    rw [List.foldlM_cons]
    show (P.extract_boxes expf layer objects >>= fun s =>
      List.foldlM (fun objs layer => P.extract_boxes expf layer objs) s layers) = _
    rw [hl]
    exact ih objects (fun l hl' => h l (List.mem_cons_of_mem _ hl'))

/-- C14: when the box confidence of every cell of every layer is below the
threshold, `extract_boxes` appends nothing for any layer, the list handed to the
suppression is empty, and `decode` returns the empty list when the suppression
of the empty list is empty. -/
theorem extract_boxes_all_below (expf : ℚ → ℚ)
    (nms : List HailoDetection → ℚ → List HailoDetection) (P : YoloPost)
    (h : ∀ layer ∈ P.m_layers, ∀ row col anchor, row < layer.m_height → col < layer.m_width →
      anchor < 3 → layer.get_confidence expf row col anchor < P.m_detection_thr) :
    (∀ layer ∈ P.m_layers, ∀ objects, P.extract_boxes expf layer objects = .ok objects) ∧
    P.extract_all expf = .ok [] ∧
    (nms [] P.m_iou_thr = [] → P.decode expf nms = .ok []) := by
  have hall : P.extract_all expf = .ok [] := foldlM_extract_boxes_below expf P P.m_layers [] h
  refine ⟨?_, hall, ?_⟩
  · intro layer hl objects
    have := foldlM_extract_boxes_below expf P [layer] objects (by
      intro l hl' row col anchor h1 h2 h3
      rw [List.mem_singleton.mp hl'] at h1 h2 ⊢
      exact h layer hl row col anchor h1 h2 h3)
    simpa [List.foldlM_cons] using this
  · intro hn
    rw [decode_of_extract_all expf nms P [] hall, hn, List.take_nil]

/-! ## Scenario D -/

theorem extract_all_D : postD.extract_all expf_const = .ok [detectionD06, detectionD09] := by
  have h : postD.extract_boxes expf_const layerD [] = .ok [detectionD06, detectionD09] := by
    rw [extract_boxes_eq]
    simp [cells, emit_cells, append_to, YoloPost.extract_cell, layerD, postD, tensorTwoAnchors,
      Yolov7OL, num_classes, u32, NUM_ANCHORS, CLASS_CHANNEL_OFFSET, CONF_CHANNEL_OFFSET,
      NUM_CENTERS, NUM_SCALES, NUM_CONF, YoloOutputLayer.get_confidence,
      YoloOutputLayer.get_class, YoloOutputLayer.get_class_loop, YoloOutputLayer.get_class_step,
      YoloOutputLayer.get_class_prob, YoloOutputLayer.get_class_conf,
      YoloOutputLayer.get_center, YoloOutputLayer.get_shape, HailoTensor.get_full_percision,
      HailoTensor.fix_scale, uint_of_int, List.range, List.range.loop, List.range',
      HailoDetection.create, assure_normal, LabelMap.index, List.lookup, int_of_uint,
      anchorsFirst, detectionD06, detectionD09, labelsPerson]
    norm_num
  show List.foldlM _ [] [layerD] = _
  rw [List.foldlM_cons]
  show (postD.extract_boxes expf_const layerD [] >>= fun s => List.foldlM _ s []) = _
  rw [h]
  rfl

theorem iou_D : iou_calc detectionD09.m_bbox detectionD06.m_bbox = 0 := by
  simp only [iou_calc, detectionD06, detectionD09, HailoBBox.xmin, HailoBBox.xmax,
    HailoBBox.ymin, HailoBBox.ymax, HailoBBox.width, HailoBBox.height]
  norm_num [min_def, max_def]

theorem nms_D : nms [detectionD06, detectionD09] (45 / 100) = [detectionD09, detectionD06] := by
  have hs : sortByConfidence [detectionD06, detectionD09] = [detectionD09, detectionD06] := by
    have hc : ¬ detectionD09.m_confidence ≤ detectionD06.m_confidence := by
      norm_num [detectionD06, detectionD09]
    simp only [sortByConfidence, insertByConfidence, if_neg hc]
  show nms_greedy _ [] (sortByConfidence [detectionD06, detectionD09]) = _
  rw [hs]
  refine nms_greedy_keeps_all _ _ [] ?_
  simp only [List.nil_append, List.pairwise_cons, List.mem_singleton, forall_eq,
    List.not_mem_nil, false_implies, implies_true, List.Pairwise.nil, and_true]
  intro _
  rw [iou_D]
  norm_num

/-! ## The sigmoid -/

theorem sigmoid_unit_interval (expf : ℚ → ℚ) (hexp : ∀ x, 0 ≤ expf x) (x : ℚ) :
    0 ≤ sigmoid expf x ∧ sigmoid expf x ≤ 1 := by
  have h := hexp (-x)
  have hpos : (0 : ℚ) < 1 + expf (-x) := by linarith
  simp only [sigmoid]
  refine ⟨le_of_lt (div_pos one_pos hpos), ?_⟩
  rw [div_le_one hpos]
  linarith

/-- C15, counterexample: with no activation, scale 1/100 and the raw value 200 in
the box-confidence channel, the box confidence is 2. -/
theorem confidence_above_one_counterexample :
    (Yolov7OL (tensorOneCell 200 0) anchorsFirst false 1 false).get_confidence expf_const 0 0 0
      = 2 ∧
    ¬ ((Yolov7OL (tensorOneCell 200 0) anchorsFirst false 1 false).get_confidence
        expf_const 0 0 0 ≤ 1) := by
  have h : (Yolov7OL (tensorOneCell 200 0) anchorsFirst false 1 false).get_confidence
      expf_const 0 0 0 = 2 := by
    simp [Yolov7OL, tensorOneCell, YoloOutputLayer.get_confidence, u32, NUM_ANCHORS,
      CONF_CHANNEL_OFFSET, NUM_CENTERS, NUM_SCALES, HailoTensor.get_full_percision,
      HailoTensor.fix_scale]
    norm_num
  refine ⟨h, ?_⟩
  rw [h]
  norm_num

/-- C15, amended: for every tensor content and quantization, every confidence
computed before thresholding (the box confidence of `get_confidence` and the
class confidence of `get_class`) lies in `[0, 1]` when the layer performs the
sigmoid; when it performs none the confidence is the dequantized channel value
itself. -/
theorem confidences_in_unit_interval (expf : ℚ → ℚ) (hexp : ∀ x, 0 ≤ expf x)
    (L : YoloOutputLayer) (row col anchor : Nat) :
    (L.m_perform_sigmoid = true →
      0 ≤ L.get_confidence expf row col anchor ∧ L.get_confidence expf row col anchor ≤ 1 ∧
      0 ≤ (L.get_class expf row col anchor).2 ∧ (L.get_class expf row col anchor).2 ≤ 1) ∧
    (L.m_perform_sigmoid = false →
      L.get_confidence expf row col anchor
        = L.m_pTensor.get_full_percision row col
            (u32 (u32 (L.m_pTensor.features / NUM_ANCHORS * anchor) + CONF_CHANNEL_OFFSET))
            L.m_is_uint16 ∧
      (L.get_class expf row col anchor).2
        = L.m_pTensor.fix_scale (L.get_class_loop row col anchor).2) := by
  refine ⟨?_, ?_⟩
  · intro hs
    simp only [YoloOutputLayer.get_confidence, YoloOutputLayer.get_class,
      YoloOutputLayer.get_class_conf, hs, if_true]
    exact ⟨(sigmoid_unit_interval expf hexp _).1, (sigmoid_unit_interval expf hexp _).2,
      (sigmoid_unit_interval expf hexp _).1, (sigmoid_unit_interval expf hexp _).2⟩
  · intro hs
    simp only [YoloOutputLayer.get_confidence, YoloOutputLayer.get_class,
      YoloOutputLayer.get_class_conf, hs]
    exact ⟨rfl, rfl⟩

/-- C15, witness: the layer of Scenario B made to perform the sigmoid. -/
theorem confidences_in_unit_interval_witness :
    (∀ x, 0 ≤ expf_const x) ∧ layerSigmoid.m_perform_sigmoid = true ∧
    0 ≤ layerSigmoid.get_confidence expf_const 0 0 0 ∧
    layerSigmoid.get_confidence expf_const 0 0 0 ≤ 1 ∧
    0 ≤ (layerSigmoid.get_class expf_const 0 0 0).2 ∧
    (layerSigmoid.get_class expf_const 0 0 0).2 ≤ 1 :=
  ⟨fun _ => by norm_num [expf_const], rfl,
    (confidences_in_unit_interval expf_const (fun _ => by norm_num [expf_const])
      layerSigmoid 0 0 0).1 rfl⟩

/-- C16 (the code departs from the claim): a NaN box confidence and a NaN class
confidence both fall through the two guards of `extract_boxes`, which are false
on NaN, so the cell is skipped with no error; and `assure_normal` returns a NaN
unchanged. -/
theorem nan_confidence_not_rejected :
    (∀ class_confidence thr, extract_cell_nan .nan class_confidence thr = .ok none) ∧
    (∀ confidence thr, extract_cell_nan confidence .nan thr = .ok none) ∧
    assure_normal_nan .nan = .ok .nan := by
  refine ⟨?_, ?_, rfl⟩
  · intro class_confidence thr
    cases class_confidence <;> cases thr <;> rfl
  · intro confidence thr
    cases confidence with
    | nan => cases thr <;> rfl
    | num a =>
      cases thr with
      | nan => rfl
      | num t =>
        simp only [extract_cell_nan, FloatNaN.lt, FloatNaN.mul, FloatNaN.gt]
        split_ifs <;> first | rfl | contradiction

/-! ## Setting up -/

/-- The layers pushed for two parameter sets that share the anchor lists succeed
or fail together and hold the same class counts. -/
theorem push_layers_congr (p q : YoloParams) (s t : Bool)
    (h : q.m_anchors_vec = p.m_anchors_vec) :
    ∀ (ts : List HailoTensor) (i : Nat),
      (Yolov7.push_layers q t i ts).map (fun ls => ls.map (fun L => L.m_num_classes))
        = (Yolov7.push_layers p s i ts).map (fun ls => ls.map (fun L => L.m_num_classes)) := by
  intro ts
  induction ts with
  | nil => intro i; rfl
  | cons a ts ih =>
    intro i
    have := ih (i + 1)
    simp only [Yolov7.push_layers, h]
    cases p.m_anchors_vec[i]? with
    | none => rfl
    | some anchors =>
      simp only
      cases hq : Yolov7.push_layers q t (i + 1) ts with
      | error e =>
        cases hp : Yolov7.push_layers p s (i + 1) ts with
        | error e' =>
          rw [hq, hp] at this
          simp only [Except.map] at this ⊢
          exact this
        | ok l' =>
          rw [hq, hp] at this
          simp [Except.map] at this
      | ok l =>
        cases hp : Yolov7.push_layers p s (i + 1) ts with
        | error e' =>
          rw [hq, hp] at this
          simp [Except.map] at this
        | ok l' =>
          rw [hq, hp] at this
          simp only [Except.map, Except.ok.injEq] at this ⊢
          simp only [List.map_cons, this]
          rfl

theorem get_num_classes_congr (l l' : List YoloOutputLayer)
    (h : l.map (fun L => L.m_num_classes) = l'.map (fun L => L.m_num_classes)) :
    get_num_classes l = get_num_classes l' := by
  cases l with
  | nil =>
    cases l' with
    | nil => rfl
    | cons b l' => simp at h
  | cons a l =>
    cases l' with
    | nil => simp at h
    | cons b l' =>
      simp only [List.map_cons, List.cons.injEq] at h
      simp only [get_num_classes, List.getElem?_cons_zero, h.1]

/-- Whether the constructor of `Yolov7` succeeds depends on the parameters only
through the anchor lists and the labels. -/
theorem Yolov7_toBool_congr (sort : List HailoTensor → List HailoTensor)
    (tensors : List HailoTensor) (p q : YoloParams)
    (ha : q.m_anchors_vec = p.m_anchors_vec) (hl : q.m_labels = p.m_labels) :
    (Yolov7 sort tensors q).toBool = (Yolov7 sort tensors p).toBool := by
  have hlayers : (Yolov7.layers sort tensors q).map (fun ls => ls.map (fun L => L.m_num_classes))
      = (Yolov7.layers sort tensors p).map (fun ls => ls.map (fun L => L.m_num_classes)) := by
    simp only [Yolov7.layers]
    split_ifs
    · exact push_layers_congr p q _ _ ha (sort tensors) 0
    · rfl
  have hcheck : ∀ n, q.check_params_logic n = p.check_params_logic n := by
    intro n
    simp only [YoloParams.check_params_logic, hl]
  unfold Yolov7
  cases hq : Yolov7.layers sort tensors q with
  | error e =>
    cases hp : Yolov7.layers sort tensors p with
    | error e' => rfl
    | ok l' =>
      rw [hq, hp] at hlayers
      simp [Except.map] at hlayers
  | ok l =>
    cases hp : Yolov7.layers sort tensors p with
    | error e' =>
      rw [hq, hp] at hlayers
      simp [Except.map] at hlayers
    | ok l' =>
      rw [hq, hp] at hlayers
      simp only [Except.map, Except.ok.injEq] at hlayers
      simp only [get_num_classes_congr l l' hlayers]
      cases get_num_classes l' with
      | error e => rfl
      | ok n =>
        simp only [hcheck n]
        cases p.check_params_logic n with
        | error e => rfl
        | ok u =>
          simp only
          cases Yolov7.image_size sort tensors with
          | none => rfl
          | some wh => rfl

/-- C17, counterexample: the parameters with threshold 2, IOU threshold -1,
`max_boxes = 0` and activation "bogus" are constructed, and the constructor of
`Yolov7` succeeds on them. -/
theorem setup_accepts_invalid_counterexample :
    YoloParams.create 2 labelsPerson (-1) 0 YOLO_V7_ANCHORS_VEC "bogus" 1 = .ok paramsInvalid ∧
    ¬ (0 < paramsInvalid.m_detection_threshold ∧ paramsInvalid.m_detection_threshold ≤ 1) ∧
    ¬ (0 ≤ paramsInvalid.m_iou_threshold ∧ paramsInvalid.m_iou_threshold ≤ 1) ∧
    paramsInvalid.m_max_boxes = 0 ∧
    paramsInvalid.m_output_activation ≠ "none" ∧
    paramsInvalid.m_output_activation ≠ "sigmoid" ∧
    (Yolov7 sortBySize [tensorOneCell 90 95] paramsInvalid).toBool = true := by
  refine ⟨rfl, ?_, ?_, rfl, by decide, by decide, ?_⟩
  · norm_num [paramsInvalid]
  · norm_num [paramsInvalid]
  · simp [Yolov7, Yolov7.layers, Yolov7.image_size, get_num_classes,
      Yolov7.push_layers, sortBySize, insertBySize, paramsInvalid, tensorOneCell,
      YOLO_V7_ANCHORS_VEC, labelsPerson, YoloParams.check_params_logic, Yolov7OL, num_classes,
      u32, u64, NUM_ANCHORS, CLASS_CHANNEL_OFFSET, CONF_CHANNEL_OFFSET, NUM_CENTERS, NUM_SCALES,
      NUM_CONF, Except.toBool]

/-- C17, amended: the constructors of the parameters store every value unchanged
and reject none, and whether the constructor of `Yolov7` succeeds does not
depend on `detection_threshold`, `iou_threshold`, `max_boxes` or
`output_activation`. -/
theorem setup_validates_no_value :
    (∀ (detection_threshold : ℚ) (labels : LabelMap) (iou_threshold : ℚ) (max_boxes : Nat)
        (anchors_vec : List (List Int)) (output_activation : String) (label_offset : Int),
      YoloParams.create detection_threshold labels iou_threshold max_boxes anchors_vec
          output_activation label_offset
        = .ok { m_iou_threshold := iou_threshold, m_detection_threshold := detection_threshold
                m_labels := labels, m_max_boxes := max_boxes, m_anchors_vec := anchors_vec
                m_output_activation := output_activation, m_label_offset := label_offset } ∧
      Yolov7Params.create detection_threshold labels iou_threshold max_boxes anchors_vec
          output_activation label_offset
        = .ok { m_iou_threshold := iou_threshold, m_detection_threshold := detection_threshold
                m_labels := labels, m_max_boxes := max_boxes, m_anchors_vec := anchors_vec
                m_output_activation := output_activation, m_label_offset := label_offset }) ∧
    (∀ (sort : List HailoTensor → List HailoTensor) (tensors : List HailoTensor)
        (p : YoloParams) (detection_threshold iou_threshold : ℚ) (max_boxes : Nat)
        (output_activation : String),
      (Yolov7 sort tensors
          { p with m_detection_threshold := detection_threshold
                   m_iou_threshold := iou_threshold
                   m_max_boxes := max_boxes
                   m_output_activation := output_activation }).toBool
        = (Yolov7 sort tensors p).toBool) := by
  refine ⟨fun _ _ _ _ _ _ _ => ⟨rfl, rfl⟩, ?_⟩
  intro sort tensors p detection_threshold iou_threshold max_boxes output_activation
  exact Yolov7_toBool_congr sort tensors p _ rfl rfl

/-! ## The emission gate -/

theorem any_changed_iff {α : Type} (ne : α → α → Bool) :
    ∀ (last trackers : List α),
      any_changed ne last trackers = true ↔
        ∃ idx, ∃ (h1 : idx < last.length) (h2 : idx < trackers.length),
          ne last[idx] trackers[idx] = true := by
  intro last
  induction last with
  | nil =>
    intro trackers
    simp [any_changed]
  | cons a last ih =>
    intro trackers
    cases trackers with
    | nil => simp [any_changed]
    | cons b trackers =>
      simp only [any_changed]
      by_cases hab : ne a b = true
      · simp only [hab, if_true, true_iff]
        exact ⟨0, by simp, by simp, by simpa using hab⟩
      · simp only [hab, Bool.false_eq_true, if_false, ih trackers]
        constructor
        · rintro ⟨idx, h1, h2, h⟩
          exact ⟨idx + 1, by simp; omega, by simp; omega, by simpa using h⟩
        · rintro ⟨idx, h1, h2, h⟩
          cases idx with
          | zero =>
            simp only [List.getElem_cons_zero] at h
            exact absurd h hab
          | succ idx =>
            simp only [List.length_cons] at h1 h2
            exact ⟨idx, by omega, by omega, by simpa using h⟩

theorem any_changed_self {α : Type} (ne : α → α → Bool) (hirr : ∀ x, ne x x = false) :
    ∀ l : List α, any_changed ne l l = false := by
  intro l
  induction l with
  | nil => rfl
  | cons a l ih => simp only [any_changed, hirr a, Bool.false_eq_true, if_false, ih]

theorem trackings_changed_self {α : Type} (ne : α → α → Bool) (hirr : ∀ x, ne x x = false)
    (l : List α) : trackings_changed ne l l = false := by
  simp only [trackings_changed, ne_eq, not_true_eq_false, if_false, any_changed_self ne hirr l]

/-- C20: `ProcessDetections` compares the current list with the stored one; it
emits the current list exactly when the two differ in length, or in the element
at some position, or more than 30 frames have passed; when it does not emit the
stored list is unchanged, and when it emits the stored list becomes the current
list. -/
theorem ProcessDetections_emit_spec {α : Type} (ne : α → α → Bool) (node : EmissionState α)
    (trackers : List α) :
    ((ProcessDetections_emit ne node trackers).2 = some trackers ↔
      ((trackers.length ≠ node.m_lastTrackings.length ∨
        ∃ idx, ∃ (h1 : idx < node.m_lastTrackings.length) (h2 : idx < trackers.length),
          ne node.m_lastTrackings[idx] trackers[idx] = true) ∨
        node.m_framesSincePublish > 30)) ∧
    ((ProcessDetections_emit ne node trackers).2 = some trackers ∨
      (ProcessDetections_emit ne node trackers).2 = none) ∧
    ((ProcessDetections_emit ne node trackers).2 = none →
      (ProcessDetections_emit ne node trackers).1.m_lastTrackings = node.m_lastTrackings) ∧
    ((ProcessDetections_emit ne node trackers).2 = some trackers →
      (ProcessDetections_emit ne node trackers).1.m_lastTrackings = trackers) := by
  have hch : trackings_changed ne node.m_lastTrackings trackers = true ↔
      (trackers.length ≠ node.m_lastTrackings.length ∨
        ∃ idx, ∃ (h1 : idx < node.m_lastTrackings.length) (h2 : idx < trackers.length),
          ne node.m_lastTrackings[idx] trackers[idx] = true) := by
    unfold trackings_changed
    by_cases hlen : trackers.length ≠ node.m_lastTrackings.length
    · rw [if_pos hlen]
      exact ⟨fun _ => Or.inl hlen, fun _ => rfl⟩
    · rw [if_neg hlen, any_changed_iff]
      exact ⟨fun h => Or.inr h, fun h => h.resolve_left hlen⟩
  by_cases hc : (trackings_changed ne node.m_lastTrackings trackers
      || decide (node.m_framesSincePublish > 30)) = true
  · have hrhs : (trackers.length ≠ node.m_lastTrackings.length ∨
        ∃ idx, ∃ (h1 : idx < node.m_lastTrackings.length) (h2 : idx < trackers.length),
          ne node.m_lastTrackings[idx] trackers[idx] = true) ∨
        node.m_framesSincePublish > 30 := by
      rcases (Bool.or_eq_true _ _).mp hc with h | h
      · exact Or.inl (hch.mp h)
      · exact Or.inr (of_decide_eq_true h)
    have he : ProcessDetections_emit ne node trackers
        = ({ m_lastTrackings := trackers, m_framesSincePublish := 0 + 1 }, some trackers) := by
      unfold ProcessDetections_emit
      rw [if_pos hc]
    rw [he]
    exact ⟨⟨fun _ => hrhs, fun _ => rfl⟩, Or.inl rfl, fun h => Option.noConfusion h,
      fun _ => rfl⟩
  · have hrhs : ¬ ((trackers.length ≠ node.m_lastTrackings.length ∨
        ∃ idx, ∃ (h1 : idx < node.m_lastTrackings.length) (h2 : idx < trackers.length),
          ne node.m_lastTrackings[idx] trackers[idx] = true) ∨
        node.m_framesSincePublish > 30) := by
      intro h
      apply hc
      rcases h with h | h
      · rw [hch.mpr h, Bool.true_or]
      · rw [decide_eq_true h, Bool.or_true]
    have he : ProcessDetections_emit ne node trackers
        = ({ node with m_framesSincePublish := node.m_framesSincePublish + 1 }, none) := by
      unfold ProcessDetections_emit
      rw [if_neg hc]
    rw [he]
    exact ⟨⟨fun h => Option.noConfusion h, fun h => absurd h hrhs⟩, Or.inr rfl, fun _ => rfl,
      fun h => Option.noConfusion h⟩

/-- A frame that carries the stored list emits exactly when the counter exceeds 30. -/
theorem ProcessDetections_emit_unchanged {α : Type} (ne : α → α → Bool)
    (hirr : ∀ x, ne x x = false) (E : List α) (c : Nat) :
    ProcessDetections_emit ne ⟨E, c⟩ E
      = if c > 30 then (⟨E, 1⟩, some E) else (⟨E, c + 1⟩, none) := by
  unfold ProcessDetections_emit
  simp only [trackings_changed_self ne hirr E, Bool.false_or, decide_eq_true_eq]

theorem ProcessDetections_run_unchanged {α : Type} (ne : α → α → Bool)
    (hirr : ∀ x, ne x x = false) (E : List α) :
    ∀ (k c : Nat), c + k ≤ 31 →
      ProcessDetections_run ne ⟨E, c⟩ (List.replicate k E)
        = (⟨E, c + k⟩, List.replicate k none) := by
  intro k
  induction k with
  | zero => intro c _; rfl
  | succ k ih =>
    intro c hc
    have hstep : ProcessDetections_emit ne ⟨E, c⟩ E = (⟨E, c + 1⟩, none) := by
      rw [ProcessDetections_emit_unchanged ne hirr, if_neg (by omega)]
    simp only [List.replicate_succ, ProcessDetections_run, hstep, ih (c + 1) (by omega)]
    simp only [Prod.mk.injEq, EmissionState.mk.injEq, true_and, and_true]
    omega

theorem ProcessDetections_run_append {α : Type} (ne : α → α → Bool) :
    ∀ (a b : List (List α)) (node : EmissionState α),
      ProcessDetections_run ne node (a ++ b)
        = ((ProcessDetections_run ne (ProcessDetections_run ne node a).1 b).1,
           (ProcessDetections_run ne node a).2
            ++ (ProcessDetections_run ne (ProcessDetections_run ne node a).1 b).2) := by
  intro a
  induction a with
  | nil => intro b node; rfl
  | cons x a ih =>
    intro b node
    show ProcessDetections_run ne node (x :: (a ++ b)) = _
    simp only [ProcessDetections_run, ih, List.cons_append]

/-- C19, counterexample: after the frame that emits `[7]`, thirty following frames
that carry `[7]` emit nothing; the next emission is on the 31st. -/
theorem heartbeat_30th_frame_counterexample :
    (ProcessDetections_emit ne_nat ⟨[], 0⟩ [7]).2 = some [7] ∧
    (ProcessDetections_run ne_nat (ProcessDetections_emit ne_nat ⟨[], 0⟩ [7]).1
        (List.replicate 30 [7])).2 = List.replicate 30 none ∧
    (ProcessDetections_run ne_nat (ProcessDetections_emit ne_nat ⟨[], 0⟩ [7]).1
        (List.replicate 31 [7])).2 = List.replicate 30 none ++ [some [7]] := by
  refine ⟨by decide, by decide, by decide⟩

/-- C19, amended: after a frame on which `ProcessDetections` emits, if every
following frame carries a track set equal to the emitted one, none of the first
30 following frames emits and the 31st does. -/
theorem heartbeat_on_31st_frame {α : Type} (ne : α → α → Bool) (hirr : ∀ x, ne x x = false)
    (node : EmissionState α) (E : List α)
    (hemit : (ProcessDetections_emit ne node E).2 = some E) :
    (∀ k, k ≤ 30 →
      (ProcessDetections_run ne (ProcessDetections_emit ne node E).1 (List.replicate k E)).2
        = List.replicate k none) ∧
    (ProcessDetections_run ne (ProcessDetections_emit ne node E).1 (List.replicate 31 E)).2
      = List.replicate 30 none ++ [some E] := by
  have hst : (ProcessDetections_emit ne node E).1 = ⟨E, 1⟩ := by
    unfold ProcessDetections_emit at hemit ⊢
    split_ifs at hemit ⊢ with h
    rfl
  rw [hst]
  refine ⟨?_, ?_⟩
  · intro k hk
    rw [ProcessDetections_run_unchanged ne hirr E k 1 (by omega)]
  · have h31 : List.replicate 31 E = List.replicate 30 E ++ [E] := by
      rw [← List.replicate_succ']
    rw [h31, ProcessDetections_run_append, ProcessDetections_run_unchanged ne hirr E 30 1 (by omega)]
    simp only [ProcessDetections_run, ProcessDetections_emit_unchanged ne hirr]
    rw [if_pos (by omega)]

/-- C19, witness: the list `[7]` emitted from the initial state. -/
theorem heartbeat_on_31st_frame_witness :
    (∀ x, ne_nat x x = false) ∧
    (ProcessDetections_emit ne_nat ⟨[], 0⟩ [7]).2 = some [7] ∧
    (ProcessDetections_run ne_nat (ProcessDetections_emit ne_nat ⟨[], 0⟩ [7]).1
        (List.replicate 31 [7])).2 = List.replicate 30 none ++ [some [7]] :=
  ⟨fun x => by simp [ne_nat], by decide,
    (heartbeat_on_31st_frame ne_nat (fun x => by simp [ne_nat]) ⟨[], 0⟩ [7] (by decide)).2⟩

/-! ## Witnesses on Scenarios A and D -/

theorem layerA_below :
    ∀ layer ∈ (postOneLayer layerA).m_layers, ∀ row col anchor, row < layer.m_height →
      col < layer.m_width → anchor < 3 →
      layer.get_confidence expf_const row col anchor < (postOneLayer layerA).m_detection_thr := by
  intro layer hl row col anchor hr hc ha
  simp only [postOneLayer, List.mem_singleton] at hl
  subst hl
  simp only [layerA, Yolov7OL, tensorOneCell] at hr hc
  have hr0 : row = 0 := by omega
  have hc0 : col = 0 := by omega
  subst hr0 hc0
  interval_cases anchor <;>
    norm_num [postOneLayer, layerA, Yolov7OL, tensorOneCell, YoloOutputLayer.get_confidence, u32,
      NUM_ANCHORS, CONF_CHANNEL_OFFSET, NUM_CENTERS, NUM_SCALES, HailoTensor.get_full_percision,
      HailoTensor.fix_scale]

/-- C11, witness: Scenario D, where two detections survive and `max_boxes = 1`. -/
theorem decode_truncates_witness :
    postD.extract_all expf_const = .ok [detectionD06, detectionD09] ∧
    postD.decode expf_const nms = .ok [detectionD09] ∧
    [detectionD09].length ≤ postD.m_max_boxes := by
  have h := ((decode_truncates expf_const nms postD).2 _ extract_all_D).1
  have hn : nms [detectionD06, detectionD09] postD.m_iou_thr = [detectionD09, detectionD06] :=
    nms_D
  rw [hn] at h
  exact ⟨extract_all_D, h, by decide⟩

/-- C12, witness: Scenario D. With `max_boxes = 1` and survivors of confidence 0.9
and 0.6, `decode` returns only the detection of confidence 0.9. -/
theorem decode_keeps_highest_witness :
    postD.extract_all expf_const = .ok [detectionD06, detectionD09] ∧
    nms [detectionD06, detectionD09] postD.m_iou_thr = [detectionD09, detectionD06] ∧
    postD.m_max_boxes = 1 ∧
    detectionD09.m_confidence = 9 / 10 ∧ detectionD06.m_confidence = 6 / 10 ∧
    postD.decode expf_const nms = .ok [detectionD09] := by
  have hn : nms [detectionD06, detectionD09] postD.m_iou_thr = [detectionD09, detectionD06] :=
    nms_D
  have h := (decode_keeps_highest expf_const postD _ extract_all_D (by rw [hn]; decide)).1
  rw [hn] at h
  exact ⟨extract_all_D, hn, rfl, rfl, rfl, h⟩

/-- C14, witness: Scenario A, one cell of box confidence 0.1 under the threshold
0.3. -/
theorem extract_boxes_all_below_witness :
    (postOneLayer layerA).extract_all expf_const = .ok [] ∧
    (postOneLayer layerA).decode expf_const nms = .ok [] :=
  ⟨(extract_boxes_all_below expf_const nms (postOneLayer layerA) layerA_below).2.1,
    (extract_boxes_all_below expf_const nms (postOneLayer layerA) layerA_below).2.2 rfl⟩

/-! ## Failures of `extract_boxes` and the boxes it emits -/

theorem round_int_bounds (x : ℚ) : |(round_int x : ℚ) - x| ≤ 1 / 2 := by
  unfold round_int
  by_cases h : 0 ≤ x
  · rw [if_pos h, abs_le]
    have h1 := Int.floor_le (x + 1 / 2)
    have h2 := Int.lt_floor_add_one (x + 1 / 2)
    constructor <;> linarith
  · rw [if_neg h, abs_le]
    have h1 := Int.floor_le (-x + 1 / 2)
    have h2 := Int.lt_floor_add_one (-x + 1 / 2)
    push_cast
    constructor <;> linarith

/-! ## The channels -/

theorem channels_read_eq (F a : Nat) (hF : F < 2 ^ 32) (h5 : 5 ≤ F / 3) (ha : a < 3) :
    channels_read F a = List.range' (F / 3 * a) (F / 3) := by
  have hdiv : F / 3 * 3 ≤ F := Nat.div_mul_le_self F 3
  have hmul : F / 3 * a + F / 3 ≤ F / 3 * 3 := by
    have : F / 3 * (a + 1) ≤ F / 3 * 3 := Nat.mul_le_mul_left _ (by omega)
    rw [Nat.mul_add, Nat.mul_one] at this
    exact this
  have hnc : num_classes F = F / 3 - 5 := by
    unfold num_classes NUM_ANCHORS CLASS_CHANNEL_OFFSET CONF_CHANNEL_OFFSET NUM_CENTERS
      NUM_SCALES NUM_CONF
    have : 2 ^ 32 + F / 3 - (2 + 2 + 1) = 2 ^ 32 + (F / 3 - 5) := by omega
    rw [this]
    unfold u32
    rw [Nat.add_mod_left]
    exact Nat.mod_eq_of_lt (by omega)
  have hcls : ∀ c ∈ List.range' 1 (F / 3 - 5),
      class_channel F a c = (F / 3 * a + 4) + c := by
    intro c hc
    rw [List.mem_range'_1] at hc
    unfold class_channel NUM_ANCHORS CLASS_CHANNEL_OFFSET CONF_CHANNEL_OFFSET NUM_CENTERS
      NUM_SCALES NUM_CONF
    rw [u32_of_lt (show F / 3 * a < 2 ^ 32 by omega),
      u32_of_lt (show F / 3 * a + (2 + 2 + 1) < 2 ^ 32 by omega),
      u32_of_lt (show F / 3 * a + (2 + 2 + 1) + c < 2 ^ 32 by omega)]
    have : 2 ^ 32 + (F / 3 * a + (2 + 2 + 1) + c) - 1 = 2 ^ 32 + (F / 3 * a + 4 + c) := by omega
    rw [this]
    unfold u32
    rw [Nat.add_mod_left]
    exact Nat.mod_eq_of_lt (by omega)
  unfold channels_read
  rw [hnc, List.map_congr_left hcls, List.map_add_range']
  unfold center_channel shape_channel confidence_channel NUM_ANCHORS CONF_CHANNEL_OFFSET
    NUM_CENTERS NUM_SCALES
  rw [u32_of_lt (show F / 3 * a < 2 ^ 32 by omega),
    u32_of_lt (show F / 3 * a + 1 < 2 ^ 32 by omega),
    u32_of_lt (show F / 3 * a + 2 < 2 ^ 32 by omega),
    u32_of_lt (show F / 3 * a + 2 + 1 < 2 ^ 32 by omega),
    u32_of_lt (show F / 3 * a + (2 + 2) < 2 ^ 32 by omega)]
  have h3 : List.range' (F / 3 * a) (F / 3)
      = List.range' (F / 3 * a) 5 ++ List.range' (F / 3 * a + 1 * 5) (F / 3 - 5) := by
    rw [List.range'_append (F / 3 * a) 5 (F / 3 - 5) 1]
    congr 1
    omega
  rw [h3]
  have h4 : F / 3 * a + 4 + 1 = F / 3 * a + 1 * 5 := by omega
  rw [h4]
  rfl

theorem get_shape_nonneg (layer : YoloOutputLayer) (row col anchor iw ih : Nat) (s : ℚ × ℚ)
    (hanch : ∀ a ∈ layer.m_anchors, 0 ≤ a)
    (h : layer.get_shape row col anchor iw ih = some s) : 0 ≤ s.1 ∧ 0 ≤ s.2 := by
  unfold YoloOutputLayer.get_shape at h
  cases h1 : layer.m_anchors[u32 (anchor * 2)]? with
  | none => simp only [h1] at h; exact Option.noConfusion h
  | some aw =>
    cases h2 : layer.m_anchors[u32 (u32 (anchor * 2) + 1)]? with
    | none => simp only [h1, h2] at h; exact Option.noConfusion h
    | some ah =>
      simp only [h1, h2, Option.some.injEq] at h
      have haw : (0 : ℚ) ≤ (aw : ℚ) := by
        exact_mod_cast hanch aw (List.mem_iff_getElem?.mpr ⟨_, h1⟩)
      have hah : (0 : ℚ) ≤ (ah : ℚ) := by
        exact_mod_cast hanch ah (List.mem_iff_getElem?.mpr ⟨_, h2⟩)
      rw [← h]
      constructor
      · exact div_nonneg (mul_nonneg (sq_nonneg _) haw) (Nat.cast_nonneg _)
      · exact div_nonneg (mul_nonneg (sq_nonneg _) hah) (Nat.cast_nonneg _)

/-- C25: a Detection constructed with confidence 0.5 and then given
`set_confidence(2)` holds the confidence 2, outside `[0, 1]`, and no failure is
raised: `set_confidence` stores any value, `(d.set_confidence conf).get_confidence
= conf`. The other operations keep the invariant: the getters change nothing,
and copy or move construction and assignment validate the confidence of their
source, so they fail with `invalid_argument` on the Detection that
`set_confidence(2)` produced and otherwise yield a confidence in `[0, 1]`. -/
theorem set_confidence_not_validated :
    (∃ d, HailoDetection.create ⟨0, 0, 1, 1⟩ 1 "person" (1 / 2) = .ok d ∧
      0 ≤ d.get_confidence ∧ d.get_confidence ≤ 1 ∧
      (d.set_confidence 2).get_confidence = 2 ∧
      ¬ (0 ≤ (d.set_confidence 2).get_confidence ∧ (d.set_confidence 2).get_confidence ≤ 1) ∧
      (d.set_confidence 2).copy = .error .invalid_argument ∧
      d.assign (d.set_confidence 2) = .error .invalid_argument) ∧
    (∀ (d : HailoDetection) (conf : ℚ), (d.set_confidence conf).get_confidence = conf) ∧
    (∀ d c : HailoDetection, d.copy = .ok c → 0 ≤ c.get_confidence ∧ c.get_confidence ≤ 1) ∧
    (∀ this d c : HailoDetection, this.assign d = .ok c →
      0 ≤ c.get_confidence ∧ c.get_confidence ≤ 1) := by
  have hval : ∀ (x : ℚ) (c : ℚ), assure_normal x = .ok c → c = x ∧ 0 ≤ x ∧ x ≤ 1 := by
    intro x c h
    unfold assure_normal at h
    by_cases hx : x > 1 ∨ x < 0
    · rw [if_pos hx] at h
      exact Except.noConfusion h
    · rw [if_neg hx] at h
      simp only [Except.ok.injEq] at h
      push_neg at hx
      exact ⟨h.symm, hx.2, hx.1⟩
  have h2 : assure_normal 2 = .error .invalid_argument := by
    unfold assure_normal
    rw [if_pos (Or.inl (by norm_num))]
  have h12 : assure_normal (1 / 2) = .ok (1 / 2) := by
    unfold assure_normal
    rw [if_neg (by norm_num)]
  refine ⟨⟨⟨⟨0, 0, 1, 1⟩, ⟨0, 0, 1, 1⟩, 1 / 2, "person", 1⟩, ?_, ?_, ?_, rfl, ?_, ?_, ?_⟩,
    fun _ _ => rfl, ?_, ?_⟩
  · simp only [HailoDetection.create, h12]
  · norm_num [HailoDetection.get_confidence]
  · norm_num [HailoDetection.get_confidence]
  · norm_num [HailoDetection.get_confidence, HailoDetection.set_confidence]
  · simp only [HailoDetection.copy, HailoDetection.set_confidence, h2]
  · simp only [HailoDetection.assign, HailoDetection.set_confidence, h2]
  · intro d c h
    unfold HailoDetection.copy at h
    cases ha : assure_normal d.m_confidence with
    | error e => simp only [ha] at h; exact Except.noConfusion h
    | ok x =>
      simp only [ha, Except.ok.injEq] at h
      obtain ⟨hx, h0, h1⟩ := hval _ _ ha
      rw [← h]
      show 0 ≤ x ∧ x ≤ 1
      rw [hx]
      exact ⟨h0, h1⟩
  · intro this d c h
    unfold HailoDetection.assign at h
    cases ha : assure_normal d.m_confidence with
    | error e => simp only [ha] at h; exact Except.noConfusion h
    | ok x =>
      simp only [ha, Except.ok.injEq] at h
      obtain ⟨hx, h0, h1⟩ := hval _ _ ha
      rw [← h]
      show 0 ≤ x ∧ x ≤ 1
      rw [hx]
      exact ⟨h0, h1⟩

/-- C26: when the anchor dimensions of the layer are not negative and the image
width and height are positive, every Detection that `extract_boxes` appends has a
bounding box of width and height at least 0, whatever the tensor holds, and the
corners of the box are `xmax = xmin + width` and `ymax = ymin + height`. -/
theorem extract_boxes_bbox_invariant (expf : ℚ → ℚ) (P : YoloPost) (layer : YoloOutputLayer)
    (objects out : List HailoDetection)
    (hanch : ∀ a ∈ layer.m_anchors, 0 ≤ a)
    (_hw : 0 < P.m_image_width) (_hh : 0 < P.m_image_height)
    (h : P.extract_boxes expf layer objects = .ok out) :
    ∃ ds, out = objects ++ ds ∧ ∀ d ∈ ds,
      0 ≤ d.m_bbox.width ∧ 0 ≤ d.m_bbox.height ∧
      d.m_bbox.xmax = d.m_bbox.xmin + d.m_bbox.width ∧
      d.m_bbox.ymax = d.m_bbox.ymin + d.m_bbox.height := by
  rw [extract_boxes_eq] at h
  cases he : emit_cells expf P layer (cells layer) with
  | error e => rw [he] at h; exact Except.noConfusion h
  | ok ds =>
    rw [he] at h
    simp only [append_to, Except.ok.injEq] at h
    refine ⟨ds, h.symm, ?_⟩
    intro d hd
    obtain ⟨c, _, hcell⟩ := mem_emit_cells expf P layer _ ds he d hd
    obtain ⟨s, hs, hds⟩ := extract_cell_some expf P layer c.1 c.2.1 c.2.2 d hcell
    obtain ⟨h1, h2⟩ := get_shape_nonneg layer c.1 c.2.1 c.2.2 _ _ s hanch hs
    have hw : d.m_bbox.width = s.1 := by rw [hds]; rfl
    have hh : d.m_bbox.height = s.2 := by rw [hds]; rfl
    refine ⟨?_, ?_, rfl, rfl⟩
    · rw [hw]; exact h1
    · rw [hh]; exact h2

/-- C26, witness: Scenario B, whose one Detection has a box of width and height 0. -/
theorem extract_boxes_bbox_invariant_witness :
    (∀ a ∈ layerB.m_anchors, 0 ≤ a) ∧
    0 < (postOneLayer layerB).m_image_width ∧ 0 < (postOneLayer layerB).m_image_height ∧
    (postOneLayer layerB).extract_boxes expf_const layerB [] = .ok [detectionB] ∧
    ∃ ds, [detectionB] = [] ++ ds ∧ ∀ d ∈ ds,
      0 ≤ d.m_bbox.width ∧ 0 ≤ d.m_bbox.height ∧
      d.m_bbox.xmax = d.m_bbox.xmin + d.m_bbox.width ∧
      d.m_bbox.ymax = d.m_bbox.ymin + d.m_bbox.height :=
  ⟨by decide, by decide, by decide, extract_boxes_B,
    extract_boxes_bbox_invariant expf_const (postOneLayer layerB) layerB [] [detectionB]
      (by decide) (by decide) (by decide) extract_boxes_B⟩

/-- C27: for a tensor with `F` channels (`F` a `uint`) where `F/3 ≥ 5`, and an
anchor `a < 3`, the channels that the decoder reads for `a`, namely those of the
centre (`F/3*a` and the next), of the shape (`F/3*a + 2` and the next), of the box
confidence (`F/3*a + 4`) and of the classes `c` in `[1, num_classes]`
(`F/3*a + 5 + c - 1`), are exactly `F/3*a, ..., F/3*(a+1) - 1` in ascending order:
each lies in `[F/3*a, F/3*(a+1))` and below `F`, they are pairwise distinct, also
between different anchors, and `num_classes (3*(5+n)) = n`. -/
theorem channels_read_within_anchor (F a : Nat) (hF : F < 2 ^ 32) (h5 : 5 ≤ F / 3)
    (ha : a < 3) :
    num_classes F = F / 3 - 5 ∧
    center_channel F a = F / 3 * a ∧ shape_channel F a = F / 3 * a + 2 ∧
    confidence_channel F a = F / 3 * a + 4 ∧
    (∀ c, 1 ≤ c → c ≤ num_classes F → class_channel F a c = F / 3 * a + 5 + c - 1) ∧
    channels_read F a = List.range' (F / 3 * a) (F / 3) ∧
    (∀ ch ∈ channels_read F a, F / 3 * a ≤ ch ∧ ch < F / 3 * (a + 1) ∧ ch < F) ∧
    (channels_read F a).Nodup ∧
    (∀ b, b < 3 → b ≠ a → ∀ ch ∈ channels_read F a, ch ∉ channels_read F b) ∧
    (∀ n, 3 * (5 + n) < 2 ^ 32 → num_classes (3 * (5 + n)) = n) := by
  have hdiv : F / 3 * 3 ≤ F := Nat.div_mul_le_self F 3
  have hr := channels_read_eq F a hF h5 ha
  have hin : ∀ b, b < 3 → ∀ ch ∈ channels_read F b, F / 3 * b ≤ ch ∧ ch < F / 3 * (b + 1) := by
    intro b hb ch hch
    rw [channels_read_eq F b hF h5 hb, List.mem_range'_1] at hch
    rw [Nat.mul_add, Nat.mul_one]
    exact hch
  have hnum : ∀ G, G < 2 ^ 32 → 5 ≤ G / 3 → num_classes G = G / 3 - 5 := by
    intro G hG hG5
    unfold num_classes NUM_ANCHORS CLASS_CHANNEL_OFFSET CONF_CHANNEL_OFFSET NUM_CENTERS
      NUM_SCALES NUM_CONF
    have : 2 ^ 32 + G / 3 - (2 + 2 + 1) = 2 ^ 32 + (G / 3 - 5) := by omega
    rw [this]
    unfold u32
    rw [Nat.add_mod_left]
    exact Nat.mod_eq_of_lt (by omega)
  have hmul : F / 3 * (a + 1) ≤ F / 3 * 3 := Nat.mul_le_mul_left _ (by omega)
  have hmul2 : F / 3 * (a + 1) = F / 3 * a + F / 3 := by rw [Nat.mul_add, Nat.mul_one]
  refine ⟨hnum F hF h5, ?_, ?_, ?_, ?_, hr, ?_, ?_, ?_, ?_⟩
  · unfold center_channel NUM_ANCHORS
    exact u32_of_lt (by omega)
  · unfold shape_channel NUM_ANCHORS NUM_CENTERS
    rw [u32_of_lt (show F / 3 * a < 2 ^ 32 by omega)]
    exact u32_of_lt (by omega)
  · unfold confidence_channel NUM_ANCHORS CONF_CHANNEL_OFFSET NUM_CENTERS NUM_SCALES
    rw [u32_of_lt (show F / 3 * a < 2 ^ 32 by omega)]
    exact u32_of_lt (by omega)
  · intro c hc1 hc2
    rw [hnum F hF h5] at hc2
    unfold class_channel NUM_ANCHORS CLASS_CHANNEL_OFFSET CONF_CHANNEL_OFFSET NUM_CENTERS
      NUM_SCALES NUM_CONF
    rw [u32_of_lt (show F / 3 * a < 2 ^ 32 by omega),
      u32_of_lt (show F / 3 * a + (2 + 2 + 1) < 2 ^ 32 by omega),
      u32_of_lt (show F / 3 * a + (2 + 2 + 1) + c < 2 ^ 32 by omega)]
    have : 2 ^ 32 + (F / 3 * a + (2 + 2 + 1) + c) - 1 = 2 ^ 32 + (F / 3 * a + 5 + c - 1) := by
      omega
    rw [this]
    unfold u32
    rw [Nat.add_mod_left]
    exact Nat.mod_eq_of_lt (by omega)
  · intro ch hch
    obtain ⟨h1, h2⟩ := hin a ha ch hch
    exact ⟨h1, h2, by omega⟩
  · rw [hr]
    exact List.nodup_range' _ _
  · intro b hb hba ch hch hchb
    obtain ⟨h1, h2⟩ := hin a ha ch hch
    obtain ⟨h3, h4⟩ := hin b hb ch hchb
    rcases Nat.lt_or_gt_of_ne hba with hlt | hgt
    · have : F / 3 * (b + 1) ≤ F / 3 * a := Nat.mul_le_mul_left _ (by omega)
      omega
    · have : F / 3 * (a + 1) ≤ F / 3 * b := Nat.mul_le_mul_left _ (by omega)
      omega
  · intro n hn
    have h3 : 3 * (5 + n) / 3 = 5 + n := Nat.mul_div_cancel_left _ (by norm_num)
    rw [hnum (3 * (5 + n)) hn (by omega), h3]
    omega

/-- C27, witness: the 18 channels of a one-class tensor; anchor 1 reads the channels
6 to 11. -/
theorem channels_read_within_anchor_witness :
    18 < 2 ^ 32 ∧ 5 ≤ 18 / 3 ∧ 1 < 3 ∧
    channels_read 18 1 = [6, 7, 8, 9, 10, 11] ∧ num_classes 18 = 1 ∧
    (channels_read 18 1).Nodup ∧
    ∀ ch ∈ channels_read 18 1, 18 / 3 * 1 ≤ ch ∧ ch < 18 / 3 * (1 + 1) ∧ ch < 18 :=
  have h := channels_read_within_anchor 18 1 (by norm_num) (by norm_num) (by norm_num)
  ⟨by norm_num, by norm_num, by norm_num, h.2.2.2.2.2.1, h.1, h.2.2.2.2.2.2.2.1,
    h.2.2.2.2.2.2.1⟩

/-! ## The counter of the emission gate -/

theorem ProcessDetections_emit_counter {α : Type} (ne : α → α → Bool) (node : EmissionState α)
    (trackers : List α) (h : node.m_framesSincePublish ≤ 31) :
    1 ≤ (ProcessDetections_emit ne node trackers).1.m_framesSincePublish ∧
      (ProcessDetections_emit ne node trackers).1.m_framesSincePublish ≤ 31 := by
  unfold ProcessDetections_emit
  by_cases hc : (trackings_changed ne node.m_lastTrackings trackers
      || decide (node.m_framesSincePublish > 30)) = true
  · rw [if_pos hc]
    show 1 ≤ 0 + 1 ∧ 0 + 1 ≤ 31
    omega
  · rw [if_neg hc]
    have h30 : ¬ node.m_framesSincePublish > 30 := by
      intro h30
      apply hc
      rw [decide_eq_true h30, Bool.or_true]
    show 1 ≤ node.m_framesSincePublish + 1 ∧ node.m_framesSincePublish + 1 ≤ 31
    omega

theorem ProcessDetections_run_counter {α : Type} (ne : α → α → Bool) :
    ∀ (frames : List (List α)) (node : EmissionState α), node.m_framesSincePublish ≤ 31 →
      (ProcessDetections_run ne node frames).1.m_framesSincePublish ≤ 31 ∧
      (frames ≠ [] → 1 ≤ (ProcessDetections_run ne node frames).1.m_framesSincePublish) := by
  intro frames
  induction frames with
  | nil => intro node h; exact ⟨h, fun hne => absurd rfl hne⟩
  | cons t frames ih =>
    intro node h
    obtain ⟨h1, h2⟩ := ProcessDetections_emit_counter ne node t h
    obtain ⟨h3, h4⟩ := ih (ProcessDetections_emit ne node t).1 h2
    refine ⟨h3, fun _ => ?_⟩
    show 1 ≤ (ProcessDetections_run ne (ProcessDetections_emit ne node t).1 frames).1.m_framesSincePublish
    cases frames with
    | nil => exact h1
    | cons a l => exact h4 (by simp)

/-- While no frame emits the counter counts the frames, and it stays at most 31. -/
theorem ProcessDetections_run_silent {α : Type} (ne : α → α → Bool) :
    ∀ (frames : List (List α)) (node : EmissionState α),
      (∀ o ∈ (ProcessDetections_run ne node frames).2, o = none) →
      node.m_framesSincePublish ≤ 31 →
      node.m_framesSincePublish + frames.length ≤ 31 := by
  intro frames
  induction frames with
  | nil => intro node _ h; simpa using h
  | cons t frames ih =>
    intro node hsilent h
    have hfirst : (ProcessDetections_emit ne node t).2 = none :=
      hsilent _ (List.mem_cons_self _ _)
    have hrest : ∀ o ∈ (ProcessDetections_run ne (ProcessDetections_emit ne node t).1 frames).2,
        o = none := fun o ho => hsilent o (List.mem_cons_of_mem _ ho)
    have hstep : (ProcessDetections_emit ne node t).1.m_framesSincePublish
        = node.m_framesSincePublish + 1 ∧ node.m_framesSincePublish ≤ 30 := by
      unfold ProcessDetections_emit at hfirst ⊢
      by_cases hc : (trackings_changed ne node.m_lastTrackings t
          || decide (node.m_framesSincePublish > 30)) = true
      · rw [if_pos hc] at hfirst
        exact Option.noConfusion hfirst
      · rw [if_neg hc]
        refine ⟨rfl, ?_⟩
        by_contra h30
        apply hc
        rw [decide_eq_true (by omega : node.m_framesSincePublish > 30), Bool.or_true]
    have := ih (ProcessDetections_emit ne node t).1 hrest (by omega)
    simp only [List.length_cons]
    omega

/-- C30: if the frames-since-publish counter is at most 31 before a call of
`ProcessDetections`, it is between 1 and 31 after the call, and after every
non-empty sequence of calls, whatever the track sets are; and after a call that
emitted, every run of 31 further frames holds an emission, so that two consecutive
emissions are never more than 31 frames apart. -/
theorem frames_counter_bounded {α : Type} (ne : α → α → Bool) (node : EmissionState α)
    (h : node.m_framesSincePublish ≤ 31) :
    (∀ trackers,
      1 ≤ (ProcessDetections_emit ne node trackers).1.m_framesSincePublish ∧
      (ProcessDetections_emit ne node trackers).1.m_framesSincePublish ≤ 31) ∧
    (∀ frames, frames ≠ [] →
      1 ≤ (ProcessDetections_run ne node frames).1.m_framesSincePublish ∧
      (ProcessDetections_run ne node frames).1.m_framesSincePublish ≤ 31) ∧
    (∀ trackers, (ProcessDetections_emit ne node trackers).2 ≠ none →
      ∀ frames : List (List α), frames.length = 31 →
        ∃ o ∈ (ProcessDetections_run ne (ProcessDetections_emit ne node trackers).1 frames).2,
          o ≠ none) := by
  refine ⟨fun trackers => ProcessDetections_emit_counter ne node trackers h, ?_, ?_⟩
  · intro frames hne
    obtain ⟨h1, h2⟩ := ProcessDetections_run_counter ne frames node h
    exact ⟨h2 hne, h1⟩
  · intro trackers hemit frames hlen
    by_contra hno
    have hsilent : ∀ o ∈ (ProcessDetections_run ne
        (ProcessDetections_emit ne node trackers).1 frames).2, o = none := by
      intro o ho
      by_contra hne
      exact hno ⟨o, ho, hne⟩
    have hone : (ProcessDetections_emit ne node trackers).1.m_framesSincePublish = 1 := by
      unfold ProcessDetections_emit at hemit ⊢
      by_cases hc : (trackings_changed ne node.m_lastTrackings trackers
          || decide (node.m_framesSincePublish > 30)) = true
      · rw [if_pos hc]
      · rw [if_neg hc] at hemit
        exact absurd rfl hemit
    have := ProcessDetections_run_silent ne frames _ hsilent (by omega)
    omega

/-- C30, witness: the first frame of a fresh node, with one track. -/
theorem frames_counter_bounded_witness :
    (⟨[], 0⟩ : EmissionState Nat).m_framesSincePublish ≤ 31 ∧
    1 ≤ (ProcessDetections_emit ne_nat ⟨[], 0⟩ [7]).1.m_framesSincePublish ∧
    (ProcessDetections_emit ne_nat ⟨[], 0⟩ [7]).1.m_framesSincePublish ≤ 31 :=
  ⟨by decide, (frames_counter_bounded ne_nat ⟨[], 0⟩ (by decide)).1 [7]⟩

/-! ## The detections handed to the per-class trackers -/

/-- The entry of the map `m` at the key `k`, empty when there is none. -/
theorem group_foldl_getD (results : List YoloResult) :
    ∀ (m : TrackingDets) (k : Nat),
      ((results.foldl (fun m res =>
        (m.try_emplace (ProcessDetections_id res)).push_back (ProcessDetections_id res)
          (ProcessDetections_object res)) m) k).getD []
      = (m k).getD [] ++ (results.filter (fun res => ProcessDetections_id res == k)).map
          ProcessDetections_object := by
  induction results with
  | nil => intro m k; simp
  | cons r rs ih =>
    intro m k
    rw [List.foldl_cons, ih]
    by_cases hk : ProcessDetections_id r = k
    · have hb : (ProcessDetections_id r == k) = true := by simp [hk]
      simp only [List.filter_cons, hb, if_true, List.map_cons]
      have : ((TrackingDets.push_back (TrackingDets.try_emplace m (ProcessDetections_id r))
          (ProcessDetections_id r) (ProcessDetections_object r)) k).getD []
          = (m k).getD [] ++ [ProcessDetections_object r] := by
        subst hk
        simp only [TrackingDets.push_back, TrackingDets.try_emplace, if_true]
        cases m (ProcessDetections_id r) <;> simp
      rw [this, List.append_assoc]
      rfl
    · have hb : (ProcessDetections_id r == k) = false := by simp [hk]
      simp only [List.filter_cons, hb, Bool.false_eq_true, if_false]
      have hk2 : ¬ k = ProcessDetections_id r := fun h => hk h.symm
      have : ((TrackingDets.push_back (TrackingDets.try_emplace m (ProcessDetections_id r))
          (ProcessDetections_id r) (ProcessDetections_object r)) k) = m k := by
        simp only [TrackingDets.push_back, TrackingDets.try_emplace, if_neg hk2]
      rw [this]

theorem group_getD (results : List YoloResult) (k : Nat) :
    (match ProcessDetections_group results k with
      | some v => v
      | none => [])
    = (results.filter (fun res => ProcessDetections_id res == k)).map
        ProcessDetections_object := by
  have h : (ProcessDetections_group results k).getD []
      = [] ++ (results.filter (fun res => ProcessDetections_id res == k)).map
        ProcessDetections_object :=
    group_foldl_getD results (fun _ => none) k
  rw [List.nil_append] at h
  cases hq : ProcessDetections_group results k with
  | none =>
    rw [hq] at h
    exact h
  | some v =>
    rw [hq] at h
    exact h

/-- For a class id that is an `int` and an index below `2^31 - 1`, the key of a
detection is the index exactly when its class id is the index plus 1. -/
theorem id_eq_iff (res : YoloResult) (i : Nat) (hi : i + 1 < 2 ^ 31)
    (h1 : -2 ^ 31 ≤ res.classID) (h2 : res.classID < 2 ^ 31) :
    ProcessDetections_id res = u32 i ↔ res.classID = (i : Int) + 1 := by
  rw [u32_of_lt (by omega)]
  unfold ProcessDetections_id uint_of_int
  have h32 : (2 : Int) ^ 32 = 4294967296 := by norm_num
  have h31 : (2 : Int) ^ 31 = 2147483648 := by norm_num
  have h31n : (2 : Nat) ^ 31 = 2147483648 := by norm_num
  rw [h32]
  rw [h31] at h1 h2
  rw [h31n] at hi
  have hy := Int.toNat_of_nonneg (Int.emod_nonneg (res.classID - 1)
    (show (4294967296 : Int) ≠ 0 by norm_num))
  generalize ((res.classID - 1) % 4294967296).toNat = y at hy ⊢
  omega

theorem group_of_class (results : List YoloResult) (i : Nat) (hi : i + 1 < 2 ^ 31)
    (hid : ∀ res ∈ results, -2 ^ 31 ≤ res.classID ∧ res.classID < 2 ^ 31) :
    (match ProcessDetections_group results (u32 i) with
      | some v => v
      | none => [])
    = detections_of_class results i := by
  rw [group_getD]
  unfold detections_of_class
  congr 1
  apply List.filter_congr
  intro res hres
  have := id_eq_iff res i hi (hid res hres).1 (hid res hres).2
  by_cases hc : res.classID = (i : Int) + 1
  · simp [hc, this.mpr hc]
  · have hne : ¬ ProcessDetections_id res = u32 i := fun h => hc (this.mp h)
    simp [hc, hne]

theorem ProcessDetections_track_succ {S : Type}
    (Update : S → List TrackingObject → S × List TrackingObject)
    (init : Nat → S) (n : Nat) (results : List YoloResult) :
    ProcessDetections_track Update init (n + 1) results
      = ProcessDetections_turn Update (ProcessDetections_group results)
          (ProcessDetections_track Update init n results) n := by
  unfold ProcessDetections_track
  rw [List.range_succ, List.foldl_append]
  rfl

theorem ProcessDetections_track_spec {S : Type}
    (Update : S → List TrackingObject → S × List TrackingObject)
    (init : Nat → S) (results : List YoloResult) (n : Nat) :
    (∀ k, (ProcessDetections_track Update init n results).m_pSortTrackers k
      = if k < n then (Update (init k) (dets_at results k)).1 else init k) ∧
    (ProcessDetections_track Update init n results).trackers
      = (List.range n).flatMap (fun i => (Update (init i) (dets_at results i)).2) ∧
    (ProcessDetections_track Update init n results).calls
      = (List.range n).map (fun i => (i, dets_at results i)) := by
  induction n with
  | zero => exact ⟨fun k => rfl, rfl, rfl⟩
  | succ n ih =>
    obtain ⟨h1, h2, h3⟩ := ih
    rw [ProcessDetections_track_succ]
    have hn : (ProcessDetections_track Update init n results).m_pSortTrackers n = init n := by
      rw [h1 n, if_neg (Nat.lt_irrefl n)]
    refine ⟨?_, ?_, ?_⟩
    · intro k
      show (if k = n then _ else _) = _
      by_cases hk : k = n
      · rw [if_pos hk, if_pos (by omega), hn, hk]
        rfl
      · rw [if_neg hk, h1 k]
        by_cases hlt : k < n
        · rw [if_pos hlt, if_pos (by omega)]
        · rw [if_neg hlt, if_neg (by omega)]
    · show (ProcessDetections_track Update init n results).trackers ++ _ = _
      rw [h2, hn, List.range_succ, List.flatMap_append]
      simp [dets_at]
    · show (ProcessDetections_track Update init n results).calls ++ _ = _
      rw [h3, List.range_succ, List.map_append]
      rfl

theorem filter_class_perm (results : List YoloResult) (n : Nat) :
    ((List.range n).flatMap (detections_of_class results)).Perm
      ((results.filter (fun res => decide (1 ≤ res.classID ∧ res.classID ≤ (n : Int)))).map
        ProcessDetections_object) := by
  induction n with
  | zero =>
    have : results.filter (fun res => decide (1 ≤ res.classID ∧ res.classID ≤ ((0 : Nat) : Int)))
        = [] := by
      rw [List.filter_eq_nil_iff]
      intro res _
      simp only [decide_eq_true_eq]
      omega
    rw [this]
    exact List.Perm.refl _
  | succ n ih =>
    rw [List.range_succ, List.flatMap_append]
    have hsplit := List.filter_append_perm
      (fun res : YoloResult => decide (1 ≤ res.classID ∧ res.classID ≤ (n : Int)))
      (results.filter (fun res => decide (1 ≤ res.classID ∧ res.classID ≤ ((n + 1 : Nat) : Int))))
    rw [List.filter_filter, List.filter_filter] at hsplit
    have e1 : results.filter (fun a => decide (1 ≤ a.classID ∧ a.classID ≤ (n : Int))
        && decide (1 ≤ a.classID ∧ a.classID ≤ ((n + 1 : Nat) : Int)))
        = results.filter (fun res => decide (1 ≤ res.classID ∧ res.classID ≤ (n : Int))) := by
      apply List.filter_congr
      intro res _
      rw [Bool.eq_iff_iff]
      simp only [Bool.and_eq_true, decide_eq_true_eq]
      push_cast
      omega
    have e2 : results.filter (fun a => (!decide (1 ≤ a.classID ∧ a.classID ≤ (n : Int)))
        && decide (1 ≤ a.classID ∧ a.classID ≤ ((n + 1 : Nat) : Int)))
        = results.filter (fun res => decide (res.classID = (n : Int) + 1)) := by
      apply List.filter_congr
      intro res _
      rw [Bool.eq_iff_iff]
      simp only [Bool.and_eq_true, decide_eq_true_eq, Bool.not_eq_true', decide_eq_false_iff_not]
      push_cast
      omega
    rw [e1, e2] at hsplit
    have hmap := hsplit.map ProcessDetections_object
    rw [List.map_append] at hmap
    refine List.Perm.trans ?_ hmap
    simp only [List.flatMap_cons, List.flatMap_nil, List.append_nil]
    exact List.Perm.append ih (List.Perm.refl _)

/-! ## The tracker: ids -/

theorem promote_id (min_hits : Nat) (t : Track) : (Track.promote min_hits t).id = t.id := by
  unfold Track.promote
  split_ifs <;> rfl

theorem promote_time_since_update (min_hits : Nat) (t : Track) :
    (Track.promote min_hits t).time_since_update = t.time_since_update := by
  unfold Track.promote
  split_ifs <;> rfl

theorem update_track_id (correct : MotionState → BBox → MotionState) (max_age min_hits : Nat)
    (pairs : List (Nat × Nat)) (dets : List TrackingObject) (i : Nat) (t : Track) :
    (update_track correct max_age min_hits pairs dets i t).id = t.id := by
  have hu : (Track.unmatched max_age t).id = t.id := by
    unfold Track.unmatched
    split_ifs <;> rfl
  unfold update_track
  split
  · exact hu
  · split
    · exact hu
    · exact promote_id _ _

theorem update_tracks_ids (correct : MotionState → BBox → MotionState) (max_age min_hits : Nat)
    (pairs : List (Nat × Nat)) (dets : List TrackingObject) :
    ∀ (ts : List Track) (i : Nat),
      (update_tracks correct max_age min_hits pairs dets i ts).map (fun t => t.id)
        = ts.map (fun t => t.id) := by
  intro ts
  induction ts with
  | nil => intro i; rfl
  | cons t ts ih =>
    intro i
    simp only [update_tracks, List.map_cons, ih, update_track_id]

theorem mem_update_tracks (correct : MotionState → BBox → MotionState) (max_age min_hits : Nat)
    (pairs : List (Nat × Nat)) (dets : List TrackingObject) :
    ∀ (ts : List Track) (i : Nat) (u : Track),
      u ∈ update_tracks correct max_age min_hits pairs dets i ts ↔
        ∃ j t, ts[j]? = some t ∧ u = update_track correct max_age min_hits pairs dets (i + j) t := by
  intro ts
  induction ts with
  | nil =>
    intro i u
    simp [update_tracks]
  | cons t ts ih =>
    intro i u
    simp only [update_tracks, List.mem_cons, ih]
    constructor
    · rintro (h | ⟨j, t1, h1, h2⟩)
      · exact ⟨0, t, by simp, h⟩
      · refine ⟨j + 1, t1, by simpa using h1, ?_⟩
        rw [h2]
        congr 1
        omega
    · rintro ⟨j, t1, h1, h2⟩
      cases j with
      | zero =>
        left
        simp only [List.getElem?_cons_zero, Option.some.injEq] at h1
        rw [h2, h1]
        rfl
      | succ j =>
        right
        refine ⟨j, t1, by simpa using h1, ?_⟩
        rw [h2]
        congr 1
        omega

theorem spawn_all_ids (min_hits : Nat) :
    ∀ (ds : List TrackingObject) (id : Nat),
      (spawn_all min_hits id ds).map (fun t => t.id) = List.range' id ds.length := by
  intro ds
  induction ds with
  | nil => intro id; rfl
  | cons d ds ih =>
    intro id
    simp only [spawn_all, List.map_cons, ih, List.length_cons, List.range'_succ]
    congr 1
    exact promote_id _ _

theorem spawn_all_not_deleted (min_hits : Nat) :
    ∀ (ds : List TrackingObject) (id : Nat), ∀ t ∈ spawn_all min_hits id ds,
      t.lifecycle_state ≠ .Deleted := by
  intro ds
  induction ds with
  | nil => intro id t ht; exact absurd ht (List.not_mem_nil _)
  | cons d ds ih =>
    intro id t ht
    simp only [spawn_all, List.mem_cons] at ht
    rcases ht with h | h
    · rw [h]
      unfold Track.spawn Track.promote
      split_ifs <;> exact fun h => LifecycleState.noConfusion h
    · exact ih _ t h

/-- The ids of the tracks after `Update`: those of tracks that were there, in
their order, then the fresh ones, counted up from the id counter. -/
theorem Update_ids (solve : List (List ℚ) → List (Nat × Nat))
    (correct : MotionState → BBox → MotionState) (s : SORT) (dets : List TrackingObject) :
    ∃ (kept : List Track) (n : Nat),
      (kept.map (fun t => t.id)).Sublist (s.tracks.map (fun t => t.id)) ∧
      (SORT.Update solve correct s dets).1.next_id = s.next_id + n ∧
      (SORT.Update solve correct s dets).1.tracks.map (fun t => t.id)
        = kept.map (fun t => t.id) ++ List.range' s.next_id n ∧
      (SORT.Update solve correct s dets).1.max_age = s.max_age ∧
      (SORT.Update solve correct s dets).1.min_hits = s.min_hits ∧
      (SORT.Update solve correct s dets).1.iou_threshold = s.iou_threshold := by
  refine ⟨(update_tracks correct s.max_age s.min_hits
      (associate solve s.iou_threshold (s.tracks.map Track.predict) dets) dets 0
      (s.tracks.map Track.predict)).filter (fun t => t.lifecycle_state != .Deleted),
    (unmatched_detections (associate solve s.iou_threshold
        (s.tracks.map Track.predict) dets) 0 dets).length,
    ?_, rfl, ?_, rfl, rfl, rfl⟩
  · have h := update_tracks_ids correct s.max_age s.min_hits
      (associate solve s.iou_threshold (s.tracks.map Track.predict) dets) dets
      (s.tracks.map Track.predict) 0
    rw [List.map_map] at h
    have h2 : s.tracks.map ((fun t : Track => t.id) ∘ Track.predict)
        = s.tracks.map (fun t => t.id) := rfl
    rw [h2] at h
    rw [← h]
    exact List.Sublist.map _ (List.filter_sublist _)
  · show List.map (fun t : Track => t.id) (_ ++ _) = _
    rw [List.map_append, spawn_all_ids]

theorem Update_wf (solve : List (List ℚ) → List (Nat × Nat))
    (correct : MotionState → BBox → MotionState) (s : SORT) (dets : List TrackingObject)
    (h : s.wf) : (SORT.Update solve correct s dets).1.wf := by
  obtain ⟨kept, n, hsub, hnext, hids, -, -, -⟩ := Update_ids solve correct s dets
  obtain ⟨hp, hlt, -⟩ := h
  have hlt2 : ∀ a ∈ kept.map (fun t => t.id), a < s.next_id := by
    intro a ha
    have := hsub.subset ha
    rw [List.mem_map] at this
    obtain ⟨t, ht, rfl⟩ := this
    exact hlt t ht
  refine ⟨?_, ?_, ?_⟩
  · rw [hids, List.pairwise_append]
    refine ⟨hp.sublist hsub, List.pairwise_lt_range' _ _, ?_⟩
    intro a ha b hb
    rw [List.mem_range'_1] at hb
    have := hlt2 a ha
    omega
  · intro t ht
    have hmem : t.id ∈ (SORT.Update solve correct s dets).1.tracks.map (fun t => t.id) :=
      List.mem_map_of_mem _ ht
    rw [hids, List.mem_append] at hmem
    rw [hnext]
    rcases hmem with h1 | h1
    · have := hlt2 _ h1
      omega
    · rw [List.mem_range'_1] at h1
      omega
  · intro t ht
    have ht2 : t ∈ (update_tracks correct s.max_age s.min_hits
        (associate solve s.iou_threshold (s.tracks.map Track.predict) dets) dets 0
        (s.tracks.map Track.predict)).filter (fun t => t.lifecycle_state != .Deleted)
        ++ spawn_all s.min_hits s.next_id (unmatched_detections
          (associate solve s.iou_threshold (s.tracks.map Track.predict) dets) 0 dets) := ht
    rw [List.mem_append] at ht2
    rcases ht2 with h1 | h1
    · rw [List.mem_filter] at h1
      intro hd
      rw [hd] at h1
      exact absurd h1.2 (by decide)
    · exact spawn_all_not_deleted _ _ _ t h1

theorem create_wf (max_age min_hits : Nat) (iou_threshold : ℚ) :
    (SORT.create max_age min_hits iou_threshold).wf :=
  ⟨List.Pairwise.nil, fun _ h => absurd h (List.not_mem_nil _),
    fun _ h => absurd h (List.not_mem_nil _)⟩

theorem run_wf (solve : List (List ℚ) → List (Nat × Nat))
    (correct : MotionState → BBox → MotionState) :
    ∀ (frames : List (List TrackingObject)) (s : SORT), s.wf →
      (SORT.run solve correct s frames).wf := by
  intro frames
  induction frames with
  | nil => intro s h; exact h
  | cons d ds ih => intro s h; exact ih _ (Update_wf solve correct s d h)

/-- The tracks that `Update` returns ascend strictly in their id. -/
theorem Update_output_sorted (solve : List (List ℚ) → List (Nat × Nat))
    (correct : MotionState → BBox → MotionState) (s : SORT) (dets : List TrackingObject)
    (h : s.wf) :
    ((SORT.Update solve correct s dets).2.map (fun o => o.trackingID)).Pairwise
      (fun a b => a < b) := by
  have hw := (Update_wf solve correct s dets h).1
  have e : (SORT.Update solve correct s dets).2.map (fun o => o.trackingID)
      = ((SORT.Update solve correct s dets).1.tracks.filter Track.reported).map
          (fun t => t.id) := by
    show List.map _ (List.map Track.output _) = _
    rw [List.map_map]
    rfl
  rw [e]
  exact hw.sublist (List.Sublist.map _ (List.filter_sublist _))

theorem flatMap_congr_mem {α β : Type} (f g : α → List β) :
    ∀ l : List α, (∀ a ∈ l, f a = g a) → l.flatMap f = l.flatMap g := by
  intro l
  induction l with
  | nil => intro _; rfl
  | cons a l ih =>
    intro h
    rw [List.flatMap_cons, List.flatMap_cons, h a (List.mem_cons_self _ _),
      ih (fun b hb => h b (List.mem_cons_of_mem _ hb))]

/-! ## The tracker: ageing and deletion -/

theorem wf_id_inj (s : SORT) (h : s.wf) (a b : Track) (ha : a ∈ s.tracks) (hb : b ∈ s.tracks)
    (hab : a.id = b.id) : a = b := by
  have hnd : (s.tracks.map (fun t => t.id)).Nodup :=
    h.1.imp (fun h => Nat.ne_of_lt h)
  exact List.inj_on_of_nodup_map hnd ha hb hab

theorem getElem?_map_predict (ts : List Track) (j : Nat) (u : Track)
    (h : (ts.map Track.predict)[j]? = some u) :
    ∃ t, ts[j]? = some t ∧ u = t.predict := by
  rw [List.getElem?_map] at h
  cases ht : ts[j]? with
  | none => rw [ht] at h; exact Option.noConfusion h
  | some t =>
    rw [ht] at h
    exact ⟨t, rfl, (Option.some.inj h).symm⟩

/-- The tracks after `Update` that were there before: each is the update of the
prediction of a track of the same id, and is not Deleted. -/
theorem mem_Update_tracks (solve : List (List ℚ) → List (Nat × Nat))
    (correct : MotionState → BBox → MotionState) (s : SORT) (dets : List TrackingObject)
    (u : Track) (hu : u ∈ (SORT.Update solve correct s dets).1.tracks) :
    (∃ j t, s.tracks[j]? = some t ∧
      u = update_track correct s.max_age s.min_hits
        (associate solve s.iou_threshold (s.tracks.map Track.predict) dets) dets j t.predict ∧
      u.lifecycle_state ≠ .Deleted ∧ u.id = t.id) ∨ s.next_id ≤ u.id := by
  have hu2 : u ∈ (update_tracks correct s.max_age s.min_hits
      (associate solve s.iou_threshold (s.tracks.map Track.predict) dets) dets 0
      (s.tracks.map Track.predict)).filter (fun t => t.lifecycle_state != .Deleted)
      ++ spawn_all s.min_hits s.next_id (unmatched_detections
        (associate solve s.iou_threshold (s.tracks.map Track.predict) dets) 0 dets) := hu
  rw [List.mem_append] at hu2
  rcases hu2 with h | h
  · left
    rw [List.mem_filter] at h
    obtain ⟨h1, h2⟩ := h
    rw [mem_update_tracks] at h1
    obtain ⟨j, p, hj, hp⟩ := h1
    obtain ⟨t, ht, hpt⟩ := getElem?_map_predict _ _ _ hj
    rw [Nat.zero_add, hpt] at hp
    refine ⟨j, t, ht, hp, ?_, ?_⟩
    · intro hd
      rw [hd] at h2
      exact absurd h2 (by decide)
    · rw [hp, update_track_id]
      rfl
  · right
    have hmem : u.id ∈ (spawn_all s.min_hits s.next_id (unmatched_detections
        (associate solve s.iou_threshold (s.tracks.map Track.predict) dets) 0 dets)).map
        (fun t => t.id) := List.mem_map_of_mem _ h
    rw [spawn_all_ids, List.mem_range'_1] at hmem
    exact hmem.1

theorem Update_next_id_le (solve : List (List ℚ) → List (Nat × Nat))
    (correct : MotionState → BBox → MotionState) (s : SORT) (dets : List TrackingObject) :
    s.next_id ≤ (SORT.Update solve correct s dets).1.next_id := Nat.le_add_right _ _

/-- An id below the id counter that no track has is the id of no track after
`Update`. -/
theorem Update_absent (solve : List (List ℚ) → List (Nat × Nat))
    (correct : MotionState → BBox → MotionState) (s : SORT) (dets : List TrackingObject)
    (x : Nat) (hx : x < s.next_id) (habs : ∀ t ∈ s.tracks, t.id ≠ x) :
    ∀ u ∈ (SORT.Update solve correct s dets).1.tracks, u.id ≠ x := by
  intro u hu hux
  rcases mem_Update_tracks solve correct s dets u hu with ⟨j, t, ht, -, -, hid⟩ | h
  · exact habs t (List.mem_iff_getElem?.mpr ⟨_, ht⟩) (by rw [← hid, hux])
  · omega

theorem run_next_id_le (solve : List (List ℚ) → List (Nat × Nat))
    (correct : MotionState → BBox → MotionState) :
    ∀ (frames : List (List TrackingObject)) (s : SORT),
      s.next_id ≤ (SORT.run solve correct s frames).next_id := by
  intro frames
  induction frames with
  | nil => intro s; exact Nat.le_refl _
  | cons d ds ih =>
    intro s
    exact Nat.le_trans (Update_next_id_le solve correct s d) (ih _)

theorem run_absent (solve : List (List ℚ) → List (Nat × Nat))
    (correct : MotionState → BBox → MotionState) (x : Nat) :
    ∀ (frames : List (List TrackingObject)) (s : SORT), x < s.next_id →
      (∀ t ∈ s.tracks, t.id ≠ x) →
      ∀ u ∈ (SORT.run solve correct s frames).tracks, u.id ≠ x := by
  intro frames
  induction frames with
  | nil => intro s _ h; exact h
  | cons d ds ih =>
    intro s hx h
    exact ih _ (Nat.lt_of_lt_of_le hx (Update_next_id_le solve correct s d))
      (Update_absent solve correct s d x hx h)

/-- One `Update` in which the track `t` is not matched: it is kept, with
`time_since_update` one more, when that does not exceed `max_age`, and no track has
its id otherwise. -/
theorem Update_unmatched (solve : List (List ℚ) → List (Nat × Nat))
    (correct : MotionState → BBox → MotionState) (s : SORT) (dets : List TrackingObject)
    (t : Track) (hwf : s.wf) (ht : t ∈ s.tracks)
    (hun : SORT.unmatched solve s dets t.id) :
    (t.time_since_update + 1 ≤ s.max_age →
      ∃ u ∈ (SORT.Update solve correct s dets).1.tracks,
        u.id = t.id ∧ u.time_since_update = t.time_since_update + 1) ∧
    (s.max_age < t.time_since_update + 1 →
      ∀ u ∈ (SORT.Update solve correct s dets).1.tracks, u.id ≠ t.id) := by
  constructor
  · intro hle
    obtain ⟨j, hj⟩ := List.getElem?_of_mem ht
    have hfind := hun j t hj rfl
    have hup : update_track correct s.max_age s.min_hits
        (associate solve s.iou_threshold (s.tracks.map Track.predict) dets) dets j t.predict
        = { t.predict with age := t.age + 1, time_since_update := t.time_since_update + 1 } := by
      unfold update_track
      rw [hfind]
      show Track.unmatched s.max_age t.predict = _
      unfold Track.unmatched
      rw [if_neg (by show ¬ t.time_since_update + 1 > s.max_age; omega)]
      rfl
    refine ⟨update_track correct s.max_age s.min_hits
        (associate solve s.iou_threshold (s.tracks.map Track.predict) dets) dets j t.predict,
      ?_, ?_, ?_⟩
    · show _ ∈ (update_tracks correct s.max_age s.min_hits
        (associate solve s.iou_threshold (s.tracks.map Track.predict) dets) dets 0
        (s.tracks.map Track.predict)).filter (fun t => t.lifecycle_state != .Deleted)
        ++ spawn_all s.min_hits s.next_id (unmatched_detections
          (associate solve s.iou_threshold (s.tracks.map Track.predict) dets) 0 dets)
      apply List.mem_append_left
      rw [List.mem_filter]
      constructor
      · rw [mem_update_tracks]
        refine ⟨j, t.predict, ?_, by rw [Nat.zero_add]⟩
        rw [List.getElem?_map, hj]
        rfl
      · rw [hup]
        show (t.lifecycle_state != LifecycleState.Deleted) = true
        have := hwf.2.2 t ht
        cases hl : t.lifecycle_state with
        | Deleted => exact absurd hl this
        | Tentative => rfl
        | Confirmed => rfl
    · rw [update_track_id]
      rfl
    · rw [hup]
  · intro hgt u hu hux
    rcases mem_Update_tracks solve correct s dets u hu with ⟨j, t1, ht1, hu1, hnd, hid⟩ | h
    · have heq : t1 = t :=
        wf_id_inj s hwf t1 t (List.mem_iff_getElem?.mpr ⟨_, ht1⟩) ht (by rw [← hid, hux])
      rw [heq] at ht1 hu1
      have hfind := hun j t ht1 rfl
      unfold update_track at hu1
      rw [hfind] at hu1
      apply hnd
      rw [hu1]
      show (Track.unmatched s.max_age t.predict).lifecycle_state = _
      unfold Track.unmatched
      rw [if_pos (by show t.time_since_update + 1 > s.max_age; omega)]
    · have := hwf.2.1 t ht
      omega

/-- Consecutive frames on none of which the track `t` is matched: it is kept while
its `time_since_update` does not exceed `max_age`, and no track has its id
afterwards. -/
theorem run_unmatched (solve : List (List ℚ) → List (Nat × Nat))
    (correct : MotionState → BBox → MotionState) :
    ∀ (frames : List (List TrackingObject)) (s : SORT) (t : Track), s.wf → t ∈ s.tracks →
      SORT.unmatched_run solve correct t.id s frames →
      (t.time_since_update + frames.length ≤ s.max_age →
        ∃ u ∈ (SORT.run solve correct s frames).tracks,
          u.id = t.id ∧ u.time_since_update = t.time_since_update + frames.length) ∧
      (s.max_age < t.time_since_update + frames.length → frames ≠ [] →
        t.id < (SORT.run solve correct s frames).next_id ∧
        ∀ u ∈ (SORT.run solve correct s frames).tracks, u.id ≠ t.id) := by
  intro frames
  induction frames with
  | nil =>
    intro s t _ ht _
    exact ⟨fun _ => ⟨t, ht, rfl, rfl⟩, fun _ h => absurd rfl h⟩
  | cons d ds ih =>
    intro s t hwf ht hun
    obtain ⟨hun1, hun2⟩ := hun
    obtain ⟨hkeep, hdel⟩ := Update_unmatched solve correct s d t hwf ht hun1
    have hwf2 := Update_wf solve correct s d hwf
    have hlen : (d :: ds).length = ds.length + 1 := rfl
    by_cases hle : t.time_since_update + 1 ≤ s.max_age
    · obtain ⟨u, hu, huid, hutsu⟩ := hkeep hle
      rw [← huid] at hun2
      obtain ⟨h1, h2⟩ := ih _ u hwf2 hu hun2
      have hma : (SORT.Update solve correct s d).1.max_age = s.max_age := rfl
      rw [hma, hutsu, huid] at h1 h2
      constructor
      · intro hle2
        obtain ⟨v, hv, hvid, hvtsu⟩ := h1 (by rw [hlen] at hle2; omega)
        exact ⟨v, hv, hvid, by rw [hvtsu, hlen]; omega⟩
      · intro hgt _
        have hne : ds ≠ [] := by
          intro he
          rw [he] at hgt
          simp only [List.length_singleton] at hgt
          omega
        exact h2 (by rw [hlen] at hgt; omega) hne
    · have habs := hdel (by omega)
      have hx : t.id < (SORT.Update solve correct s d).1.next_id :=
        Nat.lt_of_lt_of_le (hwf.2.1 t ht) (Update_next_id_le solve correct s d)
      constructor
      · intro hle2
        rw [hlen] at hle2
        omega
      · intro _ _
        refine ⟨?_, run_absent solve correct t.id ds _ hx habs⟩
        exact Nat.lt_of_lt_of_le hx (run_next_id_le solve correct ds _)

/-- On a frame without detections no track is matched. -/
theorem unmatched_run_empty (solve : List (List ℚ) → List (Nat × Nat))
    (correct : MotionState → BBox → MotionState) (x : Nat) :
    ∀ (k : Nat) (s : SORT), SORT.unmatched_run solve correct x s (List.replicate k []) := by
  intro k
  induction k with
  | zero => intro s; exact trivial
  | succ k ih =>
    intro s
    refine ⟨?_, ih _⟩
    intro i t _ _
    have : associate solve s.iou_threshold (s.tracks.map Track.predict) [] = [] := by
      unfold associate
      rw [List.filter_eq_nil_iff]
      intro p _
      cases (List.map Track.predict s.tracks)[p.1]? <;> simp
    rw [this]
    rfl

/-! ## The tracker: one detection sustained at one place -/

theorem filter_singleton_pos {α : Type} (p : α → Bool) (a : α) (h : p a = true) :
    List.filter p [a] = [a] := by
  rw [List.filter_cons, if_pos h, List.filter_nil]

theorem filter_singleton_neg {α : Type} (p : α → Bool) (a : α) (h : ¬ p a = true) :
    List.filter p [a] = [] := by
  rw [List.filter_cons, if_neg h, List.filter_nil]

theorem iou_self (b : BBox) (hw : 0 < b.width) (hh : 0 < b.height) : BBox.iou b b = 1 := by
  unfold BBox.iou iou_calc
  simp only [HailoBBox.xmax, HailoBBox.xmin, HailoBBox.ymax, HailoBBox.ymin, HailoBBox.width,
    HailoBBox.height, min_self, max_self, add_sub_cancel_left]
  rw [max_eq_left hw.le, max_eq_left hh.le]
  have : b.width * b.height ≠ 0 := (mul_pos hw hh).ne'
  rw [add_sub_cancel_right]
  exact div_self this

theorem init_bbox (b : BBox) : (MotionState.init b).bbox = b := by
  cases b
  simp [MotionState.init, MotionState.bbox]

theorem predict_init (b : BBox) : (MotionState.init b).predict = MotionState.init b := by
  simp [MotionState.init, MotionState.predict]

theorem sustained_predict (m id : Nat) (d : TrackingObject) (k : Nat) :
    (Track.sustained m id d k).predict = Track.sustained m id d k := by
  unfold Track.predict
  simp only [Track.sustained, predict_init]

theorem sustained_matched (correct : MotionState → BBox → MotionState) (m id : Nat)
    (d : TrackingObject) (k : Nat)
    (hcorrect : ∀ x : MotionState, correct x x.bbox = x) :
    Track.matched correct m (Track.sustained m id d k) d = Track.sustained m id d (k + 1) := by
  have hc : correct (MotionState.init d.bBox) d.bBox = MotionState.init d.bBox := by
    have := hcorrect (MotionState.init d.bBox)
    rw [init_bbox] at this
    exact this
  unfold Track.matched Track.promote Track.sustained
  simp only [hc]
  by_cases h1 : k + 1 ≥ m
  · rw [if_pos h1, if_pos h1]
  · rw [if_neg h1, if_neg h1]
    have h2 : ¬ k ≥ m := by omega
    rw [if_neg h2]

/-- A later frame: the one track is matched with the one detection. -/
theorem Update_sustained (solve : List (List ℚ) → List (Nat × Nat))
    (correct : MotionState → BBox → MotionState) (s : SORT) (d : TrackingObject) (id k : Nat)
    (hs : s.tracks = [Track.sustained s.min_hits id d k])
    (hthr : s.iou_threshold ≤ 1) (hw : 0 < d.bBox.width) (hh : 0 < d.bBox.height)
    (hsolve : ∀ c : ℚ, solve [[c]] = [(0, 0)])
    (hcorrect : ∀ x : MotionState, correct x x.bbox = x) :
    (SORT.Update solve correct s [d]).1
      = { s with tracks := [Track.sustained s.min_hits id d (k + 1)] } ∧
    (SORT.Update solve correct s [d]).2
      = if k + 1 ≥ s.min_hits then [(Track.sustained s.min_hits id d (k + 1)).output] else [] := by
  have hiou : BBox.iou (Track.sustained s.min_hits id d k).motion.bbox d.bBox = 1 := by
    show BBox.iou (MotionState.init d.bBox).bbox d.bBox = 1
    rw [init_bbox]
    exact iou_self d.bBox hw hh
  have hp : associate solve s.iou_threshold [Track.sustained s.min_hits id d k] [d]
      = [(0, 0)] := by
    unfold associate cost_matrix
    simp only [List.map_cons, List.map_nil, hsolve]
    have hk : (match [Track.sustained s.min_hits id d k][((0 : Nat), (0 : Nat)).1]?,
        [d][((0 : Nat), (0 : Nat)).2]? with
      | some t, some d => decide (¬ BBox.iou t.motion.bbox d.bBox < s.iou_threshold)
      | _, _ => false) = true := by
      show decide (¬ BBox.iou (Track.sustained s.min_hits id d k).motion.bbox d.bBox
        < s.iou_threshold) = true
      rw [hiou]
      exact decide_eq_true (not_lt.mpr hthr)
    exact filter_singleton_pos _ _ hk
  have hup : update_track correct s.max_age s.min_hits [(0, 0)] [d] 0
      (Track.sustained s.min_hits id d k) = Track.sustained s.min_hits id d (k + 1) := by
    unfold update_track
    show Track.matched correct s.min_hits (Track.sustained s.min_hits id d k) d = _
    exact sustained_matched correct _ _ _ _ hcorrect
  have hnd : ((Track.sustained s.min_hits id d (k + 1)).lifecycle_state
      != LifecycleState.Deleted) = true := by
    unfold Track.sustained
    by_cases h1 : k + 1 ≥ s.min_hits
    · simp only [if_pos h1]; rfl
    · simp only [if_neg h1]; rfl
  unfold SORT.Update
  simp only [hs, List.map_cons, List.map_nil, sustained_predict, hp, update_tracks, hup,
    unmatched_detections]
  rw [filter_singleton_pos (fun t : Track => t.lifecycle_state != LifecycleState.Deleted) _ hnd]
  have hall : (([((0 : Nat), (0 : Nat))] : List (Nat × Nat)).all (fun p => p.2 != 0)) = false := rfl
  simp only [hall, Bool.false_eq_true, if_false, spawn_all, List.append_nil, List.length_nil,
    Nat.add_zero]
  refine ⟨by first | rfl | trivial, ?_⟩
  by_cases h1 : k + 1 ≥ s.min_hits
  · have hr : Track.reported (Track.sustained s.min_hits id d (k + 1)) = true := by
      simp [Track.reported, Track.sustained, h1]
    rw [if_pos h1, filter_singleton_pos _ _ hr]
    rfl
  · have hr : ¬ Track.reported (Track.sustained s.min_hits id d (k + 1)) = true := by
      simp [Track.reported, Track.sustained, h1]
    rw [if_neg h1, filter_singleton_neg _ _ hr]
    rfl

theorem sortOneTrack_wf : sortOneTrack.wf := by
  refine ⟨?_, ?_, ?_⟩
  · exact List.pairwise_singleton _ _
  · intro t ht
    simp only [sortOneTrack, List.mem_singleton] at ht
    rw [ht]
    exact Nat.lt_succ_self 0
  · intro t ht
    simp only [sortOneTrack, List.mem_singleton] at ht
    rw [ht]
    exact fun h => LifecycleState.noConfusion h

theorem correctReplace_bbox (x : MotionState) : correctReplace x x.bbox = x := by
  cases x
  simp [correctReplace, MotionState.bbox]

/-- C22: with trackers whose tracks are held in ascending order of id (as they are
from their construction on, after any calls of `Update`), the merged track list
that `ProcessDetections` builds is the concatenation, for the class indices `0, 1,
...` in this order, of the lists that the trackers return, and each of these lists
ascends strictly in the track id: an entry of a lower class index comes before
one of a higher class index, and within a class the entries come in ascending id.
The trackers are in the same condition after the frame. -/
theorem merged_tracks_ordered (solve : List (List ℚ) → List (Nat × Nat))
    (correct : MotionState → BBox → MotionState) (m_pSortTrackers : Nat → SORT)
    (classCount : Nat) (results : List YoloResult)
    (hwf : ∀ i, i < classCount → (m_pSortTrackers i).wf) :
    (ProcessDetections_track (SORT.Update solve correct) m_pSortTrackers classCount
        results).trackers
      = (List.range classCount).flatMap (fun i =>
          (SORT.Update solve correct (m_pSortTrackers i) (dets_at results i)).2) ∧
    (∀ i, i < classCount →
      ((SORT.Update solve correct (m_pSortTrackers i) (dets_at results i)).2.map
        (fun o => o.trackingID)).Pairwise (fun a b => a < b)) ∧
    (∀ i, i < classCount →
      ((ProcessDetections_track (SORT.Update solve correct) m_pSortTrackers classCount
        results).m_pSortTrackers i).wf) ∧
    (∀ max_age min_hits iou_threshold, (SORT.create max_age min_hits iou_threshold).wf) := by
  obtain ⟨h1, h2, -⟩ := ProcessDetections_track_spec (SORT.Update solve correct)
    m_pSortTrackers results classCount
  refine ⟨h2, ?_, ?_, create_wf⟩
  · intro i hi
    exact Update_output_sorted solve correct _ _ (hwf i hi)
  · intro i hi
    rw [h1 i, if_pos hi]
    exact Update_wf solve correct _ _ (hwf i hi)

/-- C23: in a tracker whose tracks are held in ascending order of id, a track `t`
that was matched last (`time_since_update = 0`) and is then matched on none of the
consecutive `Update` calls `frames` is retained, with `time_since_update` the
number of these calls, while that number is at most `max_age`; once the number
exceeds `max_age`, so on the call that makes it `max_age + 1`, no track has the
id of `t`, and none has it after any further calls, whatever they detect: a
track born later gets an id above it. In one call, an unmatched track `t1` is
retained exactly when `t1.time_since_update + 1 ≤ max_age`. -/
theorem track_deleted_after_max_age (solve : List (List ℚ) → List (Nat × Nat))
    (correct : MotionState → BBox → MotionState) (s : SORT) (t : Track)
    (frames : List (List TrackingObject))
    (hwf : s.wf) (ht : t ∈ s.tracks) (h0 : t.time_since_update = 0)
    (hun : SORT.unmatched_run solve correct t.id s frames) :
    (frames.length ≤ s.max_age →
      ∃ u ∈ (SORT.run solve correct s frames).tracks,
        u.id = t.id ∧ u.time_since_update = frames.length) ∧
    (s.max_age < frames.length →
      ∀ later : List (List TrackingObject),
        ∀ u ∈ (SORT.run solve correct (SORT.run solve correct s frames) later).tracks,
          u.id ≠ t.id) ∧
    (∀ (dets : List TrackingObject) (t1 : Track), t1 ∈ s.tracks →
      SORT.unmatched solve s dets t1.id →
      ((∃ u ∈ (SORT.Update solve correct s dets).1.tracks, u.id = t1.id) ↔
        ¬ t1.time_since_update + 1 > s.max_age)) := by
  obtain ⟨h1, h2⟩ := run_unmatched solve correct frames s t hwf ht hun
  rw [h0, Nat.zero_add] at h1 h2
  refine ⟨h1, ?_, ?_⟩
  · intro hgt later
    have hne : frames ≠ [] := by
      intro he
      rw [he] at hgt
      exact absurd hgt (Nat.not_lt_zero _)
    obtain ⟨hx, habs⟩ := h2 hgt hne
    exact run_absent solve correct t.id later _ hx habs
  · intro dets t1 ht1 hun1
    obtain ⟨hk, hd⟩ := Update_unmatched solve correct s dets t1 hwf ht1 hun1
    constructor
    · rintro ⟨u, hu, hid⟩ hgt
      exact hd (by omega) u hu hid
    · intro hle
      obtain ⟨u, hu, hid, -⟩ := hk (by omega)
      exact ⟨u, hu, hid⟩

/-- C23, witness: a tracker `SORT(30, 5)` with one track, and 31 frames without
detections: the id of the track is gone, also after any later frames. -/
theorem track_deleted_after_max_age_witness :
    sortOneTrack.wf ∧
    sortOneTrack.max_age < (List.replicate 31 ([] : List TrackingObject)).length ∧
    ∀ later : List (List TrackingObject),
      ∀ u ∈ (SORT.run solveFirst correctReplace
        (SORT.run solveFirst correctReplace sortOneTrack (List.replicate 31 [])) later).tracks,
        u.id ≠ 0 :=
  ⟨sortOneTrack_wf, by decide,
    (track_deleted_after_max_age solveFirst correctReplace sortOneTrack
      { id := 0, motion := MotionState.init ⟨1 / 10, 2 / 10, 3 / 10, 4 / 10⟩
        hits := 1, age := 0, time_since_update := 0
        lifecycle_state := .Tentative, label := "person", score := 86 }
      (List.replicate 31 []) sortOneTrack_wf (List.mem_singleton.mpr rfl) rfl
      (unmatched_run_empty solveFirst correctReplace 0 31 sortOneTrack)).2.1 (by decide)⟩

theorem round_half_even_bounds (x : ℚ) : |(round_half_even x : ℚ) - x| ≤ 1 / 2 := by
  have h1 := Int.floor_le x
  have h2 := Int.lt_floor_add_one x
  unfold round_half_even
  rw [abs_le]
  split_ifs with a b c
  · constructor <;> linarith
  · push_cast
    constructor <;> linarith
  · constructor <;> linarith
  · push_cast
    constructor <;> linarith

theorem round_half_even_of_near (x : ℚ) (k : Int) (h : |x - k| < 1 / 2) :
    round_half_even x = k := by
  have hb := round_half_even_bounds x
  rw [abs_lt] at h
  rw [abs_le] at hb
  have h1 : ((round_half_even x : Int) : ℚ) - k < 1 := by linarith [h.1, h.2, hb.1, hb.2]
  have h2 : (k : ℚ) - (round_half_even x : Int) < 1 := by linarith [h.1, h.2, hb.1, hb.2]
  have h3 : round_half_even x - k < 1 := by exact_mod_cast h1
  have h4 : k - round_half_even x < 1 := by exact_mod_cast h2
  omega

theorem f32_ulp_exponent_eq (x : ℚ) (e : Int) (h1 : (2 : ℚ) ^ e ≤ |x|)
    (h2 : |x| < (2 : ℚ) ^ (e + 1)) (h3 : -126 ≤ e) : f32_ulp_exponent x = e - 23 := by
  have hpos : 0 < |x| := lt_of_lt_of_le (zpow_pos (by norm_num) e) h1
  have hle : e ≤ Int.log 2 |x| := (Int.zpow_le_iff_le_log (by norm_num) hpos).mp (by exact_mod_cast h1)
  have hlt : Int.log 2 |x| < e + 1 := (Int.lt_zpow_iff_log_lt (by norm_num) hpos).mp (by exact_mod_cast h2)
  unfold f32_ulp_exponent
  rw [max_eq_left (by omega)]
  omega

/-- The value of `f32` at a number of the binade `[2^e, 2^(e+1))`. -/
theorem f32_eq (x : ℚ) (e m : Int) (h1 : (2 : ℚ) ^ e ≤ |x|)
    (h2 : |x| < (2 : ℚ) ^ (e + 1)) (h3 : -126 ≤ e)
    (hm : round_half_even (x / 2 ^ (e - 23)) = m) : f32 x = m * 2 ^ (e - 23) := by
  unfold f32
  rw [f32_ulp_exponent_eq x e h1 h2 h3, hm]

theorem round_half_even_zero : round_half_even 0 = 0 :=
  round_half_even_of_near 0 0 (by norm_num)

theorem f32_zero : f32 0 = 0 := by
  unfold f32
  rw [zero_div, round_half_even_zero]
  norm_num

/-- The error of one `float` operation. -/
theorem f32_error (x : ℚ) : |f32 x - x| ≤ |x| / 2 ^ 24 + 1 / 2 ^ 150 := by
  by_cases hx : x = 0
  · rw [hx, f32_zero]
    norm_num
  have hq : (0 : ℚ) < 2 ^ f32_ulp_exponent x := zpow_pos (by norm_num) _
  have hb := round_half_even_bounds (x / 2 ^ f32_ulp_exponent x)
  have herr : |f32 x - x| ≤ 2 ^ f32_ulp_exponent x / 2 := by
    have : f32 x - x = ((round_half_even (x / 2 ^ f32_ulp_exponent x) : ℚ)
        - x / 2 ^ f32_ulp_exponent x) * 2 ^ f32_ulp_exponent x := by
      unfold f32
      field_simp
    rw [this, abs_mul, abs_of_pos hq]
    calc _ ≤ 1 / 2 * 2 ^ f32_ulp_exponent x := mul_le_mul_of_nonneg_right hb hq.le
      _ = 2 ^ f32_ulp_exponent x / 2 := by ring
  refine le_trans herr ?_
  have hpos : 0 < |x| := abs_pos.mpr hx
  by_cases hL : -126 ≤ Int.log 2 |x|
  · have he : f32_ulp_exponent x = Int.log 2 |x| - 23 := by
      unfold f32_ulp_exponent
      rw [max_eq_left hL]
    have hle : (2 : ℚ) ^ Int.log 2 |x| ≤ |x| := by
      have := Int.zpow_log_le_self (show 1 < 2 by norm_num) hpos
      exact_mod_cast this
    rw [he, zpow_sub₀ (by norm_num : (2 : ℚ) ≠ 0)]
    have h23 : (2 : ℚ) ^ (23 : Int) = 2 ^ 23 := by norm_num
    rw [h23]
    have : (2 : ℚ) ^ Int.log 2 |x| / 2 ^ 23 / 2 = 2 ^ Int.log 2 |x| / 2 ^ 24 := by ring
    rw [this]
    have h1 : (2 : ℚ) ^ Int.log 2 |x| / 2 ^ 24 ≤ |x| / 2 ^ 24 :=
      div_le_div_of_nonneg_right hle (by norm_num)
    have h2 : (0 : ℚ) ≤ 1 / 2 ^ 150 := by norm_num
    linarith
  · have he : f32_ulp_exponent x = -149 := by
      unfold f32_ulp_exponent
      rw [max_eq_right (by omega)]
      norm_num
    rw [he]
    have h149 : (2 : ℚ) ^ (-149 : Int) / 2 = 1 / 2 ^ 150 := by
      rw [zpow_neg]
      norm_num
    rw [h149]
    have : (0 : ℚ) ≤ |x| / 2 ^ 24 := div_nonneg (abs_nonneg x) (by norm_num)
    linarith

theorem f32_abs_le (x : ℚ) : |f32 x| ≤ |x| + |x| / 2 ^ 24 + 1 / 2 ^ 150 := by
  have h := f32_error x
  have h2 : |f32 x| ≤ |f32 x - x| + |x| := by
    have := abs_add (f32 x - x) x
    rw [sub_add_cancel] at this
    exact this
  linarith

/-- The error of one `float` operation, with the subnormal term as a small number. -/
theorem f32_error_small (x : ℚ) :
    ∃ E : ℚ, 0 ≤ E ∧ E ≤ 1 / 2 ^ 150 ∧ E ≤ 1 / 1000000000 ∧ |f32 x - x| ≤ |x| / 2 ^ 24 + E :=
  ⟨1 / 2 ^ 150, by norm_num, le_refl _, by norm_num, f32_error x⟩

/-- The number written for a `float` value `v` of magnitude up to 8192: it is
`k / 1000` for the integer `k = roundf (v * 1000.0f)`, and it lies within `0.0005`
of `v`, up to the rounding error of the product. -/
theorem emitted_thousandth (v : ℚ) (hv : |v| ≤ 8192) :
    format_3f (f32 (roundf (f32 (v * 1000)) / 1000))
      = (round_int (f32 (v * 1000)) : ℚ) / 1000 ∧
    |(round_int (f32 (v * 1000)) : ℚ) / 1000 - v| ≤ 1 / 2000 + |v| / 2 ^ 24 + 1 / 2 ^ 150 := by
  obtain ⟨E, hE0, hE150, hE9, hp⟩ := f32_error_small (v * 1000)
  have hk := round_int_bounds (f32 (v * 1000))
  have hv1000 : |v * 1000| / 2 ^ 24 = 1000 * (|v| / 2 ^ 24) := by
    rw [abs_mul]
    norm_num
    ring
  rw [hv1000] at hp
  have hA0 : 0 ≤ |v| / 2 ^ 24 := div_nonneg (abs_nonneg v) (by norm_num)
  have hA1 : |v| / 2 ^ 24 ≤ 8192 / 2 ^ 24 := div_le_div_of_nonneg_right hv (by norm_num)
  have hA2 : (8192 : ℚ) / 2 ^ 24 = 1 / 2048 := by norm_num
  rw [hA2] at hA1
  have hvv := abs_le.mp hv
  rw [abs_le] at hp hk
  generalize hkdef : round_int (f32 (v * 1000)) = k at hk ⊢
  generalize |v| / 2 ^ 24 = A at hp hA0 hA1 ⊢
  have hkv : |(k : ℚ) / 1000 - v| ≤ 1 / 2000 + A + 1 / 2 ^ 150 := by
    rw [abs_le]
    constructor
    · rw [le_sub_iff_add_le, le_div_iff₀ (by norm_num)]
      linarith [hp.1, hp.2, hk.1, hk.2]
    · rw [sub_le_iff_le_add, div_le_iff₀ (by norm_num)]
      linarith [hp.1, hp.2, hk.1, hk.2]
  refine ⟨?_, hkv⟩
  have hkabs : |(k : ℚ)| ≤ 8192002 := by
    rw [abs_le]
    constructor
    · linarith [hp.1, hp.2, hk.1, hk.2, hvv.1, hvv.2]
    · linarith [hp.1, hp.2, hk.1, hk.2, hvv.1, hvv.2]
  obtain ⟨E2, hE20, -, hE29, hq⟩ := f32_error_small ((k : ℚ) / 1000)
  have hk1000 : |(k : ℚ) / 1000| / 2 ^ 24 = |(k : ℚ)| / 16777216000 := by
    rw [abs_div]
    norm_num
    ring
  rw [hk1000] at hq
  have hB : |(k : ℚ)| / 16777216000 ≤ 8192002 / 16777216000 :=
    div_le_div_of_nonneg_right hkabs (by norm_num)
  unfold format_3f roundf
  rw [hkdef]
  have hnear : |f32 ((k : ℚ) / 1000) * 1000 - k| < 1 / 2 := by
    rw [abs_le] at hq
    rw [abs_lt]
    constructor
    · linarith [hq.1, hq.2]
    · linarith [hq.1, hq.2]
  rw [round_half_even_of_near _ k hnear]

theorem f32_abs_le_small (x : ℚ) :
    ∃ E : ℚ, 0 ≤ E ∧ E ≤ 1 / 1000000000 ∧ |f32 x| ≤ |x| + |x| / 16777216 + E := by
  obtain ⟨E, hE0, -, hE9, h⟩ := f32_error_small x
  refine ⟨E, hE0, hE9, ?_⟩
  have h2 : |f32 x| ≤ |f32 x - x| + |x| := by
    have := abs_add (f32 x - x) x
    rw [sub_add_cancel] at this
    exact this
  have h3 : ((2 : ℚ) ^ 24) = 16777216 := by norm_num
  rw [h3] at h
  linarith

/-- The centre that `toCenter` computes for values of magnitude up to 4096 has
magnitude at most 8192. -/
theorem toCenter_bound (x w : ℚ) (hx : |x| ≤ 4096) (hw : |w| ≤ 4096) :
    |f32 (x + f32 (w / 2))| ≤ 8192 := by
  obtain ⟨E1, hE10, hE19, h1⟩ := f32_abs_le_small (w / 2)
  obtain ⟨E2, hE20, hE29, h2⟩ := f32_abs_le_small (x + f32 (w / 2))
  have hw2 : |w / 2| = |w| / 2 := by rw [abs_div]; norm_num
  rw [hw2] at h1
  have ha : |x + f32 (w / 2)| ≤ |x| + |f32 (w / 2)| := abs_add _ _
  have hw0 := abs_nonneg w
  have hx0 := abs_nonneg x
  generalize |x + f32 (w / 2)| = a at h2 ha
  generalize |f32 (w / 2)| = b at h1 ha
  generalize |f32 (x + b)| = c at h2
  linarith

/-- C21, counterexample: the width of a box may be the `float` nearest to 0.0025,
`10737418 / 2^32`, just below 0.0025. The `float` product `w * 1000.0f` rounds to
2.5, `roundf` yields 3 and the record carries 0.003, whereas `round(w * 1000) /
1000` is 0.002; and 0.003 differs from the width by more than 0.0005. -/
theorem printDetections_float_counterexample :
    f32 trackFloat.bBox.width = trackFloat.bBox.width ∧
    f32 (trackFloat.bBox.width * 1000) = 5 / 2 ∧
    (printDetections_record trackFloat).w = 3 / 1000 ∧
    roundf (trackFloat.bBox.width * 1000) / 1000 = 2 / 1000 ∧
    5 / 10000 < |(printDetections_record trackFloat).w - trackFloat.bBox.width| := by
  have hw : trackFloat.bBox.width = 10737418 / 4294967296 := rfl
  have h1 : f32 (10737418 / 4294967296) = 10737418 / 4294967296 := by
    rw [f32_eq (10737418 / 4294967296) (-9) 10737418 (by norm_num [abs_of_pos])
      (by norm_num [abs_of_pos]) (by norm_num)
      (round_half_even_of_near _ _ (by norm_num))]
    norm_num
  have h2 : f32 (10737418 / 4294967296 * 1000) = 5 / 2 := by
    rw [f32_eq (10737418 / 4294967296 * 1000) 1 10485760 (by norm_num [abs_of_pos])
      (by norm_num [abs_of_pos]) (by norm_num)
      (round_half_even_of_near _ _ (by norm_num [abs_lt]))]
    norm_num
  have h3 : roundf (5 / 2) = 3 := by
    unfold roundf round_int
    norm_num
  have h4 : f32 (3 / 1000) = 12884902 / 4294967296 := by
    rw [f32_eq (3 / 1000) (-9) 12884902 (by norm_num [abs_of_pos])
      (by norm_num [abs_of_pos]) (by norm_num)
      (round_half_even_of_near _ _ (by norm_num [abs_lt]))]
    norm_num
  have h5 : format_3f (12884902 / 4294967296) = 3 / 1000 := by
    unfold format_3f
    rw [round_half_even_of_near _ 3 (by norm_num [abs_lt])]
    norm_num
  have hrec : (printDetections_record trackFloat).w = 3 / 1000 := by
    show format_3f (f32 (roundf (f32 (trackFloat.bBox.width * 1000)) / 1000)) = 3 / 1000
    rw [hw, h2, h3, h4, h5]
  refine ⟨by rw [hw, h1], by rw [hw, h2], hrec, ?_, ?_⟩
  · rw [hw]
    unfold roundf round_int
    norm_num
  · rw [hrec, hw]
    norm_num [abs_of_pos]

/-- C21, amended: for a track whose top-left box `(x, y, w, h)` has values of
magnitude up to 4096, `toCenter` computes `(fl(x + fl(w/2)), fl(y + fl(h/2)), w, h)` in `float`
arithmetic, and for each of these four values `v` the record that
`printDetections` writes carries `k / 1000` with the integer
`k = roundf(fl(v * 1000))`, the product being rounded to `float` before `roundf`:
a multiple of 0.001 that differs from `v` by at most `0.0005 + |v| / 2^24 +
2^-150`. The record carries the id and the name of the track, and the records come
in the order of the tracks. -/
theorem printDetections_rounds_to_thousandths (trackers : List TrackingObject)
    (t : TrackingObject)
    (hx : |t.bBox.x| ≤ 4096) (hy : |t.bBox.y| ≤ 4096)
    (hw : |t.bBox.width| ≤ 4096) (hh : |t.bBox.height| ≤ 4096) :
    printDetections trackers = trackers.map printDetections_record ∧
    toCenter t.bBox = ⟨f32 (t.bBox.x + f32 (t.bBox.width / 2)),
      f32 (t.bBox.y + f32 (t.bBox.height / 2)), t.bBox.width, t.bBox.height⟩ ∧
    (printDetections_record t).TrackID = t.trackingID ∧
    (printDetections_record t).name = t.name ∧
    (printDetections_record t).center_x
      = (round_int (f32 ((toCenter t.bBox).x * 1000)) : ℚ) / 1000 ∧
    (printDetections_record t).center_y
      = (round_int (f32 ((toCenter t.bBox).y * 1000)) : ℚ) / 1000 ∧
    (printDetections_record t).w
      = (round_int (f32 ((toCenter t.bBox).width * 1000)) : ℚ) / 1000 ∧
    (printDetections_record t).h
      = (round_int (f32 ((toCenter t.bBox).height * 1000)) : ℚ) / 1000 ∧
    |(printDetections_record t).center_x - (toCenter t.bBox).x|
      ≤ 1 / 2000 + |(toCenter t.bBox).x| / 2 ^ 24 + 1 / 2 ^ 150 ∧
    |(printDetections_record t).center_y - (toCenter t.bBox).y|
      ≤ 1 / 2000 + |(toCenter t.bBox).y| / 2 ^ 24 + 1 / 2 ^ 150 ∧
    |(printDetections_record t).w - (toCenter t.bBox).width|
      ≤ 1 / 2000 + |(toCenter t.bBox).width| / 2 ^ 24 + 1 / 2 ^ 150 ∧
    |(printDetections_record t).h - (toCenter t.bBox).height|
      ≤ 1 / 2000 + |(toCenter t.bBox).height| / 2 ^ 24 + 1 / 2 ^ 150 := by
  have hcx : |(toCenter t.bBox).x| ≤ 8192 := toCenter_bound _ _ hx hw
  have hcy : |(toCenter t.bBox).y| ≤ 8192 := toCenter_bound _ _ hy hh
  have hcw : |(toCenter t.bBox).width| ≤ 8192 := le_trans hw (by norm_num)
  have hch : |(toCenter t.bBox).height| ≤ 8192 := le_trans hh (by norm_num)
  obtain ⟨ex, bx⟩ := emitted_thousandth _ hcx
  obtain ⟨ey, bY⟩ := emitted_thousandth _ hcy
  obtain ⟨ew, bw⟩ := emitted_thousandth _ hcw
  obtain ⟨eh, bh⟩ := emitted_thousandth _ hch
  have rx : (printDetections_record t).center_x
      = (round_int (f32 ((toCenter t.bBox).x * 1000)) : ℚ) / 1000 := ex
  have ry : (printDetections_record t).center_y
      = (round_int (f32 ((toCenter t.bBox).y * 1000)) : ℚ) / 1000 := ey
  have rw1 : (printDetections_record t).w
      = (round_int (f32 ((toCenter t.bBox).width * 1000)) : ℚ) / 1000 := ew
  have rh : (printDetections_record t).h
      = (round_int (f32 ((toCenter t.bBox).height * 1000)) : ℚ) / 1000 := eh
  refine ⟨rfl, rfl, rfl, rfl, rx, ry, rw1, rh, ?_, ?_, ?_, ?_⟩
  · rw [rx]; exact bx
  · rw [ry]; exact bY
  · rw [rw1]; exact bw
  · rw [rh]; exact bh

/-- C21, witness: the track of the counterexample; its width is written as 0.003 =
`roundf(2.5) / 1000`. -/
theorem printDetections_rounds_to_thousandths_witness :
    |trackFloat.bBox.x| ≤ 4096 ∧ |trackFloat.bBox.y| ≤ 4096 ∧
    |trackFloat.bBox.width| ≤ 4096 ∧ |trackFloat.bBox.height| ≤ 4096 ∧
    (printDetections_record trackFloat).w
      = (round_int (f32 ((toCenter trackFloat.bBox).width * 1000)) : ℚ) / 1000 ∧
    |(printDetections_record trackFloat).w - (toCenter trackFloat.bBox).width|
      ≤ 1 / 2000 + |(toCenter trackFloat.bBox).width| / 2 ^ 24 + 1 / 2 ^ 150 :=
  have h := printDetections_rounds_to_thousandths [trackFloat] trackFloat
    (by norm_num [trackFloat, abs_of_pos]) (by norm_num [trackFloat, abs_of_pos])
    (by norm_num [trackFloat, abs_of_pos]) (by norm_num [trackFloat, abs_of_pos])
  ⟨by norm_num [trackFloat, abs_of_pos], by norm_num [trackFloat, abs_of_pos],
    by norm_num [trackFloat, abs_of_pos], by norm_num [trackFloat, abs_of_pos],
    h.2.2.2.2.2.2.1, h.2.2.2.2.2.2.2.2.2.2.1⟩

/-! ## The three detections of the test frame -/

theorem object_resultCarA :
    ProcessDetections_object resultCarA = ⟨⟨1 / 8, 1 / 8, 1 / 4, 1 / 4⟩, 88, "car", 0⟩ := by
  have h : f32 (7 / 8 * 100) = 175 / 2 := by
    rw [f32_eq (7 / 8 * 100) 6 11468800 (by norm_num [abs_of_pos])
      (by norm_num [abs_of_pos]) (by norm_num)
      (round_half_even_of_near _ _ (by norm_num [abs_lt]))]
    norm_num
  have hr : round_int (175 / 2) = 88 := by
    unfold round_int
    norm_num
  unfold ProcessDetections_object resultCarA
  simp only [h, hr]
  norm_num [uint_of_int]
  rfl

theorem object_resultPerson :
    ProcessDetections_object resultPerson
      = ⟨⟨1 / 2, 1 / 2, 1 / 4, 3 / 8⟩, 75, "person", 0⟩ := by
  have h : f32 (3 / 4 * 100) = 75 := by
    rw [f32_eq (3 / 4 * 100) 6 9830400 (by norm_num [abs_of_pos])
      (by norm_num [abs_of_pos]) (by norm_num)
      (round_half_even_of_near _ _ (by norm_num [abs_lt]))]
    norm_num
  have hr : round_int 75 = 75 := by
    unfold round_int
    norm_num
  unfold ProcessDetections_object resultPerson
  simp only [h, hr]
  norm_num [uint_of_int]
  rfl

theorem object_resultCarB :
    ProcessDetections_object resultCarB = ⟨⟨0, 1 / 2, 1, 1 / 4⟩, 50, "car", 0⟩ := by
  have h : f32 (1 / 2 * 100) = 50 := by
    rw [f32_eq (1 / 2 * 100) 5 13107200 (by norm_num [abs_of_pos])
      (by norm_num [abs_of_pos]) (by norm_num)
      (round_half_even_of_near _ _ (by norm_num [abs_lt]))]
    norm_num
  have hr : round_int 50 = 50 := by
    unfold round_int
    norm_num
  unfold ProcessDetections_object resultCarB
  simp only [h, hr]
  norm_num [uint_of_int]
  rfl

theorem resultsTwoClasses_int :
    ∀ res ∈ resultsTwoClasses, -2 ^ 31 ≤ res.classID ∧ res.classID < 2 ^ 31 := by
  intro res hres
  simp only [resultsTwoClasses, List.mem_cons, List.mem_singleton, List.not_mem_nil,
    or_false] at hres
  rcases hres with h | h | h <;> rw [h] <;> norm_num [resultCarA, resultPerson, resultCarB]

theorem detections_of_class_two :
    detections_of_class resultsTwoClasses 0 = [⟨⟨1 / 2, 1 / 2, 1 / 4, 3 / 8⟩, 75, "person", 0⟩] ∧
    detections_of_class resultsTwoClasses 1
      = [⟨⟨1 / 8, 1 / 8, 1 / 4, 1 / 4⟩, 88, "car", 0⟩, ⟨⟨0, 1 / 2, 1, 1 / 4⟩, 50, "car", 0⟩] := by
  have hA : resultCarA.classID = 2 := rfl
  have hP : resultPerson.classID = 1 := rfl
  have hB : resultCarB.classID = 2 := rfl
  constructor
  · simp [detections_of_class, resultsTwoClasses, List.filter_cons, hA, hP, hB,
      object_resultPerson]
  · simp [detections_of_class, resultsTwoClasses, List.filter_cons, hA, hP, hB,
      object_resultCarA, object_resultCarB]

/-- C29: for class ids that are `int` values and fewer than `2^31` classes, on every
frame `ProcessDetections` calls `Update` once on each of the `GetClassCount()`
per-class trackers, in ascending index order; tracker `i` receives exactly the
detections of the frame whose class id is `i + 1`, in their input order (the
empty list when there are none), each converted to the object with the box
`(x, y, w, h)` clamped by `x < 0 → 0`, `y < 0 → 0`, `w > 1 → 1`, `h > 1 → 1`, the
score `round(classProb * 100)` and the label of the detection; the state of the
tracker becomes the one that `Update` yields, and the merged list is the
concatenation of what the calls return. Hence, when every class id lies in `[1,
GetClassCount()]`, in particular in `[1, label_count - 1]`, the detections handed
to the trackers are those of the frame, each one handed to exactly one tracker and
none dropped. -/
theorem ProcessDetections_updates_each_tracker {S : Type}
    (Update : S → List TrackingObject → S × List TrackingObject)
    (m_pSortTrackers : Nat → S) (classCount : Nat) (results : List YoloResult)
    (hn : classCount < 2 ^ 31)
    (hid : ∀ res ∈ results, -2 ^ 31 ≤ res.classID ∧ res.classID < 2 ^ 31) :
    (ProcessDetections_track Update m_pSortTrackers classCount results).calls
      = (List.range classCount).map (fun i => (i, detections_of_class results i)) ∧
    (ProcessDetections_track Update m_pSortTrackers classCount results).trackers
      = (List.range classCount).flatMap
          (fun i => (Update (m_pSortTrackers i) (detections_of_class results i)).2) ∧
    (∀ i, i < classCount →
      (ProcessDetections_track Update m_pSortTrackers classCount results).m_pSortTrackers i
        = (Update (m_pSortTrackers i) (detections_of_class results i)).1) ∧
    (∀ i, classCount ≤ i →
      (ProcessDetections_track Update m_pSortTrackers classCount results).m_pSortTrackers i
        = m_pSortTrackers i) ∧
    ((∀ res ∈ results, 1 ≤ res.classID ∧ res.classID ≤ (classCount : Int)) →
      (((ProcessDetections_track Update m_pSortTrackers classCount results).calls).flatMap
        (fun c => c.2)).Perm (results.map ProcessDetections_object)) ∧
    (∀ i, detections_of_class results i
      = (results.filter (fun res => decide (res.classID = (i : Int) + 1))).map
          (fun (res : YoloResult) =>
            ({ bBox := ⟨if res.x < 0 then (0 : ℚ) else res.x, if res.y < 0 then (0 : ℚ) else res.y,
                        if res.w > 1 then (1 : ℚ) else res.w,
                        if res.h > 1 then (1 : ℚ) else res.h⟩
               score := uint_of_int (round_int (f32 (res.classProb * 100)))
               name := res.label
               trackingID := 0 } : TrackingObject))) ∧
    (∀ res : YoloResult,
      (ProcessDetections_object res).bBox
        = ⟨if res.x < 0 then (0 : ℚ) else res.x, if res.y < 0 then (0 : ℚ) else res.y,
           if res.w > 1 then (1 : ℚ) else res.w, if res.h > 1 then (1 : ℚ) else res.h⟩ ∧
      (ProcessDetections_object res).score
        = uint_of_int (round_int (f32 (res.classProb * 100))) ∧
      (ProcessDetections_object res).name = res.label) := by
  obtain ⟨h1, h2, h3⟩ := ProcessDetections_track_spec Update m_pSortTrackers results classCount
  have hd : ∀ i ∈ List.range classCount, dets_at results i = detections_of_class results i := by
    intro i hi
    rw [List.mem_range] at hi
    exact group_of_class results i (by omega) hid
  have hcalls : (ProcessDetections_track Update m_pSortTrackers classCount results).calls
      = (List.range classCount).map (fun i => (i, detections_of_class results i)) := by
    rw [h3]
    exact List.map_congr_left (fun i hi => by rw [hd i hi])
  refine ⟨hcalls, ?_, ?_, ?_, ?_, fun _ => rfl, fun _ => ⟨rfl, rfl, rfl⟩⟩
  · rw [h2]
    exact flatMap_congr_mem _ _ _ (fun i hi => by rw [hd i hi])
  · intro i hi
    rw [h1 i, if_pos hi, hd i (List.mem_range.mpr hi)]
  · intro i hi
    rw [h1 i, if_neg (by omega)]
  · intro hall
    rw [hcalls, List.flatMap_def, List.map_map, ← List.flatMap_def]
    have hf : results.filter (fun res => decide (1 ≤ res.classID ∧ res.classID ≤ (classCount : Int)))
        = results := by
      rw [List.filter_eq_self]
      intro res hres
      exact decide_eq_true (hall res hres)
    have hp := filter_class_perm results classCount
    rw [hf] at hp
    exact hp

/-- C29, witness: a frame with detections of the classes 2, 1 and 2, the last one
reaching out of the frame, and two trackers that count their calls: tracker 0
receives the person, tracker 1 the two cars in their input order, with the
clamped boxes and the scores 88, 75 and 50. -/
theorem ProcessDetections_updates_each_tracker_witness :
    (2 : Nat) < 2 ^ 31 ∧
    (∀ res ∈ resultsTwoClasses, -2 ^ 31 ≤ res.classID ∧ res.classID < 2 ^ 31) ∧
    (ProcessDetections_track (fun (s : Nat) (dets : List TrackingObject) => (s + 1, dets))
        (fun _ => 0) 2 resultsTwoClasses).calls
      = [(0, [⟨⟨1 / 2, 1 / 2, 1 / 4, 3 / 8⟩, 75, "person", 0⟩]),
         (1, [⟨⟨1 / 8, 1 / 8, 1 / 4, 1 / 4⟩, 88, "car", 0⟩,
              ⟨⟨0, 1 / 2, 1, 1 / 4⟩, 50, "car", 0⟩])] :=
  ⟨by norm_num, resultsTwoClasses_int,
    (ProcessDetections_updates_each_tracker
      (fun (s : Nat) (dets : List TrackingObject) => (s + 1, dets)) (fun _ => 0) 2
      resultsTwoClasses (by norm_num) resultsTwoClasses_int).1.trans
      (by
        show [(0, detections_of_class resultsTwoClasses 0),
          (1, detections_of_class resultsTwoClasses 1)] = _
        rw [detections_of_class_two.1, detections_of_class_two.2])⟩

/-! ## Two trackers that hold Confirmed tracks -/

theorem solveDiagonal_one (c : ℚ) : solveDiagonal [[c]] = [(0, 0)] := rfl

/-- Two tracks sustained at the places of two detections, paired by the diagonal
solver: both are matched, and both are returned once they have `min_hits` hits. -/
theorem Update_sustained_two (correct : MotionState → BBox → MotionState) (s : SORT)
    (d1 d2 : TrackingObject) (id1 id2 k1 k2 : Nat)
    (hs : s.tracks = [Track.sustained s.min_hits id1 d1 k1, Track.sustained s.min_hits id2 d2 k2])
    (hthr : s.iou_threshold ≤ 1)
    (hw1 : 0 < d1.bBox.width) (hh1 : 0 < d1.bBox.height)
    (hw2 : 0 < d2.bBox.width) (hh2 : 0 < d2.bBox.height)
    (hk1 : k1 + 1 ≥ s.min_hits) (hk2 : k2 + 1 ≥ s.min_hits)
    (hcorrect : ∀ x : MotionState, correct x x.bbox = x) :
    (SORT.Update solveDiagonal correct s [d1, d2]).2
      = [(Track.sustained s.min_hits id1 d1 (k1 + 1)).output,
         (Track.sustained s.min_hits id2 d2 (k2 + 1)).output] := by
  have hiou1 : BBox.iou (Track.sustained s.min_hits id1 d1 k1).motion.bbox d1.bBox = 1 := by
    show BBox.iou (MotionState.init d1.bBox).bbox d1.bBox = 1
    rw [init_bbox]
    exact iou_self d1.bBox hw1 hh1
  have hiou2 : BBox.iou (Track.sustained s.min_hits id2 d2 k2).motion.bbox d2.bBox = 1 := by
    show BBox.iou (MotionState.init d2.bBox).bbox d2.bBox = 1
    rw [init_bbox]
    exact iou_self d2.bBox hw2 hh2
  have hsolve : solveDiagonal (cost_matrix
      [Track.sustained s.min_hits id1 d1 k1, Track.sustained s.min_hits id2 d2 k2] [d1, d2])
      = [(0, 0), (1, 1)] := rfl
  have hp : associate solveDiagonal s.iou_threshold
      [Track.sustained s.min_hits id1 d1 k1, Track.sustained s.min_hits id2 d2 k2] [d1, d2]
      = [(0, 0), (1, 1)] := by
    unfold associate
    rw [hsolve]
    have hk0 : decide (¬ BBox.iou (Track.sustained s.min_hits id1 d1 k1).motion.bbox d1.bBox
        < s.iou_threshold) = true := by
      rw [hiou1]
      exact decide_eq_true (not_lt.mpr hthr)
    have hk1 : decide (¬ BBox.iou (Track.sustained s.min_hits id2 d2 k2).motion.bbox d2.bBox
        < s.iou_threshold) = true := by
      rw [hiou2]
      exact decide_eq_true (not_lt.mpr hthr)
    simp only [List.filter_cons, List.filter_nil, List.getElem?_cons_zero,
      List.getElem?_cons_succ, hk0, hk1, if_true]
  have hup1 : update_track correct s.max_age s.min_hits [(0, 0), (1, 1)] [d1, d2] 0
      (Track.sustained s.min_hits id1 d1 k1) = Track.sustained s.min_hits id1 d1 (k1 + 1) := by
    unfold update_track
    show Track.matched correct s.min_hits (Track.sustained s.min_hits id1 d1 k1) d1 = _
    exact sustained_matched correct _ _ _ _ hcorrect
  have hup2 : update_track correct s.max_age s.min_hits [(0, 0), (1, 1)] [d1, d2] (0 + 1)
      (Track.sustained s.min_hits id2 d2 k2) = Track.sustained s.min_hits id2 d2 (k2 + 1) := by
    unfold update_track
    show Track.matched correct s.min_hits (Track.sustained s.min_hits id2 d2 k2) d2 = _
    exact sustained_matched correct _ _ _ _ hcorrect
  have hc1 : (Track.sustained s.min_hits id1 d1 (k1 + 1)).lifecycle_state = .Confirmed := by
    unfold Track.sustained
    simp only [if_pos hk1]
  have hc2 : (Track.sustained s.min_hits id2 d2 (k2 + 1)).lifecycle_state = .Confirmed := by
    unfold Track.sustained
    simp only [if_pos hk2]
  have hall0 : (([((0 : Nat), (0 : Nat)), (1, 1)] : List (Nat × Nat)).all
      (fun p => p.2 != 0)) = false := rfl
  have hall1 : (([((0 : Nat), (0 : Nat)), (1, 1)] : List (Nat × Nat)).all
      (fun p => p.2 != 0 + 1)) = false := rfl
  have hne : (LifecycleState.Confirmed != LifecycleState.Deleted) = true := by decide
  have hr1 : Track.reported (Track.sustained s.min_hits id1 d1 (k1 + 1)) = true := by
    simp [Track.reported, Track.sustained, hk1]
  have hr2 : Track.reported (Track.sustained s.min_hits id2 d2 (k2 + 1)) = true := by
    simp [Track.reported, Track.sustained, hk2]
  unfold SORT.Update
  simp only [hs, List.map_cons, List.map_nil, sustained_predict, hp, update_tracks, hup1, hup2,
    unmatched_detections, hall0, hall1, Bool.false_eq_true, if_false, spawn_all,
    List.append_nil, List.filter_cons, List.filter_nil, hc1, hc2, hne, if_true, hr1, hr2]

theorem sortPerson_wf : sortPerson.wf := by
  refine ⟨?_, ?_, ?_⟩
  · exact List.pairwise_singleton _ _
  · intro t ht
    simp only [sortPerson, List.mem_singleton] at ht
    rw [ht]
    show 4 < 5
    norm_num
  · intro t ht
    simp only [sortPerson, List.mem_singleton] at ht
    rw [ht]
    exact fun h => LifecycleState.noConfusion h

theorem sortCars_wf : sortCars.wf := by
  refine ⟨?_, ?_, ?_⟩
  · show List.Pairwise (fun a b => a < b) [2, 5]
    simp
  · intro t ht
    simp only [sortCars, List.mem_cons, List.mem_singleton, List.not_mem_nil, or_false] at ht
    rcases ht with h | h <;> rw [h]
    · show 2 < 6
      norm_num
    · show 5 < 6
      norm_num
  · intro t ht
    simp only [sortCars, List.mem_cons, List.mem_singleton, List.not_mem_nil, or_false] at ht
    rcases ht with h | h <;> rw [h] <;> exact fun h => LifecycleState.noConfusion h

theorem trackersTwoClasses_wf : ∀ i, i < 2 → (trackersTwoClasses i).wf := by
  intro i _
  unfold trackersTwoClasses
  split_ifs
  · exact sortPerson_wf
  · exact sortCars_wf

/-- What the two trackers return on the test frame. -/
theorem trackersTwoClasses_outputs :
    (List.range 2).flatMap (fun i =>
      (SORT.Update solveDiagonal correctReplace (trackersTwoClasses i)
        (dets_at resultsTwoClasses i)).2)
    = [⟨⟨1 / 2, 1 / 2, 1 / 4, 3 / 8⟩, 75, "person", 4⟩,
       ⟨⟨1 / 8, 1 / 8, 1 / 4, 1 / 4⟩, 88, "car", 2⟩,
       ⟨⟨0, 1 / 2, 1, 1 / 4⟩, 50, "car", 5⟩] := by
  have hd0 : dets_at resultsTwoClasses 0 = [ProcessDetections_object resultPerson] := by
    rw [show dets_at resultsTwoClasses 0 = detections_of_class resultsTwoClasses 0 from
      group_of_class resultsTwoClasses 0 (by norm_num) resultsTwoClasses_int,
      detections_of_class_two.1, object_resultPerson]
  have hd1 : dets_at resultsTwoClasses 1
      = [ProcessDetections_object resultCarA, ProcessDetections_object resultCarB] := by
    rw [show dets_at resultsTwoClasses 1 = detections_of_class resultsTwoClasses 1 from
      group_of_class resultsTwoClasses 1 (by norm_num) resultsTwoClasses_int,
      detections_of_class_two.2, object_resultCarA, object_resultCarB]
  have hP := (Update_sustained solveDiagonal correctReplace sortPerson
    (ProcessDetections_object resultPerson) 4 5 rfl (by norm_num [sortPerson])
    (by rw [object_resultPerson]; norm_num) (by rw [object_resultPerson]; norm_num)
    solveDiagonal_one correctReplace_bbox).2
  have hC := Update_sustained_two correctReplace sortCars
    (ProcessDetections_object resultCarA) (ProcessDetections_object resultCarB) 2 5 5 5 rfl
    (by norm_num [sortCars])
    (by rw [object_resultCarA]; norm_num) (by rw [object_resultCarA]; norm_num)
    (by rw [object_resultCarB]; norm_num) (by rw [object_resultCarB]; norm_num)
    (by decide) (by decide) correctReplace_bbox
  have h0 : trackersTwoClasses 0 = sortPerson := rfl
  have h1 : trackersTwoClasses 1 = sortCars := rfl
  show (SORT.Update solveDiagonal correctReplace (trackersTwoClasses 0)
      (dets_at resultsTwoClasses 0)).2
    ++ ((SORT.Update solveDiagonal correctReplace (trackersTwoClasses 1)
      (dets_at resultsTwoClasses 1)).2 ++ []) = _
  rw [h0, h1, hd0, hd1, hP, hC, if_pos (by decide)]
  simp only [Track.output, Track.sustained, init_bbox, object_resultPerson, object_resultCarA,
    object_resultCarB, List.append_nil, List.singleton_append]

/-- C22, witness: a tracker of the class 1 with the Confirmed track 4 and a tracker
of the class 2 with the Confirmed tracks 2 and 5, both `SORT(30, 5)`, on a frame
that detects the three objects again: the merged list holds the track of the
class 1 first, then those of the class 2 in ascending id, 2 before 5. -/
theorem merged_tracks_ordered_witness :
    (∀ i, i < 2 → (trackersTwoClasses i).wf) ∧
    (ProcessDetections_track (SORT.Update solveDiagonal correctReplace) trackersTwoClasses 2
        resultsTwoClasses).trackers
      = [⟨⟨1 / 2, 1 / 2, 1 / 4, 3 / 8⟩, 75, "person", 4⟩,
         ⟨⟨1 / 8, 1 / 8, 1 / 4, 1 / 4⟩, 88, "car", 2⟩,
         ⟨⟨0, 1 / 2, 1, 1 / 4⟩, 50, "car", 5⟩] ∧
    (∀ i, i < 2 →
      ((SORT.Update solveDiagonal correctReplace (trackersTwoClasses i)
        (dets_at resultsTwoClasses i)).2.map (fun o => o.trackingID)).Pairwise
          (fun a b => a < b)) :=
  ⟨trackersTwoClasses_wf,
    (merged_tracks_ordered solveDiagonal correctReplace trackersTwoClasses 2 resultsTwoClasses
      trackersTwoClasses_wf).1.trans trackersTwoClasses_outputs,
    (merged_tracks_ordered solveDiagonal correctReplace trackersTwoClasses 2 resultsTwoClasses
      trackersTwoClasses_wf).2.1⟩

/-! ## A detection without extent -/

end Hailo
